import Mathlib

/-! Nimo: score and streak aggregation engine.

A shallow embedding of `ScoreService`, `StreakService`, `ScoreRepository` and
`StreakRepository`, of the status operations of `OccurrenceService`, of
`GoalService::validateGoal` and of the week-start loop of `DashboardService`, followed by
theorems about them.

Modelling conventions.

* C++ `int` is `Int`.  The two sums that the score loops accumulate over arbitrary rows,
  `earnedScore` and `targetScore`, are reduced to the 32-bit two's-complement range after
  each addition (`wrapInt32`), as the compiled code does when an addition overflows.  The
  counters that grow by one per row or per streak update are not reduced: they leave the
  range only after `2 ^ 31` rows or updates.
* A C++ `double` is the rational it denotes.  A floating-point operation of the source is
  the exact operation on `ℚ` followed by `roundDouble`, the rounding of IEEE 754 binary64 to
  the nearest value, ties to even.  Infinities and NaN do not arise: every division is
  guarded and every operand comes from an `int`.
* A valid `QDate` is its Julian day number; a date that may be null is an
  `Option QDate`.  The services are modelled for valid dates, which is what their
  callers pass (`OccurrenceService` checks `date.isValid()` before it asks for a
  recalculation).
* The functions of `QDate` that the sources call (`dayOfWeek`, `addDays`, `year`, `month`,
  `weekNumber`) are those of Qt on Julian days, in the proleptic Gregorian calendar.
* A `QString` is a `String`; `QString::length` counts UTF-16 code units, and a
  `QRegularExpression` matches as PCRE does with no pattern option set.
* A database table is the list of its rows in insertion order.  Whether a
  `query.exec()` succeeds is decided by the database, so every repository operation
  takes that outcome as an argument.
* The `World` records the tables, the Qt signals emitted, the error codes handed to
  `scope.logError` by the two services, and the repository calls made.
-/

namespace Nimo

/-! ## Data model -/

/-- A valid `QDate`, as its Julian day number. -/
abbrev QDate := Int

/-- A valid `QDateTime`, as milliseconds since the epoch. -/
abbrev QDateTime := Int

/-- The `Occurrence` struct of `occurrencerepository.h`. -/
structure Occurrence where
  id : String
  goalId : String
  date : Option QDate
  weekStart : Option QDate
  monthStart : Option QDate
  yearStart : Option QDate
  status : String
  completedAt : Option QDateTime
  scoreImpact : Int
  notes : String
deriving DecidableEq, Repr

/-- The `Goal` struct of `goalrepository.h`. -/
structure Goal where
  id : String
  title : String
  scope : String
  points : Int
  missingBehavior : String
  penaltyPoints : Int
  category : String
  notes : String
  iconName : String
  colorHex : String
  sortOrder : Int
  isActive : Bool
deriving DecidableEq, Repr

/-- The private struct `ScoreService::ScoreCalculation`. -/
structure ScoreCalculation where
  earnedScore : Int
  targetScore : Int
  completionPercentage : ℚ
  completedCount : Int
  skippedCount : Int
  notCompletedCount : Int
  pendingCount : Int
  totalCount : Int
  hasNegativeOutcome : Bool
deriving DecidableEq, Repr

/-- The `DailyScore` struct; also the shape of a row of `daily_scores`. -/
structure DailyScore where
  date : QDate
  earnedScore : Int
  targetScore : Int
  completionPercentage : ℚ
  completedCount : Int
  skippedCount : Int
  notCompletedCount : Int
  pendingCount : Int
  totalCount : Int
  perfectDay : Bool
  hasNegativeOutcome : Bool
deriving DecidableEq, Repr

/-- The `WeeklyScore` struct; also the shape of a row of `weekly_scores`. -/
structure WeeklyScore where
  weekStart : QDate
  year : Int
  weekNumber : Int
  earnedScore : Int
  targetScore : Int
  completionPercentage : ℚ
  completedCount : Int
  skippedCount : Int
  notCompletedCount : Int
  pendingCount : Int
  totalCount : Int
deriving DecidableEq, Repr

/-- The `MonthlyScore` struct; also the shape of a row of `monthly_scores`. -/
structure MonthlyScore where
  monthStart : QDate
  year : Int
  month : Int
  earnedScore : Int
  targetScore : Int
  completionPercentage : ℚ
  completedCount : Int
  skippedCount : Int
  notCompletedCount : Int
  pendingCount : Int
  totalCount : Int
deriving DecidableEq, Repr

/-- The `YearlyScore` struct; also the shape of a row of `yearly_scores`.  The date
`yearStart` is `none` when it is invalid, which the database stores as NULL. -/
structure YearlyScore where
  yearStart : Option QDate
  year : Int
  earnedScore : Int
  targetScore : Int
  completionPercentage : ℚ
  completedCount : Int
  skippedCount : Int
  notCompletedCount : Int
  pendingCount : Int
  totalCount : Int
deriving DecidableEq, Repr

/-- The `Streak` struct of `streakrepository.h`. -/
structure Streak where
  id : String
  goalId : String
  scope : String
  currentStreak : Int
  longestStreak : Int
  lastSuccessDate : Option QDate
  lastBreakDate : Option QDate
  totalSuccesses : Int
  totalFailures : Int
  successRate : ℚ
deriving DecidableEq, Repr

/-- A row of the `streaks` table.  The column `goal_id` is nullable: `none` is SQL
NULL, which marks the overall streak of a scope. -/
structure StreakRow where
  id : String
  goalId : Option String
  scope : String
  currentStreak : Int
  longestStreak : Int
  lastSuccessDate : Option QDate
  lastBreakDate : Option QDate
  totalSuccesses : Int
  totalFailures : Int
  successRate : ℚ
deriving DecidableEq, Repr

/-! ## Machine arithmetic -/

/-- The 32-bit two's-complement value of an integer: what an `int` holds after an addition
whose exact result is `n`. -/
def wrapInt32 (n : Int) : Int := (n + 2147483648) % 4294967296 - 2147483648

/-- Rounding of a rational to the nearest integer, a tie going to the even one. -/
def roundHalfEven (m : ℚ) : Int :=
  let f := ⌊m⌋
  if m - f < 1 / 2 then f
  else if 1 / 2 < m - f then f + 1
  else if f % 2 = 0 then f
  else f + 1

/-- The exponent of the unit in the last place of the doubles around `q`: 52 below the
binary exponent of `q`, which is at least `-1022` (below that the doubles are subnormal and
equally spaced). -/
def ulpExponent (q : ℚ) : Int := max (Int.log 2 |q|) (-1022) - 52

/-- Rounding of a rational to the nearest IEEE 754 binary64 value, ties to even.  Results
beyond the largest finite double are outside the model. -/
def roundDouble (q : ℚ) : ℚ :=
  (roundHalfEven (q / 2 ^ ulpExponent q) : ℚ) * 2 ^ ulpExponent q

/-- Multiplication of two doubles. -/
def mulDouble (a b : ℚ) : ℚ := roundDouble (a * b)

/-- Division of two doubles.  A zero divisor is undefined behaviour in C++
(`[expr.mul]`); the model reports it as `none` instead of a value. -/
def divDouble (a b : ℚ) : Option ℚ :=
  if b = 0 then none else some (roundDouble (a / b))

/-! ## `ScoreService::calculateFromOccurrences` -/

/-- Body of the loop over goals (`scoreservice.cpp`, lines 203-207). -/
def goalStep (c : ScoreCalculation) (goal : Goal) : ScoreCalculation :=
  if goal.points > 0 then
    { c with targetScore := wrapInt32 (c.targetScore + goal.points) }
  else c

/-- Body of the loop over occurrences (`scoreservice.cpp`, lines 210-225). -/
def occurrenceStep (c : ScoreCalculation) (occurrence : Occurrence) : ScoreCalculation :=
  let c := { c with earnedScore := wrapInt32 (c.earnedScore + occurrence.scoreImpact) }
  if occurrence.status = "completed" then
    { c with completedCount := c.completedCount + 1 }
  else if occurrence.status = "skipped" then
    { c with skippedCount := c.skippedCount + 1 }
  else if occurrence.status = "not_completed" then
    let c := { c with notCompletedCount := c.notCompletedCount + 1 }
    if occurrence.scoreImpact < 0 then
      { c with hasNegativeOutcome := true }
    else c
  else if occurrence.status = "pending" then
    { c with pendingCount := c.pendingCount + 1 }
  else c

/-- The method `ScoreService::calculateFromOccurrences`.  The result is `none` exactly when
the run would divide by zero. -/
def calculateFromOccurrences (occurrences : List Occurrence) (goals : List Goal) :
    Option ScoreCalculation :=
  let c : ScoreCalculation :=
    { earnedScore := 0
      targetScore := 0
      completionPercentage := 0
      completedCount := 0
      skippedCount := 0
      notCompletedCount := 0
      pendingCount := 0
      totalCount := occurrences.length
      hasNegativeOutcome := false }
  -- Calculate target score from goals
  let c := goals.foldl goalStep c
  -- Calculate earned score from occurrences
  let c := occurrences.foldl occurrenceStep c
  -- Calculate completion percentage
  if c.targetScore > 0 then
    (divDouble (c.earnedScore : ℚ) (c.targetScore : ℚ)).map
      fun q => { c with completionPercentage := mulDouble q 100 }
  else
    some c

/-! ## The world -/

/-- The Qt signals of `ScoreService` and `StreakService`. -/
inductive Event where
  | dailyScoreUpdated (date : QDate)
  | weeklyScoreUpdated (weekStart : QDate)
  | monthlyScoreUpdated (monthStart : QDate)
  | yearlyScoreUpdated (year : Int)
  | streakUpdated (streakId : String)
  | streakBroken (scope : String) (date : QDate)
deriving DecidableEq, Repr

/-- The repository calls made by the two services, with their arguments. -/
inductive RepoCall where
  | findByDate (date : QDate)
  | findByWeek (weekStart : QDate)
  | findByMonth (monthStart : QDate)
  | findByYear (year : Int)
  | findByScope (scope : String)
  | upsertDailyScore (score : DailyScore)
  | upsertWeeklyScore (score : WeeklyScore)
  | upsertMonthlyScore (score : MonthlyScore)
  | upsertYearlyScore (score : YearlyScore)
  | getDailyScore (date : QDate)
  | getOrCreateOverall (scope : String)
  | update (streak : Streak)
deriving DecidableEq, Repr

/-- The database tables together with what the services have emitted, logged as an
error and called so far (oldest first). -/
structure World where
  dailyScores : List DailyScore := []
  weeklyScores : List WeeklyScore := []
  monthlyScores : List MonthlyScore := []
  yearlyScores : List YearlyScore := []
  streaks : List StreakRow := []
  events : List Event := []
  errors : List String := []
  calls : List RepoCall := []
deriving DecidableEq, Repr

/-- Calendar functions used by `ScoreService` whose code is not among the sources:
`OccurrenceRepository::calculateWeekStart` and `calculateMonthStart`, and from Qt
`QDate::year`, `QDate::month`, `QDate::weekNumber` and the constructor
`QDate(year, 1, 1)`, whose result is `none` when the date it builds is invalid. -/
structure Calendar where
  calculateWeekStart : QDate → QDate
  calculateMonthStart : QDate → QDate
  year : QDate → Int
  month : QDate → Int
  weekNumber : QDate → Int
  firstOfJanuary : Int → Option QDate

/-! ## Qt dates -/

/-- The enumerator `Qt::Monday`. -/
def Monday : Int := 1

/-- `QDate::addDays` on a valid date.  Qt answers an invalid date once the Julian day leaves
its 64-bit range; such days are outside the model. -/
def QDate.addDays (date : QDate) (ndays : Int) : QDate := date + ndays

/-- `QDate::dayOfWeek` on a valid date: 1 for Monday up to 7 for Sunday.  Qt computes it from
the Julian day as `jd mod 7 + 1`, the modulus rounded towards negative infinity. -/
def QDate.dayOfWeek (date : QDate) : Int := date % 7 + 1

/-- `QGregorianCalendar::julianFromParts` on a valid date of the proleptic Gregorian
calendar.  Every division rounds towards negative infinity, as Qt does here. -/
def julianFromParts (year month day : Int) : QDate :=
  -- Adjust for no year 0
  let year := if year < 0 then year + 1 else year
  let a := (14 - month) / 12
  let y := year + 4800 - a
  let m := month + 12 * a - 3
  day + (153 * m + 2) / 5 + 365 * y + y / 4 - y / 100 + y / 400 - 32045

/-- `QDate::year`: the calendar year of the date, through Qt's conversion of a Julian day
to year, month and day. -/
def QDate.year (date : QDate) : Int :=
  let a := date + 32044
  let b := (4 * a + 3) / 146097
  let c := a - 146097 * b / 4
  let d := (4 * c + 3) / 1461
  let e := c - 1461 * d / 4
  let m := (5 * e + 2) / 153
  let y := 100 * b + d - 4800 + m / 10
  -- Adjust for no year 0
  if y > 0 then y else y - 1

/-- `QDate::month`: the month of the date, 1 to 12. -/
def QDate.month (date : QDate) : Int :=
  let a := date + 32044
  let b := (4 * a + 3) / 146097
  let c := a - 146097 * b / 4
  let d := (4 * c + 3) / 1461
  let e := c - 1461 * d / 4
  let m := (5 * e + 2) / 153
  m + 3 - 12 * (m / 10)

/-- `QDate::dayOfYear`: 1 for the first of January. -/
def QDate.dayOfYear (date : QDate) : Int :=
  date - julianFromParts (QDate.year date) 1 1 + 1

/-- `QDate::weekNumber()` called without the `yearNumber` pointer: the ISO 8601 week number,
which Qt reads off the Thursday of the date's week. -/
def QDate.weekNumber (date : QDate) : Int :=
  -- The Thursday of the same week determines our answer
  let thursday := QDate.addDays date (4 - QDate.dayOfWeek date)
  (QDate.dayOfYear thursday + 6) / 7

/-- The year that `QDate::weekNumber` writes through its `yearNumber` pointer when it is
given one: the year of the Thursday of the date's week, the ISO 8601 week-numbering year. -/
def QDate.weekYear (date : QDate) : Int :=
  QDate.year (QDate.addDays date (4 - QDate.dayOfWeek date))

/-- Lines 24-27 of `DashboardService::refreshDashboard`: starting from `weekStart = today`,
the loop `while (weekStart.dayOfWeek() != Qt::Monday) weekStart = weekStart.addDays(-1)`.
`fuel` bounds the number of times the body may run; the answer is `none` when the loop has
not been left by then. -/
def weekStartLoop : Nat → QDate → Option QDate
  | 0, weekStart => if QDate.dayOfWeek weekStart ≠ Monday then none else some weekStart
  | fuel + 1, weekStart =>
    if QDate.dayOfWeek weekStart ≠ Monday then
      weekStartLoop fuel (QDate.addDays weekStart (-1))
    else some weekStart

/-- Modelled from the spec: `OccurrenceRepository::calculateWeekStart`, which the header
declares and whose body is not among the sources.  The spec gives `weekStart(date)` as the
Monday on or before `date`, and `date` itself when it is a Monday. -/
def calculateWeekStart (date : QDate) : QDate :=
  QDate.addDays date (-(QDate.dayOfWeek date - Monday))

/-- Modelled from the spec: `OccurrenceRepository::calculateMonthStart`, which the header
declares and whose body is not among the sources.  The spec gives `monthStart(date)` as
the first day of the month of `date`. -/
def calculateMonthStart (date : QDate) : QDate :=
  julianFromParts (QDate.year date) (QDate.month date) 1

/-- The calendar the services run on: Qt for `year`, `month`, `weekNumber` and the
constructor `QDate(year, 1, 1)`, which is invalid for the year 0 that Qt does not have, and
the window starts of the occurrence repository. -/
def qtCalendar : Calendar :=
  { calculateWeekStart := calculateWeekStart
    calculateMonthStart := calculateMonthStart
    year := QDate.year
    month := QDate.month
    weekNumber := QDate.weekNumber
    firstOfJanuary := fun year => if year = 0 then none else some (julianFromParts year 1 1) }

/-! ## `ScoreRepository` -/

/-- The method `ScoreRepository::upsertDailyScore`: `INSERT ... ON CONFLICT (date) DO UPDATE`
of every other column.  `exec` is the outcome of `query.exec()`. -/
def upsertDailyScore (table : List DailyScore) (score : DailyScore) (exec : Bool) :
    List DailyScore × Bool :=
  if exec then
    if table.any (fun row => row.date = score.date) then
      (table.map (fun row => if row.date = score.date then score else row), true)
    else
      (table ++ [score], true)
  else
    (table, false)

/-- The method `ScoreRepository::upsertWeeklyScore`; on conflict the columns `year` and
`week_number` of the stored row are kept. -/
def upsertWeeklyScore (table : List WeeklyScore) (score : WeeklyScore) (exec : Bool) :
    List WeeklyScore × Bool :=
  if exec then
    if table.any (fun row => row.weekStart = score.weekStart) then
      (table.map (fun row =>
        if row.weekStart = score.weekStart then
          { score with year := row.year, weekNumber := row.weekNumber }
        else row), true)
    else
      (table ++ [score], true)
  else
    (table, false)

/-- The method `ScoreRepository::upsertMonthlyScore`; on conflict the columns `year` and
`month` of the stored row are kept. -/
def upsertMonthlyScore (table : List MonthlyScore) (score : MonthlyScore) (exec : Bool) :
    List MonthlyScore × Bool :=
  if exec then
    if table.any (fun row => row.monthStart = score.monthStart) then
      (table.map (fun row =>
        if row.monthStart = score.monthStart then
          { score with year := row.year, month := row.month }
        else row), true)
    else
      (table ++ [score], true)
  else
    (table, false)

/-- The method `ScoreRepository::upsertYearlyScore`; on conflict the column `year` of the
stored row is kept.  A NULL `year_start` conflicts with no row. -/
def upsertYearlyScore (table : List YearlyScore) (score : YearlyScore) (exec : Bool) :
    List YearlyScore × Bool :=
  if exec then
    if table.any (fun row => score.yearStart.isSome ∧ row.yearStart = score.yearStart) then
      (table.map (fun row =>
        if score.yearStart.isSome ∧ row.yearStart = score.yearStart then
          { score with year := row.year }
        else row),
        true)
    else
      (table ++ [score], true)
  else
    (table, false)

/-- The method `ScoreRepository::getDailyScore`: the row whose `date` is the one asked for,
or `none` (the null pointer) when the query fails or finds no row. -/
def getDailyScore (table : List DailyScore) (date : QDate) (exec : Bool) :
    Option DailyScore :=
  if exec then table.find? (fun row => row.date = date) else none

/-- The method `ScoreRepository::getDailyScoreRange`:
`WHERE date >= :start AND date <= :end ORDER BY date DESC`; no row when the query fails. -/
def getDailyScoreRange (table : List DailyScore) (start finish : QDate) (exec : Bool) :
    List DailyScore :=
  if exec then
    (table.filter fun row => start ≤ row.date ∧ row.date ≤ finish).insertionSort
      fun a b => a.date ≥ b.date
  else []

/-- The method `ScoreRepository::getWeeklyScoreRange`: `ORDER BY week_start DESC LIMIT :limit`;
no row when the query fails.  A negative limit is refused by the database, which is one way
for `exec` to be false; the model returns no row for it in either case. -/
def getWeeklyScoreRange (table : List WeeklyScore) (weekCount : Int) (exec : Bool) :
    List WeeklyScore :=
  if exec then
    (table.insertionSort fun a b => a.weekStart ≥ b.weekStart).take weekCount.toNat
  else []

/-- The method `ScoreRepository::getMonthlyScoreRange`:
`ORDER BY month_start DESC LIMIT :limit`; no row when the query fails. -/
def getMonthlyScoreRange (table : List MonthlyScore) (monthCount : Int) (exec : Bool) :
    List MonthlyScore :=
  if exec then
    (table.insertionSort fun a b => a.monthStart ≥ b.monthStart).take monthCount.toNat
  else []

/-! ## `GoalRepository` -/

/-- A row of the `goals` table: the columns that `GoalRepository::mapFromRecord` reads,
and the two columns `created_at` and `deleted_at` used by the queries. -/
structure GoalRow where
  goal : Goal
  createdAt : QDateTime
  deletedAt : Option QDateTime
deriving DecidableEq, Repr

/-- The method `GoalRepository::mapFromRecord`. -/
def GoalRepository.mapFromRecord (record : GoalRow) : Goal := record.goal

/-- The method `GoalRepository::findByScope`:
`WHERE scope = :scope AND deleted_at IS NULL ORDER BY sort_order, created_at`.  The result
is the list it returns together with the codes it gives to `reqScope.logError`: when the
query fails the method logs `SQL_EXEC_FAILED` and returns the empty list. -/
def GoalRepository.findByScope (table : List GoalRow) (scope : String) (exec : Bool) :
    List Goal × List String :=
  if !exec then
    ([], ["SQL_EXEC_FAILED"])
  else
    (((table.filter fun row => row.goal.scope = scope ∧ row.deletedAt = none).insertionSort
      fun a b => a.goal.sortOrder < b.goal.sortOrder ∨
        (a.goal.sortOrder = b.goal.sortOrder ∧ a.createdAt ≤ b.createdAt)).map
      GoalRepository.mapFromRecord, [])

/-! ## `ScoreService` -/

/-- Lines 31-43 of `ScoreService::recalculateDaily`: the score object built from the
calculation. -/
def dailyScoreOf (date : QDate) (c : ScoreCalculation) : DailyScore :=
  { date := date
    earnedScore := c.earnedScore
    targetScore := c.targetScore
    completionPercentage := c.completionPercentage
    completedCount := c.completedCount
    skippedCount := c.skippedCount
    notCompletedCount := c.notCompletedCount
    pendingCount := c.pendingCount
    totalCount := c.totalCount
    perfectDay := (c.completedCount == c.totalCount && decide (c.totalCount > (0 : Int)))
    hasNegativeOutcome := c.hasNegativeOutcome }

/-- The method `ScoreService::recalculateDaily`.  `occurrences` is what
`m_occurrenceRepo->findByDate(date)` returned, `goals` what
`m_goalRepo->findByScope("daily")` returned, and `upsertExec` the outcome of the
upsert query. -/
def recalculateDaily (w : World) (date : QDate) (occurrences : List Occurrence)
    (goals : List Goal) (upsertExec : Bool) : Option World :=
  let w := { w with calls := w.calls ++ [RepoCall.findByDate date, RepoCall.findByScope "daily"] }
  -- Calculate scores
  (calculateFromOccurrences occurrences goals).map fun c =>
    -- Create score object
    let score := dailyScoreOf date c
    -- Save to database
    let w := { w with calls := w.calls ++ [RepoCall.upsertDailyScore score] }
    match upsertDailyScore w.dailyScores score upsertExec with
    | (table, true) =>
      { w with dailyScores := table, events := w.events ++ [Event.dailyScoreUpdated date] }
    | (table, false) =>
      { w with dailyScores := table, errors := w.errors ++ ["SAVE_FAILED"] }

/-- Lines 70-81 of `ScoreService::recalculateWeekly`: the score object. -/
def weeklyScoreOf (cal : Calendar) (weekStart : QDate) (c : ScoreCalculation) : WeeklyScore :=
  { weekStart := weekStart
    year := cal.year weekStart
    weekNumber := cal.weekNumber weekStart
    earnedScore := c.earnedScore
    targetScore := c.targetScore
    completionPercentage := c.completionPercentage
    completedCount := c.completedCount
    skippedCount := c.skippedCount
    notCompletedCount := c.notCompletedCount
    pendingCount := c.pendingCount
    totalCount := c.totalCount }

/-- The method `ScoreService::recalculateWeekly`. -/
def recalculateWeekly (cal : Calendar) (w : World) (date : QDate)
    (occurrences : List Occurrence) (goals : List Goal) (upsertExec : Bool) : Option World :=
  let weekStart := cal.calculateWeekStart date
  let w := { w with
    calls := w.calls ++ [RepoCall.findByWeek weekStart, RepoCall.findByScope "weekly"] }
  (calculateFromOccurrences occurrences goals).map fun c =>
    let score := weeklyScoreOf cal weekStart c
    let w := { w with calls := w.calls ++ [RepoCall.upsertWeeklyScore score] }
    match upsertWeeklyScore w.weeklyScores score upsertExec with
    | (table, true) =>
      { w with weeklyScores := table, events := w.events ++ [Event.weeklyScoreUpdated weekStart] }
    | (table, false) => { w with weeklyScores := table }

/-- Lines 100-111 of `ScoreService::recalculateMonthly`: the score object. -/
def monthlyScoreOf (cal : Calendar) (monthStart : QDate) (c : ScoreCalculation) :
    MonthlyScore :=
  { monthStart := monthStart
    year := cal.year monthStart
    month := cal.month monthStart
    earnedScore := c.earnedScore
    targetScore := c.targetScore
    completionPercentage := c.completionPercentage
    completedCount := c.completedCount
    skippedCount := c.skippedCount
    notCompletedCount := c.notCompletedCount
    pendingCount := c.pendingCount
    totalCount := c.totalCount }

/-- The method `ScoreService::recalculateMonthly`. -/
def recalculateMonthly (cal : Calendar) (w : World) (date : QDate)
    (occurrences : List Occurrence) (goals : List Goal) (upsertExec : Bool) : Option World :=
  let monthStart := cal.calculateMonthStart date
  let w := { w with
    calls := w.calls ++ [RepoCall.findByMonth monthStart, RepoCall.findByScope "monthly"] }
  (calculateFromOccurrences occurrences goals).map fun c =>
    let score := monthlyScoreOf cal monthStart c
    let w := { w with calls := w.calls ++ [RepoCall.upsertMonthlyScore score] }
    match upsertMonthlyScore w.monthlyScores score upsertExec with
    | (table, true) =>
      { w with
        monthlyScores := table, events := w.events ++ [Event.monthlyScoreUpdated monthStart] }
    | (table, false) => { w with monthlyScores := table }

/-- Lines 128-138 of `ScoreService::recalculateYearly`: the score object. -/
def yearlyScoreOf (cal : Calendar) (year : Int) (c : ScoreCalculation) : YearlyScore :=
  { yearStart := cal.firstOfJanuary year
    year := year
    earnedScore := c.earnedScore
    targetScore := c.targetScore
    completionPercentage := c.completionPercentage
    completedCount := c.completedCount
    skippedCount := c.skippedCount
    notCompletedCount := c.notCompletedCount
    pendingCount := c.pendingCount
    totalCount := c.totalCount }

/-- The method `ScoreService::recalculateYearly`. -/
def recalculateYearly (cal : Calendar) (w : World) (year : Int)
    (occurrences : List Occurrence) (goals : List Goal) (upsertExec : Bool) : Option World :=
  let w := { w with
    calls := w.calls ++ [RepoCall.findByYear year, RepoCall.findByScope "yearly"] }
  (calculateFromOccurrences occurrences goals).map fun c =>
    let score := yearlyScoreOf cal year c
    let w := { w with calls := w.calls ++ [RepoCall.upsertYearlyScore score] }
    match upsertYearlyScore w.yearlyScores score upsertExec with
    | (table, true) =>
      { w with yearlyScores := table, events := w.events ++ [Event.yearlyScoreUpdated year] }
    | (table, false) => { w with yearlyScores := table }

/-- The method `ScoreService::getDailyTrend`.  `today` is `QDate::currentDate()`. -/
def getDailyTrend (w : World) (today : QDate) (days : Int) (exec : Bool) : List DailyScore :=
  let finish := today
  let start := finish + (-days + 1)
  getDailyScoreRange w.dailyScores start finish exec

/-- The method `ScoreService::getWeeklyTrend`. -/
def getWeeklyTrend (w : World) (weeks : Int) (exec : Bool) : List WeeklyScore :=
  getWeeklyScoreRange w.weeklyScores weeks exec

/-- The method `ScoreService::getMonthlyTrend`. -/
def getMonthlyTrend (w : World) (months : Int) (exec : Bool) : List MonthlyScore :=
  getMonthlyScoreRange w.monthlyScores months exec

/-! ## `StreakRepository` -/

/-- The method `StreakRepository::mapFromRecord`; a NULL `goal_id` reads as the empty string. -/
def mapFromRecord (record : StreakRow) : Streak :=
  { id := record.id
    goalId := record.goalId.getD ""
    scope := record.scope
    currentStreak := record.currentStreak
    longestStreak := record.longestStreak
    lastSuccessDate := record.lastSuccessDate
    lastBreakDate := record.lastBreakDate
    totalSuccesses := record.totalSuccesses
    totalFailures := record.totalFailures
    successRate := record.successRate }

/-- The method `StreakRepository::findById`. -/
def findById (table : List StreakRow) (id : String) (exec : Bool) : Option Streak :=
  if exec then (table.find? (fun row => row.id = id)).map mapFromRecord else none

/-- The method `StreakRepository::findOverallByScope`: `goal_id IS NULL AND scope = :scope`. -/
def findOverallByScope (table : List StreakRow) (scope : String) (exec : Bool) :
    Option Streak :=
  if exec then
    (table.find? (fun row => row.goalId = none ∧ row.scope = scope)).map mapFromRecord
  else none

/-- The method `StreakRepository::create`.  `uuid` is the value of `QUuid::createUuid()`,
`insertExec` the outcome of the INSERT and `findExec` that of the query in `findById`. -/
def create (table : List StreakRow) (streak : Streak) (uuid : String)
    (insertExec findExec : Bool) : List StreakRow × Option Streak :=
  let streakId := if streak.id.isEmpty then uuid else streak.id
  if insertExec then
    let row : StreakRow :=
      { id := streakId
        goalId := if streak.goalId.isEmpty then none else some streak.goalId
        scope := streak.scope
        currentStreak := streak.currentStreak
        longestStreak := streak.longestStreak
        lastSuccessDate := streak.lastSuccessDate
        lastBreakDate := streak.lastBreakDate
        totalSuccesses := streak.totalSuccesses
        totalFailures := streak.totalFailures
        successRate := streak.successRate }
    let table := table ++ [row]
    (table, findById table streakId findExec)
  else
    (table, none)

/-- The method `StreakRepository::update`: `UPDATE streaks SET ... WHERE id = :id`. -/
def update (table : List StreakRow) (streak : Streak) (exec : Bool) :
    List StreakRow × Bool :=
  if exec then
    (table.map (fun row =>
      if row.id = streak.id then
        { row with
          currentStreak := streak.currentStreak
          longestStreak := streak.longestStreak
          lastSuccessDate := streak.lastSuccessDate
          lastBreakDate := streak.lastBreakDate
          totalSuccesses := streak.totalSuccesses
          totalFailures := streak.totalFailures
          successRate := streak.successRate }
      else row), true)
  else
    (table, false)

/-- The record that `getOrCreateOverall` hands to `create` when no overall row exists. -/
def newOverallStreak (scope : String) : Streak :=
  { id := ""
    goalId := ""
    scope := scope
    currentStreak := 0
    longestStreak := 0
    lastSuccessDate := none
    lastBreakDate := none
    totalSuccesses := 0
    totalFailures := 0
    successRate := 0 }

/-- The method `StreakRepository::getOrCreateOverall`. -/
def getOrCreateOverall (table : List StreakRow) (scope : String) (uuid : String)
    (findOverallExec insertExec findExec : Bool) : List StreakRow × Option Streak :=
  match findOverallByScope table scope findOverallExec with
  | some existing => (table, some existing)
  | none => create table (newOverallStreak scope) uuid insertExec findExec

/-- The method `StreakRepository::findByGoalAndScope`:
`SELECT * FROM streaks WHERE goal_id = :goal_id AND scope = :scope`.  A row whose
`goal_id` is NULL equals no bound value, the empty string included. -/
def findByGoalAndScope (table : List StreakRow) (goalId scope : String) (exec : Bool) :
    Option Streak :=
  if exec then
    (table.find? (fun row => row.goalId = some goalId ∧ row.scope = scope)).map mapFromRecord
  else none

/-- The record that `getOrCreate` hands to `create` when no row exists for the key. -/
def newGoalStreak (goalId scope : String) : Streak :=
  { id := ""
    goalId := goalId
    scope := scope
    currentStreak := 0
    longestStreak := 0
    lastSuccessDate := none
    lastBreakDate := none
    totalSuccesses := 0
    totalFailures := 0
    successRate := 0 }

/-- The method `StreakRepository::getOrCreate`.  `findExec` is the outcome of the query of
`findByGoalAndScope`; the other arguments are those of `create`. -/
def getOrCreate (table : List StreakRow) (goalId scope : String) (uuid : String)
    (findExec insertExec findByIdExec : Bool) : List StreakRow × Option Streak :=
  match findByGoalAndScope table goalId scope findExec with
  | some existing => (table, some existing)
  | none => create table (newGoalStreak goalId scope) uuid insertExec findByIdExec

/-! ## `StreakService` -/

/-- The method `StreakService::shouldBreakStreak`. -/
def shouldBreakStreak (completionPercentage : ℚ) : Bool :=
  -- Break streak if completion is below 80%
  decide (completionPercentage < 80)

/-- Lines 35-59 of `StreakService::updateStreaksForDate`: the break or continue decision on
the in-memory record, the `streakBroken` signal it may emit, and the success rate. -/
def applyDailyScore (streak : Streak) (date : QDate) (dailyScore : DailyScore) :
    Option (Streak × List Event) :=
  -- Check if streak should break
  let (streak, emitted) :=
    if shouldBreakStreak dailyScore.completionPercentage || dailyScore.hasNegativeOutcome then
      -- Break streak
      ({ streak with
          currentStreak := 0
          lastBreakDate := some date
          totalFailures := streak.totalFailures + 1 },
        [Event.streakBroken "daily" date])
    else
      -- Continue streak
      let streak := { streak with
        currentStreak := streak.currentStreak + 1
        lastSuccessDate := some date
        totalSuccesses := streak.totalSuccesses + 1 }
      -- Update longest streak if needed
      (if streak.currentStreak > streak.longestStreak then
          { streak with longestStreak := streak.currentStreak }
        else streak,
        [])
  -- Update success rate
  let total : Int := streak.totalSuccesses + streak.totalFailures
  if total > 0 then
    (divDouble (streak.totalSuccesses : ℚ) (total : ℚ)).map
      fun q => ({ streak with successRate := mulDouble q 100 }, emitted)
  else
    some (streak, emitted)

/-- What the database answers during one call of `updateStreaksForDate`: the outcome of each
`query.exec()` and the fresh UUID. -/
structure DbOutcome where
  getDailyScoreExec : Bool
  findOverallExec : Bool
  uuid : String
  insertExec : Bool
  findByIdExec : Bool
  updateExec : Bool
deriving DecidableEq, Repr

/-- The method `StreakService::updateStreaksForDate`. -/
def updateStreaksForDate (w : World) (date : QDate) (db : DbOutcome) : Option World :=
  -- Get daily score
  let w := { w with calls := w.calls ++ [RepoCall.getDailyScore date] }
  match getDailyScore w.dailyScores date db.getDailyScoreExec with
  | none => some { w with errors := w.errors ++ ["NOT_FOUND"] }
  | some dailyScore =>
    -- Get overall daily streak
    let w := { w with calls := w.calls ++ [RepoCall.getOrCreateOverall "daily"] }
    match getOrCreateOverall w.streaks "daily" db.uuid db.findOverallExec db.insertExec
        db.findByIdExec with
    | (table, none) => some { w with streaks := table, errors := w.errors ++ ["STREAK_ERROR"] }
    | (table, some streak) =>
      let w := { w with streaks := table }
      (applyDailyScore streak date dailyScore).map fun (streak, emitted) =>
        -- Save streak
        let w := { w with
          events := w.events ++ emitted, calls := w.calls ++ [RepoCall.update streak] }
        match update w.streaks streak db.updateExec with
        | (table, true) =>
          { w with streaks := table, events := w.events ++ [Event.streakUpdated streak.id] }
        | (table, false) =>
          { w with streaks := table, errors := w.errors ++ ["UPDATE_FAILED"] }

/-- The method `StreakService::getDailyStreak`, on the streak table. -/
def getDailyStreak (table : List StreakRow) (uuid : String)
    (findOverallExec insertExec findByIdExec : Bool) : List StreakRow × Option Streak :=
  getOrCreateOverall table "daily" uuid findOverallExec insertExec findByIdExec

/-- The method `StreakService::getWeeklyStreak`, on the streak table. -/
def getWeeklyStreak (table : List StreakRow) (uuid : String)
    (findOverallExec insertExec findByIdExec : Bool) : List StreakRow × Option Streak :=
  getOrCreateOverall table "weekly" uuid findOverallExec insertExec findByIdExec

/-- The method `StreakService::getMonthlyStreak`, on the streak table. -/
def getMonthlyStreak (table : List StreakRow) (uuid : String)
    (findOverallExec insertExec findByIdExec : Bool) : List StreakRow × Option Streak :=
  getOrCreateOverall table "monthly" uuid findOverallExec insertExec findByIdExec

/-- The method `StreakService::getYearlyStreak`, on the streak table. -/
def getYearlyStreak (table : List StreakRow) (uuid : String)
    (findOverallExec insertExec findByIdExec : Bool) : List StreakRow × Option Streak :=
  getOrCreateOverall table "yearly" uuid findOverallExec insertExec findByIdExec

/-- The method `StreakService::getGoalStreak`, on the streak table. -/
def getGoalStreak (table : List StreakRow) (goalId scope : String) (uuid : String)
    (findExec insertExec findByIdExec : Bool) : List StreakRow × Option Streak :=
  getOrCreate table goalId scope uuid findExec insertExec findByIdExec

/-! ## `OccurrenceService` and the wiring of its signals -/

/-- The signals of `OccurrenceService` (`occurrenceservice.h`, lines 32-34). -/
inductive OccurrenceSignal where
  | occurrenceUpdated (occurrence : Occurrence)
  | scoresNeedRecalculation (date : QDate)
deriving DecidableEq, Repr

/-- The lambda that the constructor of `OccurrenceService` connects to
`OccurrenceRepository::occurrenceStatusChanged` (`occurrenceservice.cpp`, lines 10-20): the
signals it emits, in order.  `found` is what `m_occurrenceRepo->findById(occurrenceId)`
returned. -/
def onOccurrenceStatusChanged (found : Option Occurrence) : List OccurrenceSignal :=
  match found with
  | none => []
  | some occurrence =>
    OccurrenceSignal.occurrenceUpdated occurrence ::
      -- Trigger score recalculation
      (match occurrence.date with
        | some date => [OccurrenceSignal.scoresNeedRecalculation date]
        | none => [])

/-- A slot connected to the signals of `OccurrenceService`: what it does to the world when
a signal reaches it. -/
abbrev Slot := OccurrenceSignal → World → Option World

/-- The slots that the sources connect to the signals of `OccurrenceService`.  There is none:
`main` (`main.cpp`, lines 42-55) constructs only a `GoalRepository` and a `GoalService`, and
no source file calls `connect` on `occurrenceUpdated` or `scoresNeedRecalculation`. -/
def connectedSlots : List Slot := []

/-- Emission of one signal over direct connections: the connected slots run one after the
other, in connection order, before `emit` returns. -/
def emitSignal (slots : List Slot) (w : World) (signal : OccurrenceSignal) : Option World :=
  slots.foldlM (fun w slot => slot signal w) w

/-- What a status change of an occurrence does to the world: the lambda emits its signals
and each goes to the given slots. -/
def occurrenceStatusChanged (slots : List Slot) (w : World) (found : Option Occurrence) :
    Option World :=
  (onOccurrenceStatusChanged found).foldlM (emitSignal slots) w

/-- The state that `OccurrenceService::setStatus` works on: the occurrence store behind
`m_occurrenceRepo`, of any type `σ`, the calls made so far to its `updateStatus`, and the
codes given so far to `scope.logError`. -/
structure OccurrenceServiceState (σ : Type) where
  store : σ
  updateStatusCalls : List (String × String) := []
  errors : List String := []

/-- The method `OccurrenceService::setStatus`.  `updateStatus` is
`OccurrenceRepository::updateStatus`, whose body is not among the sources: from the store,
the id and the status it gives the store afterwards and its boolean result. -/
def setStatus {σ : Type} (updateStatus : σ → String → String → σ × Bool)
    (w : OccurrenceServiceState σ) (occurrenceId status : String) :
    OccurrenceServiceState σ × Bool :=
  -- Validate status
  let validStatuses := ["pending", "completed", "skipped", "not_completed"]
  if !validStatuses.contains status then
    ({ w with errors := w.errors ++ ["VALIDATION_FAILED"] }, false)
  else
    -- Update status
    let (store, success) := updateStatus w.store occurrenceId status
    let w := { w with
      store := store
      updateStatusCalls := w.updateStatusCalls ++ [(occurrenceId, status)] }
    if !success then
      ({ w with errors := w.errors ++ ["UPDATE_FAILED"] }, false)
    else
      (w, true)

/-- The method `OccurrenceService::markCompleted`. -/
def markCompleted {σ : Type} (updateStatus : σ → String → String → σ × Bool)
    (w : OccurrenceServiceState σ) (occurrenceId : String) :
    OccurrenceServiceState σ × Bool :=
  setStatus updateStatus w occurrenceId "completed"

/-- The method `OccurrenceService::markSkipped`. -/
def markSkipped {σ : Type} (updateStatus : σ → String → String → σ × Bool)
    (w : OccurrenceServiceState σ) (occurrenceId : String) :
    OccurrenceServiceState σ × Bool :=
  setStatus updateStatus w occurrenceId "skipped"

/-- The method `OccurrenceService::markNotCompleted`. -/
def markNotCompleted {σ : Type} (updateStatus : σ → String → String → σ × Bool)
    (w : OccurrenceServiceState σ) (occurrenceId : String) :
    OccurrenceServiceState σ × Bool :=
  setStatus updateStatus w occurrenceId "not_completed"

/-! ## `GoalService::validateGoal` -/

/-- `QChar::isSpace`: the ASCII space, the controls U+0009 to U+000D, U+0085, U+00A0 and the
characters of the Unicode separator categories Zs, Zl and Zp. -/
def QChar.isSpace (c : Char) : Bool :=
  c.toNat = 0x20 || (0x09 ≤ c.toNat && c.toNat ≤ 0x0D) || c.toNat = 0x85 || c.toNat = 0xA0 ||
    c.toNat = 0x1680 || (0x2000 ≤ c.toNat && c.toNat ≤ 0x200A) || c.toNat = 0x2028 ||
    c.toNat = 0x2029 || c.toNat = 0x202F || c.toNat = 0x205F || c.toNat = 0x3000

/-- `QString::trimmed`: the string without the white space at its start and at its end. -/
def QString.trimmed (s : String) : String :=
  String.mk ((s.toList.dropWhile QChar.isSpace).reverse.dropWhile QChar.isSpace).reverse

/-- `QString::length`: the number of UTF-16 code units, two for a character outside the
basic multilingual plane. -/
def QString.length (s : String) : Int :=
  (s.toList.map fun c => if c.toNat < 0x10000 then (1 : Int) else 2).sum

/-- The items of the patterns of `QRegularExpression` (PCRE) that `validateGoal` uses. -/
inductive PatternItem where
  -- the anchor `^`, without the multiline option: the start of the subject
  | caret
  -- a literal character
  | literal (c : Char)
  -- a character class given by its ranges, as `[0-9A-Fa-f]`
  | charClass (ranges : List (Char × Char))
  -- the anchor `$`, without the multiline option: the end of the subject, or the place
  -- just before a line feed that is the last character of the subject
  | dollar
deriving DecidableEq, Repr

/-- Whether the items match one after the other, starting `offset` characters into the
subject, of which `rest` is what follows that place. -/
def matchItems : List PatternItem → Nat → List Char → Bool
  | [], _, _ => true
  | PatternItem.caret :: items, offset, rest => offset == 0 && matchItems items offset rest
  | PatternItem.literal c :: items, offset, x :: rest =>
    x == c && matchItems items (offset + 1) rest
  | PatternItem.literal _ :: _, _, [] => false
  | PatternItem.charClass ranges :: items, offset, x :: rest =>
    (ranges.any fun range => range.1.toNat ≤ x.toNat && x.toNat ≤ range.2.toNat) &&
      matchItems items (offset + 1) rest
  | PatternItem.charClass _ :: _, _, [] => false
  | PatternItem.dollar :: items, offset, rest =>
    (rest == [] || rest == ['\n']) && matchItems items offset rest

/-- `QRegularExpression::match(subject).hasMatch()`: the pattern matches at some offset of
the subject. -/
def hasMatch (pattern : List PatternItem) (subject : String) : Bool :=
  (List.range (subject.toList.length + 1)).any fun offset =>
    matchItems pattern offset (subject.toList.drop offset)

/-- The pattern `^#[0-9A-Fa-f]{6}$` of `validateGoal`, the quantifier `{6}` written out. -/
def colorRegex : List PatternItem :=
  [PatternItem.caret, PatternItem.literal '#'] ++
    List.replicate 6 (PatternItem.charClass [('0', '9'), ('A', 'F'), ('a', 'f')]) ++
    [PatternItem.dollar]

/-- The method `GoalService::validateGoal`: its result and the value of `errorMessage`
afterwards. -/
def validateGoal (goal : Goal) (errorMessage : String) : Bool × String :=
  -- Validate title
  if (QString.trimmed goal.title).isEmpty then
    (false, "Goal title cannot be empty")
  else if QString.length goal.title > 255 then
    (false, "Goal title cannot exceed 255 characters")
  -- Validate scope
  else if !(["daily", "weekly", "monthly", "yearly"].contains goal.scope) then
    (false, "Invalid scope: " ++ goal.scope ++
      ". Must be one of: daily, weekly, monthly, yearly")
  -- Validate points
  else if goal.points < -1000 || goal.points > 1000 then
    (false, "Points must be between -1000 and 1000")
  -- Validate missing behavior
  else if !(["zero", "penalty"].contains goal.missingBehavior) then
    (false, "Invalid missing behavior: " ++ goal.missingBehavior ++
      ". Must be 'zero' or 'penalty'")
  -- Validate penalty points
  else if goal.penaltyPoints < 0 || goal.penaltyPoints > 1000 then
    (false, "Penalty points must be between 0 and 1000")
  -- Validate color hex format (if provided)
  else if !goal.colorHex.isEmpty then
    if !hasMatch colorRegex goal.colorHex then
      (false, "Invalid color format. Must be in format #RRGGBB")
    else (true, errorMessage)
  else (true, errorMessage)

/-! ## Specification-side functions -/

/-- Sum of `points` over the goals whose points are positive. -/
def sumPositivePoints (goals : List Goal) : Int :=
  ((goals.filter fun goal => goal.points > 0).map Goal.points).sum

/-- Sum of `scoreImpact` over all occurrences. -/
def sumScoreImpact (occurrences : List Occurrence) : Int :=
  (occurrences.map Occurrence.scoreImpact).sum

/-- Number of occurrences whose status is exactly `status`. -/
def countStatus (status : String) (occurrences : List Occurrence) : Nat :=
  occurrences.countP fun occurrence => occurrence.status = status

/-- Whether some occurrence is `not_completed` with a negative score impact. -/
def anyNegativeOutcome (occurrences : List Occurrence) : Bool :=
  occurrences.any fun occurrence =>
    occurrence.status = "not_completed" ∧ occurrence.scoreImpact < 0

/-- Whether an integer is a value of a C++ `int`. -/
def IsInt32 (n : Int) : Prop := -2147483648 ≤ n ∧ n ≤ 2147483647

instance (n : Int) : Decidable (IsInt32 n) := by
  unfold IsInt32
  infer_instance

/-- The double `(static_cast<double>(a) / b) * 100.0` for two `int`s with `b ≠ 0`: the
quotient rounded to a double, times 100, rounded again. -/
def percentDouble (a b : Int) : ℚ := mulDouble (roundDouble ((a : ℚ) / (b : ℚ))) 100

/-- The counters of a streak are consistent: `0 ≤ currentStreak ≤ longestStreak`, both
totals are non-negative, and `successRate` is the double
`(successes / (successes + failures)) * 100.0`, or `0` when both totals are zero. -/
def CountersOk (currentStreak longestStreak totalSuccesses totalFailures : Int)
    (successRate : ℚ) : Prop :=
  0 ≤ currentStreak ∧ currentStreak ≤ longestStreak ∧
    0 ≤ totalSuccesses ∧ 0 ≤ totalFailures ∧
    successRate =
      if totalSuccesses + totalFailures = 0 then 0
      else percentDouble totalSuccesses (totalSuccesses + totalFailures)

instance (currentStreak longestStreak totalSuccesses totalFailures : Int) (successRate : ℚ) :
    Decidable (CountersOk currentStreak longestStreak totalSuccesses totalFailures
      successRate) := by
  unfold CountersOk
  infer_instance

/-- Consistency of the counters of an in-memory streak record. -/
def Streak.Ok (streak : Streak) : Prop :=
  CountersOk streak.currentStreak streak.longestStreak streak.totalSuccesses
    streak.totalFailures streak.successRate

/-- Consistency of the counters of a stored streak row. -/
def StreakRow.Ok (row : StreakRow) : Prop :=
  CountersOk row.currentStreak row.longestStreak row.totalSuccesses row.totalFailures
    row.successRate

/-- One call into the engine, together with what the stores answer during it. -/
inductive EngineCall where
  | recalculateDaily (date : QDate) (occurrences : List Occurrence) (goals : List Goal)
      (upsertExec : Bool)
  | updateStreaksForDate (date : QDate) (db : DbOutcome)

/-- The effect of one engine call on the world. -/
def EngineCall.run (w : World) : EngineCall → Option World
  | EngineCall.recalculateDaily date occurrences goals upsertExec =>
    Nimo.recalculateDaily w date occurrences goals upsertExec
  | EngineCall.updateStreaksForDate date db => Nimo.updateStreaksForDate w date db

/-- The effect of a sequence of engine calls, made one after the other. -/
def runCalls : World → List EngineCall → Option World
  | w, [] => some w
  | w, call :: rest => (call.run w).bind fun w' => runCalls w' rest

/-- The key of a streak row: its scope and its goal, `none` for the overall streak. -/
def StreakRow.key (row : StreakRow) : String × Option String := (row.scope, row.goalId)

/-- One call into the streak repository, together with what the database answers during
it. -/
inductive StreakRepoCall where
  | getOrCreate (goalId scope uuid : String) (findExec insertExec findByIdExec : Bool)
  | getOrCreateOverall (scope uuid : String) (findOverallExec insertExec findByIdExec : Bool)

/-- The effect of one repository call on the streak table, and what it returns. -/
def StreakRepoCall.run (table : List StreakRow) :
    StreakRepoCall → List StreakRow × Option Streak
  | StreakRepoCall.getOrCreate goalId scope uuid findExec insertExec findByIdExec =>
    Nimo.getOrCreate table goalId scope uuid findExec insertExec findByIdExec
  | StreakRepoCall.getOrCreateOverall scope uuid findOverallExec insertExec findByIdExec =>
    Nimo.getOrCreateOverall table scope uuid findOverallExec insertExec findByIdExec

/-- The streak table after a sequence of repository calls, made one after the other. -/
def runRepoCalls : List StreakRow → List StreakRepoCall → List StreakRow
  | table, [] => table
  | table, call :: rest => runRepoCalls (call.run table).1 rest

/-- Whether the lookup query of the call executes. -/
def StreakRepoCall.lookupExec : StreakRepoCall → Bool
  | StreakRepoCall.getOrCreate _ _ _ findExec _ _ => findExec
  | StreakRepoCall.getOrCreateOverall _ _ findOverallExec _ _ => findOverallExec

/-- Whether the call is a per-goal get-or-create with the empty string as goal id. -/
def StreakRepoCall.emptyGoalId : StreakRepoCall → Bool
  | StreakRepoCall.getOrCreate goalId _ _ _ _ _ => goalId.isEmpty
  | StreakRepoCall.getOrCreateOverall _ _ _ _ _ => false

/-- Whether a character is a hexadecimal digit, in either case. -/
def isHexDigit (d : Char) : Bool :=
  ('0'.toNat ≤ d.toNat && d.toNat ≤ '9'.toNat) ||
    ('A'.toNat ≤ d.toNat && d.toNat ≤ 'F'.toNat) ||
    ('a'.toNat ≤ d.toNat && d.toNat ≤ 'f'.toNat)

/-- Whether the characters are `#` followed by exactly six hexadecimal digits. -/
def hashAndSixHexDigits : List Char → Bool
  | c :: digits => c == '#' && digits.length == 6 && digits.all isHexDigit
  | [] => false

/-- Whether a string is `#` followed by exactly six hexadecimal digits. -/
def isHashAndSixHexDigits (s : String) : Bool := hashAndSixHexDigits s.toList

/-! ## Sample data -/

/-- An occurrence with the given status and score impact, every other field empty. -/
def sampleOccurrence (status : String) (scoreImpact : Int) : Occurrence :=
  { id := "", goalId := "", date := none, weekStart := none, monthStart := none,
    yearStart := none, status := status, completedAt := none, scoreImpact := scoreImpact,
    notes := "" }

/-- A daily goal worth the given points. -/
def sampleGoal (points : Int) : Goal :=
  { id := "", title := "goal", scope := "daily", points := points, missingBehavior := "zero",
    penaltyPoints := 0, category := "", notes := "", iconName := "", colorHex := "",
    sortOrder := 0, isActive := true }

/-- The occurrences of Scenario A: completed (+10), completed (+10), not_completed (-5). -/
def scenarioAOccurrences : List Occurrence :=
  [sampleOccurrence "completed" 10, sampleOccurrence "completed" 10,
    sampleOccurrence "not_completed" (-5)]

/-- The goals of Scenario A: a target of 25. -/
def scenarioAGoals : List Goal := [sampleGoal 25]

/-- A daily aggregate for `date` with the given completion percentage and negative-outcome
flag. -/
def sampleDailyScore (date : QDate) (completionPercentage : ℚ) (hasNegativeOutcome : Bool) :
    DailyScore :=
  { date := date, earnedScore := 0, targetScore := 0,
    completionPercentage := completionPercentage, completedCount := 0, skippedCount := 0,
    notCompletedCount := 0, pendingCount := 0, totalCount := 0, perfectDay := false,
    hasNegativeOutcome := hasNegativeOutcome }

/-- A stored overall daily streak: current 3, longest 5, 7 successes and 2 failures. -/
def sampleStreakRow : StreakRow :=
  { id := "s1", goalId := none, scope := "daily", currentStreak := 3, longestStreak := 5,
    lastSuccessDate := some 9, lastBreakDate := some 6, totalSuccesses := 7,
    totalFailures := 2, successRate := 700 / 9 }

/-- A database on which every query succeeds. -/
def sampleDb : DbOutcome :=
  { getDailyScoreExec := true, findOverallExec := true, uuid := "u1", insertExec := true,
    findByIdExec := true, updateExec := true }

/-- A world holding one daily aggregate, for day 10, and the sample streak row. -/
def sampleWorld (completionPercentage : ℚ) (hasNegativeOutcome : Bool) : World :=
  { dailyScores := [sampleDailyScore 10 completionPercentage hasNegativeOutcome]
    streaks := [sampleStreakRow] }

/-- A world holding one daily aggregate, for day 10 at 90 percent, and no streak row. -/
def sampleWorldNoStreak : World :=
  { dailyScores := [sampleDailyScore 10 90 false] }

/-- A database that rejects the INSERT of `StreakRepository::create`. -/
def sampleDbNoInsert : DbOutcome :=
  { getDailyScoreExec := true, findOverallExec := true, uuid := "u1", insertExec := false,
    findByIdExec := true, updateExec := true }

/-- A run on Scenario A: the daily recalculation for day 10, then two streak updates for
that day, every query succeeding. -/
def sampleCalls : List EngineCall :=
  [EngineCall.recalculateDaily 10 scenarioAOccurrences scenarioAGoals true,
    EngineCall.updateStreaksForDate 10 sampleDb,
    EngineCall.updateStreaksForDate 10 sampleDb]

/-- The row that get-or-create inserts for the overall daily streak under UUID `u1`. -/
def sampleFreshRow : StreakRow :=
  { id := "u1", goalId := none, scope := "daily", currentStreak := 0, longestStreak := 0,
    lastSuccessDate := none, lastBreakDate := none, totalSuccesses := 0,
    totalFailures := 0, successRate := 0 }

/-- A database that rejects the UPDATE of `StreakRepository::update`. -/
def sampleDbNoUpdate : DbOutcome :=
  { getDailyScoreExec := true, findOverallExec := true, uuid := "u1", insertExec := true,
    findByIdExec := true, updateExec := false }

/-- A goal table holding one live daily goal worth 25 points. -/
def sampleGoalTable : List GoalRow :=
  [{ goal := sampleGoal 25, createdAt := 0, deletedAt := none }]

/-- A completed occurrence worth 10 points, dated day 10. -/
def sampleDatedOccurrence : Occurrence :=
  { sampleOccurrence "completed" 10 with date := some 10 }

/-- A weekly aggregate for the week starting on `weekStart`, every score zero. -/
def sampleWeeklyScore (weekStart : QDate) : WeeklyScore :=
  { weekStart := weekStart, year := 2024, weekNumber := 1, earnedScore := 0,
    targetScore := 0, completionPercentage := 0, completedCount := 0, skippedCount := 0,
    notCompletedCount := 0, pendingCount := 0, totalCount := 0 }

/-- A monthly aggregate for the month starting on `monthStart`, every score zero. -/
def sampleMonthlyScore (monthStart : QDate) : MonthlyScore :=
  { monthStart := monthStart, year := 2024, month := 1, earnedScore := 0,
    targetScore := 0, completionPercentage := 0, completedCount := 0, skippedCount := 0,
    notCompletedCount := 0, pendingCount := 0, totalCount := 0 }

/-- The world of Scenario C: 20 stored weekly aggregates, for the weeks starting on days
0, 7, ..., 133, and 3 stored monthly aggregates. -/
def sampleTrendWorld : World :=
  { weeklyScores := (List.range 20).map fun i => sampleWeeklyScore (7 * (i : Int))
    monthlyScores := [sampleMonthlyScore 0, sampleMonthlyScore 31, sampleMonthlyScore 60] }

/-- The row that get-or-create inserts for goal `g1` in scope `daily` under UUID `u1`. -/
def sampleGoalStreakRow : StreakRow :=
  { id := "u1", goalId := some "g1", scope := "daily", currentStreak := 0, longestStreak := 0,
    lastSuccessDate := none, lastBreakDate := none, totalSuccesses := 0,
    totalFailures := 0, successRate := 0 }

/-- Three repository calls on a database on which every query succeeds: a per-goal
get-or-create, the overall get-or-create of the scope, and the per-goal one again. -/
def sampleRepoCalls : List StreakRepoCall :=
  [StreakRepoCall.getOrCreate "g1" "daily" "u1" true true true,
    StreakRepoCall.getOrCreateOverall "daily" "u2" true true true,
    StreakRepoCall.getOrCreate "g1" "daily" "u3" true true true]

/-- An occurrence store for the examples: a list of `(id, status)` pairs whose `updateStatus`
succeeds exactly when the id is stored, and then replaces its status. -/
def sampleUpdateStatus (store : List (String × String)) (occurrenceId status : String) :
    List (String × String) × Bool :=
  if store.any (fun row => row.1 == occurrenceId) then
    (store.map (fun row => if row.1 == occurrenceId then (row.1, status) else row), true)
  else (store, false)

/-- The sample store with one occurrence, `o1`, already completed. -/
def sampleOccurrenceState : OccurrenceServiceState (List (String × String)) :=
  { store := [("o1", "completed")] }

/-- A goal that passes every check of `validateGoal` but possibly the one on its colour. -/
def sampleValidGoal (colorHex : String) : Goal :=
  { id := "g1", title := "Run", scope := "daily", points := 10, missingBehavior := "zero",
    penaltyPoints := 0, category := "", notes := "", iconName := "", colorHex := colorHex,
    sortOrder := 0, isActive := true }

/-- A stored overall daily streak with the given totals and success rate. -/
def sampleRateRow (totalSuccesses totalFailures : Int) (successRate : ℚ) : StreakRow :=
  { id := "s1", goalId := none, scope := "daily", currentStreak := 3, longestStreak := 5,
    lastSuccessDate := some 9, lastBreakDate := some 6, totalSuccesses := totalSuccesses,
    totalFailures := totalFailures, successRate := successRate }

/-- A world holding one daily aggregate, for day 10 at 90 percent, and one streak row with
the given totals and success rate. -/
def sampleRateWorld (totalSuccesses totalFailures : Int) (successRate : ℚ) : World :=
  { dailyScores := [sampleDailyScore 10 90 false]
    streaks := [sampleRateRow totalSuccesses totalFailures successRate] }

/-! ## Machine arithmetic: wrap-around and rounding -/

/-- An integer of the 32-bit range is its own 32-bit value. -/
theorem wrapInt32_of_isInt32 (n : Int) (h : IsInt32 n) : wrapInt32 n = n := by
  unfold IsInt32 at h
  unfold wrapInt32
  omega

/-- The 32-bit value of an integer is in the 32-bit range. -/
theorem isInt32_wrapInt32 (n : Int) : IsInt32 (wrapInt32 n) := by
  unfold IsInt32 wrapInt32
  omega

/-- Reducing an intermediate sum does not change the reduced total. -/
theorem wrapInt32_add (a b : Int) : wrapInt32 (wrapInt32 a + b) = wrapInt32 (a + b) := by
  unfold wrapInt32
  omega

/-- Rounding to the nearest integer moves a rational by at most one half. -/
theorem roundHalfEven_sub_le (m : ℚ) : |(roundHalfEven m : ℚ) - m| ≤ 1 / 2 := by
  have h1 := Int.floor_le m
  have h2 := Int.lt_floor_add_one m
  unfold roundHalfEven
  simp only
  split_ifs with ha hb hc
  · rw [abs_le]; constructor <;> linarith
  · push_cast; rw [abs_le]; constructor <;> linarith
  · rw [abs_le]; constructor <;> linarith
  · push_cast; rw [abs_le]; constructor <;> linarith

/-- A rational less than one half away from an integer rounds to it. -/
theorem roundHalfEven_of_lt (m : ℚ) (k : Int) (h : |m - k| < 1 / 2) : roundHalfEven m = k := by
  have hb := roundHalfEven_sub_le m
  rw [abs_lt] at h
  rw [abs_le] at hb
  have h1 : ((roundHalfEven m - k : Int) : ℚ) < 1 := by push_cast; linarith
  have h2 : (-1 : ℚ) < ((roundHalfEven m - k : Int) : ℚ) := by push_cast; linarith
  have h1' : roundHalfEven m - k < 1 := by exact_mod_cast h1
  have h2' : -1 < roundHalfEven m - k := by exact_mod_cast h2
  omega

/-- An integer rounds to itself. -/
theorem roundHalfEven_intCast (k : Int) : roundHalfEven (k : ℚ) = k :=
  roundHalfEven_of_lt _ k (by simp)

/-- Rounding to the nearest integer is monotone. -/
theorem roundHalfEven_mono {m n : ℚ} (h : m ≤ n) : roundHalfEven m ≤ roundHalfEven n := by
  by_contra hlt
  rw [not_le] at hlt
  have hm := roundHalfEven_sub_le m
  have hn := roundHalfEven_sub_le n
  rw [abs_le] at hm hn
  have hge : (roundHalfEven n : ℚ) + 1 ≤ roundHalfEven m := by exact_mod_cast hlt
  have heq : m = n := by linarith
  rw [heq] at hlt
  exact lt_irrefl _ hlt

/-- The unit in the last place of a rational of known binary exponent. -/
theorem ulpExponent_of_mem (q : ℚ) (e : Int) (he : -1022 ≤ e) (hlo : (2 : ℚ) ^ e ≤ |q|)
    (hhi : |q| < (2 : ℚ) ^ (e + 1)) : ulpExponent q = e - 52 := by
  have hpos : (0 : ℚ) < |q| := lt_of_lt_of_le (by positivity) hlo
  have h1 : e ≤ Int.log 2 |q| := by
    rw [← Int.zpow_le_iff_le_log (by norm_num) hpos]
    exact_mod_cast hlo
  have h2 : Int.log 2 |q| < e + 1 := by
    rw [← Int.lt_zpow_iff_log_lt (by norm_num) hpos]
    exact_mod_cast hhi
  unfold ulpExponent
  omega

/-- Evaluation of `roundDouble` at a value of known binade. -/
theorem roundDouble_eq (q : ℚ) (e k : Int) (he : -1022 ≤ e) (hlo : (2 : ℚ) ^ e ≤ |q|)
    (hhi : |q| < (2 : ℚ) ^ (e + 1)) (hk : |q / 2 ^ (e - 52) - k| < 1 / 2) :
    roundDouble q = k * 2 ^ (e - 52) := by
  unfold roundDouble
  rw [ulpExponent_of_mem q e he hlo hhi, roundHalfEven_of_lt _ k hk]

/-- Zero is a double. -/
theorem roundDouble_zero : roundDouble 0 = 0 := by
  simp [roundDouble, roundHalfEven]

/-- The rounding of a non-negative rational is non-negative. -/
theorem roundDouble_nonneg {q : ℚ} (h : 0 ≤ q) : 0 ≤ roundDouble q := by
  unfold roundDouble
  have h1 : (0 : ℚ) ≤ q / 2 ^ ulpExponent q := div_nonneg h (by positivity)
  have h2 := roundHalfEven_mono h1
  rw [show (0 : ℚ) = ((0 : Int) : ℚ) by simp, roundHalfEven_intCast] at h2
  have h3 : (0 : ℚ) ≤ (roundHalfEven (q / 2 ^ ulpExponent q) : ℚ) := by exact_mod_cast h2
  positivity

/-- The rounding of a non-positive rational is non-positive. -/
theorem roundDouble_nonpos {q : ℚ} (h : q ≤ 0) : roundDouble q ≤ 0 := by
  unfold roundDouble
  have h1 : q / 2 ^ ulpExponent q ≤ (0 : ℚ) := div_nonpos_of_nonpos_of_nonneg h (by positivity)
  have h2 := roundHalfEven_mono h1
  rw [show (0 : ℚ) = ((0 : Int) : ℚ) by simp, roundHalfEven_intCast] at h2
  have h3 : (roundHalfEven (q / 2 ^ ulpExponent q) : ℚ) ≤ 0 := by exact_mod_cast h2
  exact mul_nonpos_of_nonpos_of_nonneg h3 (by positivity)

/-- The rounding is monotone on the non-negative rationals. -/
theorem roundDouble_mono {x y : ℚ} (hx : 0 ≤ x) (h : x ≤ y) :
    roundDouble x ≤ roundDouble y := by
  rcases hx.eq_or_lt with rfl | hxpos
  · rw [roundDouble_zero]
    exact roundDouble_nonneg h
  have hypos : 0 < y := lt_of_lt_of_le hxpos h
  have hlog : Int.log 2 |x| ≤ Int.log 2 |y| := by
    rw [abs_of_pos hxpos, abs_of_pos hypos]
    exact Int.log_mono_right hxpos h
  have hexp : ulpExponent x ≤ ulpExponent y := by
    unfold ulpExponent
    omega
  rcases hexp.eq_or_lt with heq | hlt
  · unfold roundDouble
    rw [heq]
    have hm : x / 2 ^ ulpExponent y ≤ y / 2 ^ ulpExponent y :=
      div_le_div_of_nonneg_right h (by positivity)
    have := roundHalfEven_mono hm
    have hc : (roundHalfEven (x / 2 ^ ulpExponent y) : ℚ) ≤
        roundHalfEven (y / 2 ^ ulpExponent y) := by exact_mod_cast this
    exact mul_le_mul_of_nonneg_right hc (by positivity)
  · -- different binades: the rounding of `x` stays below the binade of `y`
    have hxhi : x < (2 : ℚ) ^ (ulpExponent x + 53) := by
      have h1 := Int.lt_zpow_succ_log_self (b := 2) (by norm_num) x
      have h2 : ((2 : ℕ) : ℚ) ^ (Int.log 2 x + 1) ≤ (2 : ℚ) ^ (ulpExponent x + 53) := by
        have : Int.log 2 x + 1 ≤ ulpExponent x + 53 := by
          unfold ulpExponent
          rw [abs_of_pos hxpos]
          omega
        exact_mod_cast zpow_le_zpow_right₀ (by norm_num : (1 : ℚ) ≤ 2) this
      exact lt_of_lt_of_le h1 h2
    have hylo : (2 : ℚ) ^ (ulpExponent y + 52) ≤ y := by
      have hy : ulpExponent y + 52 = Int.log 2 y := by
        unfold ulpExponent at hlt ⊢
        rw [abs_of_pos hypos] at hlt ⊢
        omega
      rw [hy]
      exact_mod_cast Int.zpow_log_le_self (b := 2) (by norm_num) hypos
    have hfx : roundDouble x ≤ (2 : ℚ) ^ (ulpExponent x + 53) := by
      unfold roundDouble
      have hm : x / 2 ^ ulpExponent x ≤ ((2 ^ 53 : Int) : ℚ) := by
        rw [div_le_iff₀ (by positivity)]
        have : ((2 ^ 53 : Int) : ℚ) * 2 ^ ulpExponent x = 2 ^ (ulpExponent x + 53) := by
          rw [zpow_add₀ (by norm_num : (2 : ℚ) ≠ 0)]
          push_cast
          ring
        rw [this]
        exact le_of_lt hxhi
      have := roundHalfEven_mono hm
      rw [roundHalfEven_intCast] at this
      have hc : (roundHalfEven (x / 2 ^ ulpExponent x) : ℚ) ≤ ((2 ^ 53 : Int) : ℚ) := by
        exact_mod_cast this
      calc (roundHalfEven (x / 2 ^ ulpExponent x) : ℚ) * 2 ^ ulpExponent x
          ≤ ((2 ^ 53 : Int) : ℚ) * 2 ^ ulpExponent x :=
            mul_le_mul_of_nonneg_right hc (by positivity)
        _ = 2 ^ (ulpExponent x + 53) := by
            rw [zpow_add₀ (by norm_num : (2 : ℚ) ≠ 0)]
            push_cast
            ring
    have hfy : (2 : ℚ) ^ (ulpExponent y + 52) ≤ roundDouble y := by
      unfold roundDouble
      have hm : ((2 ^ 52 : Int) : ℚ) ≤ y / 2 ^ ulpExponent y := by
        rw [le_div_iff₀ (by positivity)]
        have : ((2 ^ 52 : Int) : ℚ) * 2 ^ ulpExponent y = 2 ^ (ulpExponent y + 52) := by
          rw [zpow_add₀ (by norm_num : (2 : ℚ) ≠ 0)]
          push_cast
          ring
        rw [this]
        exact hylo
      have := roundHalfEven_mono hm
      rw [roundHalfEven_intCast] at this
      have hc : ((2 ^ 52 : Int) : ℚ) ≤ (roundHalfEven (y / 2 ^ ulpExponent y) : ℚ) := by
        exact_mod_cast this
      calc (2 : ℚ) ^ (ulpExponent y + 52) = ((2 ^ 52 : Int) : ℚ) * 2 ^ ulpExponent y := by
            rw [zpow_add₀ (by norm_num : (2 : ℚ) ≠ 0)]
            push_cast
            ring
        _ ≤ (roundHalfEven (y / 2 ^ ulpExponent y) : ℚ) * 2 ^ ulpExponent y :=
            mul_le_mul_of_nonneg_right hc (by positivity)
    have hmid : (2 : ℚ) ^ (ulpExponent x + 53) ≤ 2 ^ (ulpExponent y + 52) :=
      zpow_le_zpow_right₀ (by norm_num) (by omega)
    linarith

/-- The rounding error is at most half a unit in the last place: relative to a value of the
normal range, at most `2 ^ (-53)`. -/
theorem roundDouble_sub_le (q : ℚ) (h : (2 : ℚ) ^ (-1022 : Int) ≤ |q|) :
    |roundDouble q - q| ≤ |q| * 2 ^ (-53 : Int) := by
  have hpos : (0 : ℚ) < |q| := lt_of_lt_of_le (by positivity) h
  have hlog : -1022 ≤ Int.log 2 |q| := by
    rw [← Int.zpow_le_iff_le_log (by norm_num) hpos]
    exact_mod_cast h
  have hexp : ulpExponent q = Int.log 2 |q| - 52 := by
    unfold ulpExponent
    omega
  have hlo : (2 : ℚ) ^ (ulpExponent q + 52) ≤ |q| := by
    rw [hexp, sub_add_cancel]
    exact_mod_cast Int.zpow_log_le_self (b := 2) (by norm_num) hpos
  have herr := roundHalfEven_sub_le (q / 2 ^ ulpExponent q)
  have hu : (0 : ℚ) < 2 ^ ulpExponent q := by positivity
  have hsplit : roundDouble q - q =
      ((roundHalfEven (q / 2 ^ ulpExponent q) : ℚ) - q / 2 ^ ulpExponent q) *
        2 ^ ulpExponent q := by
    unfold roundDouble
    field_simp
  rw [hsplit, abs_mul, abs_of_pos hu]
  have h53 : (2 : ℚ) ^ (ulpExponent q + 52) * 2 ^ (-53 : Int) = 1 / 2 * 2 ^ ulpExponent q := by
    rw [← zpow_add₀ (by norm_num : (2 : ℚ) ≠ 0)]
    have : ulpExponent q + 52 + -53 = ulpExponent q + -1 := by ring
    rw [this, zpow_add₀ (by norm_num : (2 : ℚ) ≠ 0)]
    norm_num
    ring
  calc |(roundHalfEven (q / 2 ^ ulpExponent q) : ℚ) - q / 2 ^ ulpExponent q| * 2 ^ ulpExponent q
      ≤ 1 / 2 * 2 ^ ulpExponent q := mul_le_mul_of_nonneg_right herr (le_of_lt hu)
    _ = (2 : ℚ) ^ (ulpExponent q + 52) * 2 ^ (-53 : Int) := h53.symm
    _ ≤ |q| * 2 ^ (-53 : Int) := mul_le_mul_of_nonneg_right hlo (by positivity)

/-- The double `(15.0 / 25) * 100.0` is 60. -/
theorem percentDouble_15_25 : percentDouble 15 25 = 60 := by
  have h1 : roundDouble ((15 : ℚ) / 25) = 5404319552844595 * 2 ^ (-1 - 52 : Int) := by
    apply roundDouble_eq _ (-1) 5404319552844595 (by norm_num)
    · rw [abs_of_pos (by norm_num)]; norm_num
    · rw [abs_of_pos (by norm_num)]; norm_num
    · norm_num [abs_lt]
  have h2 : roundDouble (5404319552844595 * 2 ^ (-1 - 52 : Int) * 100) =
      8444249301319680 * 2 ^ (5 - 52 : Int) := by
    apply roundDouble_eq _ 5 8444249301319680 (by norm_num)
    · rw [abs_of_pos (by norm_num)]; norm_num
    · rw [abs_of_pos (by norm_num)]; norm_num
    · norm_num [abs_lt]
  unfold percentDouble mulDouble
  push_cast
  rw [h1, h2]
  norm_num

/-- The double nearest to `4 / 5` lies above it. -/
theorem roundDouble_four_fifths :
    roundDouble (4 / 5) = 7205759403792794 * 2 ^ (-1 - 52 : Int) := by
  apply roundDouble_eq _ (-1) 7205759403792794 (by norm_num)
  · rw [abs_of_pos (by norm_num)]; norm_num
  · rw [abs_of_pos (by norm_num)]; norm_num
  · norm_num [abs_lt]

/-- The threshold 80 is a double. -/
theorem roundDouble_80 : roundDouble 80 = 80 := by
  have h : roundDouble 80 = 5629499534213120 * 2 ^ (6 - 52 : Int) := by
    apply roundDouble_eq _ 6 5629499534213120 (by norm_num)
    · rw [abs_of_pos (by norm_num)]; norm_num
    · rw [abs_of_pos (by norm_num)]; norm_num
    · norm_num [abs_lt]
  rw [h]
  norm_num

/-- Rounding twice does not move a percentage across the threshold of 80: for two `int`s
`a` and `b > 0`, the double `(a / b) * 100.0` is below 80 exactly when `100 * a / b` is. -/
theorem percentDouble_lt_80_iff (a b : Int) (hb : 0 < b) (hb' : b ≤ 2147483647) :
    percentDouble a b < 80 ↔ 100 * (a : ℚ) / (b : ℚ) < 80 := by
  have hbq : (0 : ℚ) < (b : ℚ) := by exact_mod_cast hb
  have hiff : 100 * (a : ℚ) / (b : ℚ) < 80 ↔ 5 * a < 4 * b := by
    rw [div_lt_iff₀ hbq]
    constructor
    · intro h
      have h' : (5 * a : ℚ) < 4 * b := by linarith
      exact_mod_cast h'
    · intro h
      have h' : (5 * a : ℚ) < 4 * b := by exact_mod_cast h
      linarith
  rw [hiff]
  unfold percentDouble mulDouble
  constructor
  · intro hlt
    by_contra hge
    rw [not_lt] at hge
    have hx : (4 / 5 : ℚ) ≤ (a : ℚ) / b := by
      rw [le_div_iff₀ hbq]
      have : (4 * b : ℚ) ≤ 5 * a := by exact_mod_cast hge
      linarith
    have h1 := roundDouble_mono (by norm_num) hx
    rw [roundDouble_four_fifths] at h1
    have h2 : (80 : ℚ) ≤ roundDouble ((a : ℚ) / b) * 100 := by
      have : (80 : ℚ) ≤ 7205759403792794 * 2 ^ (-1 - 52 : Int) * 100 := by norm_num
      linarith
    have h3 := roundDouble_mono (by norm_num) h2
    rw [roundDouble_80] at h3
    linarith
  · intro hlt
    rcases le_or_lt a 0 with ha | ha
    · have hx : (a : ℚ) / b ≤ 0 :=
        div_nonpos_of_nonpos_of_nonneg (by exact_mod_cast ha) (le_of_lt hbq)
      have h1 := roundDouble_nonpos hx
      have h2 : roundDouble ((a : ℚ) / b) * 100 ≤ 0 := by linarith
      have h3 := roundDouble_nonpos h2
      linarith
    · have hint : 5 * a + 1 ≤ 4 * b := by omega
      have hbq' : (b : ℚ) ≤ 2147483647 := by exact_mod_cast hb'
      have hx0 : (0 : ℚ) ≤ (a : ℚ) / b :=
        div_nonneg (by exact_mod_cast le_of_lt ha) (le_of_lt hbq)
      have hx : (a : ℚ) / b ≤ 13743895347 * 2 ^ (-34 : Int) := by
        rw [div_le_iff₀ hbq]
        have h' : (5 * a + 1 : ℚ) ≤ 4 * b := by exact_mod_cast hint
        have hc : (13743895347 * 2 ^ (-34 : Int) : ℚ) = 13743895347 / 17179869184 := by norm_num
        rw [hc]
        have : (5 : ℚ) * a * 17179869184 ≤ 5 * (13743895347 * b) := by nlinarith
        have h5 : (a : ℚ) * 17179869184 ≤ 13743895347 * b := by linarith
        rw [div_mul_eq_mul_div, le_div_iff₀ (by norm_num)]
        linarith
      have hc1 : roundDouble (13743895347 * 2 ^ (-34 : Int)) =
          13743895347 * 2 ^ (-34 : Int) := by
        have := roundDouble_eq (13743895347 * 2 ^ (-34 : Int)) (-1) 7205759403687936
          (by norm_num) (by rw [abs_of_pos (by norm_num)]; norm_num)
          (by rw [abs_of_pos (by norm_num)]; norm_num) (by norm_num [abs_lt])
        rw [this]
        norm_num
      have h1 := roundDouble_mono hx0 hx
      rw [hc1] at h1
      have h0 := roundDouble_nonneg hx0
      have hz0 : (0 : ℚ) ≤ roundDouble ((a : ℚ) / b) * 100 := by linarith
      have hz : roundDouble ((a : ℚ) / b) * 100 ≤ 1374389534700 * 2 ^ (-34 : Int) := by
        have : (1374389534700 * 2 ^ (-34 : Int) : ℚ) = 13743895347 * 2 ^ (-34 : Int) * 100 := by
          norm_num
        rw [this]
        linarith
      have hc2 : roundDouble (1374389534700 * 2 ^ (-34 : Int)) =
          1374389534700 * 2 ^ (-34 : Int) := by
        have := roundDouble_eq (1374389534700 * 2 ^ (-34 : Int)) 6 5629499534131200
          (by norm_num) (by rw [abs_of_pos (by norm_num)]; norm_num)
          (by rw [abs_of_pos (by norm_num)]; norm_num) (by norm_num [abs_lt])
        rw [this]
        norm_num
      have h2 := roundDouble_mono hz0 hz
      rw [hc2] at h2
      have : (1374389534700 * 2 ^ (-34 : Int) : ℚ) < 80 := by norm_num
      linarith

/-- The double `(a / b) * 100.0` of two `int`s with `b > 0` differs from the exact
percentage `100 * a / b` by at most `2 ^ (-51)` of its size. -/
theorem percentDouble_sub_le (a b : Int) (hb : 0 < b) (hb' : b ≤ 2147483647) :
    |percentDouble a b - 100 * (a : ℚ) / (b : ℚ)| ≤
      |100 * (a : ℚ) / (b : ℚ)| * 2 ^ (-51 : Int) := by
  have hbq : (0 : ℚ) < (b : ℚ) := by exact_mod_cast hb
  unfold percentDouble mulDouble
  rcases eq_or_ne a 0 with rfl | ha
  · simp [roundDouble_zero]
  set x : ℚ := (a : ℚ) / b with hxdef
  have hxabs : (1 : ℚ) / 2147483647 ≤ |x| := by
    rw [hxdef, abs_div, abs_of_pos hbq]
    have h1 : (1 : ℚ) ≤ |(a : ℚ)| := by
      have : (1 : Int) ≤ |a| := Int.one_le_abs ha
      exact_mod_cast this
    have hbq' : (b : ℚ) ≤ 2147483647 := by exact_mod_cast hb'
    rw [div_le_div_iff₀ (by norm_num) hbq]
    nlinarith
  have hsmall : (2 : ℚ) ^ (-1022 : Int) ≤ 1 / 2147483647 := by
    have h1 : (2 : ℚ) ^ (-1022 : Int) ≤ 2 ^ (-31 : Int) :=
      zpow_le_zpow_right₀ (by norm_num) (by norm_num)
    have h2 : (2 : ℚ) ^ (-31 : Int) ≤ 1 / 2147483647 := by norm_num
    exact le_trans h1 h2
  have he : (2 : ℚ) ^ (-53 : Int) = 1 / 9007199254740992 := by norm_num
  have he' : (2 : ℚ) ^ (-51 : Int) = 1 / 2251799813685248 := by norm_num
  have hx0 : (0 : ℚ) ≤ |x| := abs_nonneg x
  have h1 := roundDouble_sub_le x (le_trans hsmall hxabs)
  rw [he] at h1
  have hzx : |roundDouble x * 100 - 100 * x| ≤ 100 * (|x| * (1 / 9007199254740992)) := by
    have : roundDouble x * 100 - 100 * x = 100 * (roundDouble x - x) := by ring
    rw [this, abs_mul, abs_of_pos (by norm_num : (0 : ℚ) < 100)]
    exact mul_le_mul_of_nonneg_left h1 (by norm_num)
  have hzlo : |x| ≤ |roundDouble x * 100| := by
    have h100 : |100 * x| = 100 * |x| := by
      rw [abs_mul, abs_of_pos (by norm_num : (0 : ℚ) < 100)]
    have htri : |100 * x| ≤ |roundDouble x * 100| + |roundDouble x * 100 - 100 * x| := by
      have := abs_sub_abs_le_abs_sub (100 * x) (roundDouble x * 100)
      rw [abs_sub_comm (100 * x)] at this
      linarith
    linarith
  have hzhi : |roundDouble x * 100| ≤ 100 * |x| + 100 * (|x| * (1 / 9007199254740992)) := by
    have h100 : |100 * x| = 100 * |x| := by
      rw [abs_mul, abs_of_pos (by norm_num : (0 : ℚ) < 100)]
    have := abs_sub_abs_le_abs_sub (roundDouble x * 100) (100 * x)
    linarith
  have h2 := roundDouble_sub_le (roundDouble x * 100)
    (le_trans hsmall (le_trans hxabs hzlo))
  rw [he] at h2
  have hgoal : 100 * (a : ℚ) / b = 100 * x := by rw [hxdef]; ring
  rw [hgoal, he']
  have h100 : |100 * x| = 100 * |x| := by
    rw [abs_mul, abs_of_pos (by norm_num : (0 : ℚ) < 100)]
  rw [h100]
  have htri : |roundDouble (roundDouble x * 100) - 100 * x| ≤
      |roundDouble (roundDouble x * 100) - roundDouble x * 100| +
        |roundDouble x * 100 - 100 * x| := by
    have := abs_sub_le (roundDouble (roundDouble x * 100)) (roundDouble x * 100) (100 * x)
    exact this
  have hmul : |roundDouble x * 100| * (1 / 9007199254740992) ≤
      (100 * |x| + 100 * (|x| * (1 / 9007199254740992))) * (1 / 9007199254740992) :=
    mul_le_mul_of_nonneg_right hzhi (by norm_num)
  nlinarith

/-- The double `(29.0 / 100) * 100.0` is the double just below 29. -/
theorem percentDouble_29_100 : percentDouble 29 100 = 8162774324609023 / 281474976710656 := by
  have h1 : roundDouble ((29 : ℚ) / 100) = 5224175567749775 * 2 ^ (-2 - 52 : Int) := by
    apply roundDouble_eq _ (-2) 5224175567749775 (by norm_num)
    · rw [abs_of_pos (by norm_num)]; norm_num
    · rw [abs_of_pos (by norm_num)]; norm_num
    · norm_num [abs_lt]
  have h2 : roundDouble (5224175567749775 * 2 ^ (-2 - 52 : Int) * 100) =
      8162774324609023 * 2 ^ (4 - 52 : Int) := by
    apply roundDouble_eq _ 4 8162774324609023 (by norm_num)
    · rw [abs_of_pos (by norm_num)]; norm_num
    · rw [abs_of_pos (by norm_num)]; norm_num
    · norm_num [abs_lt]
  unfold percentDouble mulDouble
  push_cast
  rw [h1, h2]
  norm_num

/-- The double `(9.0 / 11) * 100.0`, which prints as 81.81818181818183. -/
theorem percentDouble_9_11 : percentDouble 9 11 = 5757442705445237 / 70368744177664 := by
  have h1 : roundDouble ((9 : ℚ) / 11) = 7369526662969903 * 2 ^ (-1 - 52 : Int) := by
    apply roundDouble_eq _ (-1) 7369526662969903 (by norm_num)
    · rw [abs_of_pos (by norm_num)]; norm_num
    · rw [abs_of_pos (by norm_num)]; norm_num
    · norm_num [abs_lt]
  have h2 : roundDouble (7369526662969903 * 2 ^ (-1 - 52 : Int) * 100) =
      5757442705445237 * 2 ^ (6 - 52 : Int) := by
    apply roundDouble_eq _ 6 5757442705445237 (by norm_num)
    · rw [abs_of_pos (by norm_num)]; norm_num
    · rw [abs_of_pos (by norm_num)]; norm_num
    · norm_num [abs_lt]
  unfold percentDouble mulDouble
  push_cast
  rw [h1, h2]
  norm_num

/-! ## Closed forms of the two loops -/

/-- The loop over goals only adds the positive points to `targetScore`, in 32-bit
arithmetic. -/
theorem foldl_goalStep (goals : List Goal) (c : ScoreCalculation)
    (hc : wrapInt32 c.targetScore = c.targetScore) :
    goals.foldl goalStep c =
      { c with targetScore := wrapInt32 (c.targetScore + sumPositivePoints goals) } := by
  induction goals generalizing c with
  | nil => simp [sumPositivePoints, hc]
  | cons goal rest ih =>
    rw [List.foldl_cons]
    by_cases h : goal.points > 0
    · have hstep : goalStep c goal =
          { c with targetScore := wrapInt32 (c.targetScore + goal.points) } := by
        simp [goalStep, h]
      rw [hstep, ih _ (wrapInt32_of_isInt32 _ (isInt32_wrapInt32 _))]
      simp only [sumPositivePoints, List.filter_cons, h, decide_True, if_true, List.map_cons,
        List.sum_cons]
      rw [wrapInt32_add, add_assoc]
    · have hstep : goalStep c goal = c := by
        simp [goalStep, h]
      rw [hstep, ih c hc]
      simp [sumPositivePoints, List.filter_cons, h]

/-- The loop over occurrences adds every score impact to `earnedScore`, in 32-bit
arithmetic, counts the four known statuses and raises `hasNegativeOutcome` on a
`not_completed` occurrence of negative impact. -/
theorem foldl_occurrenceStep (occurrences : List Occurrence) (c : ScoreCalculation)
    (hc : wrapInt32 c.earnedScore = c.earnedScore) :
    occurrences.foldl occurrenceStep c =
      { c with
        earnedScore := wrapInt32 (c.earnedScore + sumScoreImpact occurrences)
        completedCount := c.completedCount + countStatus "completed" occurrences
        skippedCount := c.skippedCount + countStatus "skipped" occurrences
        notCompletedCount := c.notCompletedCount + countStatus "not_completed" occurrences
        pendingCount := c.pendingCount + countStatus "pending" occurrences
        hasNegativeOutcome := c.hasNegativeOutcome || anyNegativeOutcome occurrences } := by
  induction occurrences generalizing c with
  | nil => simp [sumScoreImpact, countStatus, anyNegativeOutcome, hc]
  | cons o rest ih =>
    have hstep : wrapInt32 (occurrenceStep c o).earnedScore = (occurrenceStep c o).earnedScore ∧
        (occurrenceStep c o).earnedScore = wrapInt32 (c.earnedScore + o.scoreImpact) := by
      unfold occurrenceStep
      refine ⟨?_, ?_⟩ <;> (split_ifs <;>
        simp only [wrapInt32_of_isInt32 _ (isInt32_wrapInt32 _)])
    have hsum : wrapInt32 ((occurrenceStep c o).earnedScore + sumScoreImpact rest) =
        wrapInt32 (c.earnedScore + sumScoreImpact (o :: rest)) := by
      rw [hstep.2, wrapInt32_add]
      simp [sumScoreImpact, add_assoc]
    rw [List.foldl_cons, ih _ hstep.1, hsum]
    unfold occurrenceStep countStatus anyNegativeOutcome
    by_cases h1 : o.status = "completed"
    · simp [h1, List.countP_cons, add_assoc, add_comm]
    · by_cases h2 : o.status = "skipped"
      · simp [h2, List.countP_cons, add_assoc, add_comm]
      · by_cases h3 : o.status = "not_completed"
        · by_cases h4 : o.scoreImpact < 0
          · simp [h3, h4, List.countP_cons, add_assoc, add_comm]
          · simp [h3, h4, List.countP_cons, add_assoc, add_comm]
        · by_cases h5 : o.status = "pending"
          · simp [h5, List.countP_cons, add_assoc, add_comm]
          · simp [h1, h2, h3, h5, List.countP_cons, add_assoc]

/-- A sum of positive points is never negative. -/
theorem sumPositivePoints_nonneg (goals : List Goal) : 0 ≤ sumPositivePoints goals := by
  unfold sumPositivePoints
  apply List.sum_nonneg
  intro x hx
  simp only [List.mem_map, List.mem_filter] at hx
  obtain ⟨g, ⟨_, hg⟩, rfl⟩ := hx
  exact le_of_lt (by simpa using hg)

/-- Closed form of `calculateFromOccurrences`: it always returns, and every field is the
corresponding specification-side function of its inputs, the two sums in 32-bit arithmetic
and the percentage in double arithmetic. -/
theorem calculateFromOccurrences_eq (occurrences : List Occurrence) (goals : List Goal) :
    calculateFromOccurrences occurrences goals = some
      { earnedScore := wrapInt32 (sumScoreImpact occurrences)
        targetScore := wrapInt32 (sumPositivePoints goals)
        completionPercentage :=
          if wrapInt32 (sumPositivePoints goals) > 0 then
            percentDouble (wrapInt32 (sumScoreImpact occurrences))
              (wrapInt32 (sumPositivePoints goals))
          else 0
        completedCount := countStatus "completed" occurrences
        skippedCount := countStatus "skipped" occurrences
        notCompletedCount := countStatus "not_completed" occurrences
        pendingCount := countStatus "pending" occurrences
        totalCount := occurrences.length
        hasNegativeOutcome := anyNegativeOutcome occurrences } := by
  have hzero : wrapInt32 0 = 0 := by decide
  have hg := foldl_goalStep goals ⟨0, 0, 0, 0, 0, 0, 0, occurrences.length, false⟩ hzero
  have ho := foldl_occurrenceStep occurrences
    ⟨0, wrapInt32 (0 + sumPositivePoints goals), 0, 0, 0, 0, 0, occurrences.length, false⟩ hzero
  simp only [zero_add, Bool.false_or] at hg ho
  unfold calculateFromOccurrences
  simp only [hg, ho]
  by_cases h : wrapInt32 (sumPositivePoints goals) > 0
  · have h0 : (wrapInt32 (sumPositivePoints goals) : ℚ) ≠ 0 := by
      have : wrapInt32 (sumPositivePoints goals) ≠ 0 := ne_of_gt h
      exact_mod_cast this
    simp [h, divDouble, h0, percentDouble]
  · simp [h]

/-- What `recalculateDaily` does once the calculation is known. -/
theorem recalculateDaily_eq (w : World) (date : QDate) (occurrences : List Occurrence)
    (goals : List Goal) (exec : Bool) (c : ScoreCalculation)
    (hc : calculateFromOccurrences occurrences goals = some c) :
    recalculateDaily w date occurrences goals exec = some
      { w with
        dailyScores := (upsertDailyScore w.dailyScores (dailyScoreOf date c) exec).1
        events := if exec then w.events ++ [Event.dailyScoreUpdated date] else w.events
        errors := if exec then w.errors else w.errors ++ ["SAVE_FAILED"]
        calls := w.calls ++ [RepoCall.findByDate date, RepoCall.findByScope "daily",
          RepoCall.upsertDailyScore (dailyScoreOf date c)] } := by
  unfold recalculateDaily
  simp only [hc, Option.map_some']
  unfold upsertDailyScore
  cases exec
  · simp
  · by_cases h : (w.dailyScores.any fun row => decide (row.date = date)) = true
    · simp [h, dailyScoreOf]
    · simp [h, dailyScoreOf]

/-- What `recalculateWeekly` does once the calculation is known. -/
theorem recalculateWeekly_eq (cal : Calendar) (w : World) (date : QDate)
    (occurrences : List Occurrence) (goals : List Goal) (exec : Bool) (c : ScoreCalculation)
    (hc : calculateFromOccurrences occurrences goals = some c) :
    recalculateWeekly cal w date occurrences goals exec = some
      { w with
        weeklyScores := (upsertWeeklyScore w.weeklyScores
          (weeklyScoreOf cal (cal.calculateWeekStart date) c) exec).1
        events :=
          if exec then w.events ++ [Event.weeklyScoreUpdated (cal.calculateWeekStart date)]
          else w.events
        calls := w.calls ++ [RepoCall.findByWeek (cal.calculateWeekStart date),
          RepoCall.findByScope "weekly",
          RepoCall.upsertWeeklyScore (weeklyScoreOf cal (cal.calculateWeekStart date) c)] } := by
  unfold recalculateWeekly
  simp only [hc, Option.map_some']
  unfold upsertWeeklyScore
  cases exec
  · simp
  · by_cases h : (w.weeklyScores.any fun row =>
        decide (row.weekStart = cal.calculateWeekStart date)) = true
    · simp [h, weeklyScoreOf]
    · simp [h, weeklyScoreOf]

/-- What `recalculateMonthly` does once the calculation is known. -/
theorem recalculateMonthly_eq (cal : Calendar) (w : World) (date : QDate)
    (occurrences : List Occurrence) (goals : List Goal) (exec : Bool) (c : ScoreCalculation)
    (hc : calculateFromOccurrences occurrences goals = some c) :
    recalculateMonthly cal w date occurrences goals exec = some
      { w with
        monthlyScores := (upsertMonthlyScore w.monthlyScores
          (monthlyScoreOf cal (cal.calculateMonthStart date) c) exec).1
        events :=
          if exec then w.events ++ [Event.monthlyScoreUpdated (cal.calculateMonthStart date)]
          else w.events
        calls := w.calls ++ [RepoCall.findByMonth (cal.calculateMonthStart date),
          RepoCall.findByScope "monthly",
          RepoCall.upsertMonthlyScore
            (monthlyScoreOf cal (cal.calculateMonthStart date) c)] } := by
  unfold recalculateMonthly
  simp only [hc, Option.map_some']
  unfold upsertMonthlyScore
  cases exec
  · simp
  · by_cases h : (w.monthlyScores.any fun row =>
        decide (row.monthStart = cal.calculateMonthStart date)) = true
    · simp [h, monthlyScoreOf]
    · simp [h, monthlyScoreOf]

/-- What `recalculateYearly` does once the calculation is known. -/
theorem recalculateYearly_eq (cal : Calendar) (w : World) (year : Int)
    (occurrences : List Occurrence) (goals : List Goal) (exec : Bool) (c : ScoreCalculation)
    (hc : calculateFromOccurrences occurrences goals = some c) :
    recalculateYearly cal w year occurrences goals exec = some
      { w with
        yearlyScores := (upsertYearlyScore w.yearlyScores (yearlyScoreOf cal year c) exec).1
        events := if exec then w.events ++ [Event.yearlyScoreUpdated year] else w.events
        calls := w.calls ++ [RepoCall.findByYear year, RepoCall.findByScope "yearly",
          RepoCall.upsertYearlyScore (yearlyScoreOf cal year c)] } := by
  unfold recalculateYearly
  simp only [hc, Option.map_some']
  unfold upsertYearlyScore
  cases exec
  · simp
  · split_ifs <;> simp

/-- Counterexample to claim C2 as stated.  With one occurrence of impact 29 and one goal of
100 points the code computes `(29.0 / 100) * 100.0`, which is the double just below 29
(`29 - 2 ^ (-48)`, printed as 28.999999999999996) and not the exact rational
`100 * 29 / 100 = 29`. -/
theorem calculateFromOccurrences_rounding_counterexample :
    ∃ c, calculateFromOccurrences [sampleOccurrence "completed" 29] [sampleGoal 100] = some c ∧
      c.earnedScore = 29 ∧ c.targetScore = 100 ∧
      c.completionPercentage = 29 - 1 / 281474976710656 ∧
      c.completionPercentage ≠ 100 * (c.earnedScore : ℚ) / (c.targetScore : ℚ) := by
  have h := calculateFromOccurrences_eq [sampleOccurrence "completed" 29] [sampleGoal 100]
  have he : wrapInt32 (sumScoreImpact [sampleOccurrence "completed" 29]) = 29 := by decide
  have ht : wrapInt32 (sumPositivePoints [sampleGoal 100]) = 100 := by decide
  rw [he, ht] at h
  refine ⟨_, h, rfl, rfl, ?_, ?_⟩
  · simp only [gt_iff_lt, Int.reduceLT, if_true, percentDouble_29_100]
    norm_num
  · simp only [gt_iff_lt, Int.reduceLT, if_true, percentDouble_29_100]
    norm_num

/-- Claim C2, amended.  `calculateFromOccurrences` always returns (it never divides by
zero).  When `targetScore > 0` its `completionPercentage` is the double
`(earnedScore / targetScore) * 100.0`, the quotient rounded to the nearest double, multiplied
by 100 and rounded again, which differs from the exact rational `100 * earnedScore /
targetScore` by at most `2 ^ (-51)` of its size; when `targetScore` is not positive it is
`0`, whatever `earnedScore` is.  Each of the four recalculations returns as well and hands
to its upsert a score object carrying exactly these three values. -/
theorem calculateFromOccurrences_completionPercentage (occurrences : List Occurrence)
    (goals : List Goal) :
    ∃ c, calculateFromOccurrences occurrences goals = some c ∧
      (c.targetScore > 0 →
        c.completionPercentage =
          roundDouble (roundDouble ((c.earnedScore : ℚ) / (c.targetScore : ℚ)) * 100) ∧
        |c.completionPercentage - 100 * (c.earnedScore : ℚ) / (c.targetScore : ℚ)| ≤
          |100 * (c.earnedScore : ℚ) / (c.targetScore : ℚ)| * 2 ^ (-51 : Int)) ∧
      (c.targetScore ≤ 0 → c.completionPercentage = 0) ∧
      (∀ w date exec, ∃ w' score,
        recalculateDaily w date occurrences goals exec = some w' ∧
        w'.calls = w.calls ++ [RepoCall.findByDate date, RepoCall.findByScope "daily",
          RepoCall.upsertDailyScore score] ∧
        score.earnedScore = c.earnedScore ∧ score.targetScore = c.targetScore ∧
        score.completionPercentage = c.completionPercentage) ∧
      (∀ cal w date exec, ∃ w' score,
        recalculateWeekly cal w date occurrences goals exec = some w' ∧
        w'.calls = w.calls ++ [RepoCall.findByWeek (cal.calculateWeekStart date),
          RepoCall.findByScope "weekly", RepoCall.upsertWeeklyScore score] ∧
        score.earnedScore = c.earnedScore ∧ score.targetScore = c.targetScore ∧
        score.completionPercentage = c.completionPercentage) ∧
      (∀ cal w date exec, ∃ w' score,
        recalculateMonthly cal w date occurrences goals exec = some w' ∧
        w'.calls = w.calls ++ [RepoCall.findByMonth (cal.calculateMonthStart date),
          RepoCall.findByScope "monthly", RepoCall.upsertMonthlyScore score] ∧
        score.earnedScore = c.earnedScore ∧ score.targetScore = c.targetScore ∧
        score.completionPercentage = c.completionPercentage) ∧
      (∀ cal w year exec, ∃ w' score,
        recalculateYearly cal w year occurrences goals exec = some w' ∧
        w'.calls = w.calls ++ [RepoCall.findByYear year, RepoCall.findByScope "yearly",
          RepoCall.upsertYearlyScore score] ∧
        score.earnedScore = c.earnedScore ∧ score.targetScore = c.targetScore ∧
        score.completionPercentage = c.completionPercentage) := by
  have hc := calculateFromOccurrences_eq occurrences goals
  refine ⟨_, hc, ?_, ?_, ?_, ?_, ?_, ?_⟩
  · intro h
    simp only [gt_iff_lt] at h
    simp only [gt_iff_lt, h, if_true]
    exact ⟨rfl, percentDouble_sub_le _ _ h (isInt32_wrapInt32 _).2⟩
  · intro h
    simp only at h
    simp [not_lt.mpr h]
  · intro w date exec
    have h := recalculateDaily_eq w date occurrences goals exec _ hc
    exact ⟨_, _, h, rfl, rfl, rfl, rfl⟩
  · intro cal w date exec
    have h := recalculateWeekly_eq cal w date occurrences goals exec _ hc
    exact ⟨_, _, h, rfl, rfl, rfl, rfl⟩
  · intro cal w date exec
    have h := recalculateMonthly_eq cal w date occurrences goals exec _ hc
    exact ⟨_, _, h, rfl, rfl, rfl, rfl⟩
  · intro cal w year exec
    have h := recalculateYearly_eq cal w year occurrences goals exec _ hc
    exact ⟨_, _, h, rfl, rfl, rfl, rfl⟩

/-- Witness for claim C2, amended.  On Scenario A, earned 15 against a target of 25 gives the
double 60; with the same occurrences and no goal at all the target is 0 and so is the
percentage. -/
theorem calculateFromOccurrences_completionPercentage_witness :
    Option.map ScoreCalculation.targetScore
        (calculateFromOccurrences scenarioAOccurrences scenarioAGoals) = some 25 ∧
      Option.map ScoreCalculation.completionPercentage
        (calculateFromOccurrences scenarioAOccurrences scenarioAGoals) = some 60 ∧
      Option.map ScoreCalculation.earnedScore
        (calculateFromOccurrences scenarioAOccurrences []) = some 15 ∧
      Option.map ScoreCalculation.targetScore
        (calculateFromOccurrences scenarioAOccurrences []) = some 0 ∧
      Option.map ScoreCalculation.completionPercentage
        (calculateFromOccurrences scenarioAOccurrences []) = some 0 := by
  obtain ⟨c, hc, hpos, -⟩ :=
    calculateFromOccurrences_completionPercentage scenarioAOccurrences scenarioAGoals
  obtain ⟨d, hd, -, hzero, -⟩ :=
    calculateFromOccurrences_completionPercentage scenarioAOccurrences []
  have hcv := calculateFromOccurrences_eq scenarioAOccurrences scenarioAGoals
  have hdv := calculateFromOccurrences_eq scenarioAOccurrences []
  have he : wrapInt32 (sumScoreImpact scenarioAOccurrences) = 15 := by decide
  have ht : wrapInt32 (sumPositivePoints scenarioAGoals) = 25 := by decide
  have ht0 : wrapInt32 (sumPositivePoints []) = 0 := by decide
  rw [he, ht] at hcv
  rw [he, ht0] at hdv
  rw [hc, Option.some.injEq] at hcv
  rw [hd, Option.some.injEq] at hdv
  have htarget : c.targetScore = 25 := by rw [hcv]
  have hearned : c.earnedScore = 15 := by rw [hcv]
  have htarget0 : d.targetScore = 0 := by rw [hdv]
  have hearned0 : d.earnedScore = 15 := by rw [hdv]
  have hpct := (hpos (by rw [htarget]; decide)).1
  have hpct0 := hzero (by rw [htarget0])
  rw [htarget, hearned] at hpct
  have h60 := percentDouble_15_25
  unfold percentDouble mulDouble at h60
  rw [hc, hd]
  refine ⟨by simp [htarget], ?_, by simp [hearned0], by simp [htarget0], by simp [hpct0]⟩
  simp only [Option.map_some', hpct]
  exact congrArg some h60

/-- Counterexample to claim C8 as stated.  For two goals of 2147483647 points and 1 point the
sum of the positive points is 2147483648, which no `int` holds: the code's `targetScore` is
-2147483648, and it is lower than the target 2147483647 of the first goal alone. -/
theorem calculateFromOccurrences_targetScore_counterexample :
    ∃ c c', calculateFromOccurrences [] [sampleGoal 2147483647] = some c ∧
      calculateFromOccurrences [] [sampleGoal 2147483647, sampleGoal 1] = some c' ∧
      c.targetScore = 2147483647 ∧ c'.targetScore = -2147483648 ∧
      (([sampleGoal 2147483647, sampleGoal 1].filter fun goal => goal.points > 0).map
        Goal.points).sum = 2147483648 := by
  have h := calculateFromOccurrences_eq [] [sampleGoal 2147483647]
  have h' := calculateFromOccurrences_eq [] [sampleGoal 2147483647, sampleGoal 1]
  have ht : wrapInt32 (sumPositivePoints [sampleGoal 2147483647]) = 2147483647 := by decide
  have ht' : wrapInt32 (sumPositivePoints [sampleGoal 2147483647, sampleGoal 1]) =
      -2147483648 := by decide
  rw [ht] at h
  rw [ht'] at h'
  exact ⟨_, _, h, h', rfl, rfl, by decide⟩

/-- Claim C8, amended.  `targetScore` is the sum of `points` over exactly the goals with
`points > 0`, in 32-bit arithmetic: the sum itself whenever that is at most 2147483647.
Inserting one more goal anywhere in the list leaves the target unchanged when that goal has
zero or negative points, for every goal list, and does not lower it as long as the new sum
is at most 2147483647. -/
theorem calculateFromOccurrences_targetScore (occurrences : List Occurrence)
    (goals : List Goal) :
    ∃ c, calculateFromOccurrences occurrences goals = some c ∧
      c.targetScore =
        wrapInt32 ((goals.filter fun goal => goal.points > 0).map Goal.points).sum ∧
      (((goals.filter fun goal => goal.points > 0).map Goal.points).sum ≤ 2147483647 →
        c.targetScore = ((goals.filter fun goal => goal.points > 0).map Goal.points).sum) ∧
      ∀ (front back : List Goal) (extra : Goal), goals = front ++ back →
        ∃ c', calculateFromOccurrences occurrences (front ++ extra :: back) = some c' ∧
          (extra.points ≤ 0 → c'.targetScore = c.targetScore) ∧
          ((((front ++ extra :: back).filter fun goal => goal.points > 0).map
              Goal.points).sum ≤ 2147483647 →
            c.targetScore ≤ c'.targetScore) := by
  have hfit : ∀ gs : List Goal, sumPositivePoints gs ≤ 2147483647 →
      wrapInt32 (sumPositivePoints gs) = sumPositivePoints gs := fun gs h =>
    wrapInt32_of_isInt32 _ ⟨le_trans (by norm_num) (sumPositivePoints_nonneg gs), h⟩
  refine ⟨_, calculateFromOccurrences_eq occurrences goals, rfl, hfit goals, ?_⟩
  intro front back extra hgoals
  refine ⟨_, calculateFromOccurrences_eq occurrences _, ?_, ?_⟩
  · intro hle
    have hnot : ¬ extra.points > 0 := not_lt.mpr hle
    subst hgoals
    simp [sumPositivePoints, List.filter_cons, hnot]
  · subst hgoals
    intro hsum
    have hle : sumPositivePoints (front ++ back) ≤
        sumPositivePoints (front ++ extra :: back) := by
      by_cases hpos : extra.points > 0
      · simp only [sumPositivePoints, List.filter_append, List.filter_cons, hpos, decide_True,
          if_true, List.map_append, List.map_cons, List.sum_append, List.sum_cons]
        linarith
      · simp [sumPositivePoints, List.filter_cons, hpos]
    show wrapInt32 (sumPositivePoints (front ++ back)) ≤
      wrapInt32 (sumPositivePoints (front ++ extra :: back))
    rw [hfit _ hsum, hfit _ (le_trans hle hsum)]
    exact hle

/-- Witness for claim C8, amended: a goal of -3 points added to the single 25-point goal of
Scenario A leaves the target at 25. -/
theorem calculateFromOccurrences_targetScore_witness :
    Option.map ScoreCalculation.targetScore
        (calculateFromOccurrences scenarioAOccurrences scenarioAGoals) = some 25 ∧
      Option.map ScoreCalculation.targetScore
        (calculateFromOccurrences scenarioAOccurrences (sampleGoal (-3) :: scenarioAGoals))
        = some 25 := by
  obtain ⟨c, hc, -, hsum, hins⟩ :=
    calculateFromOccurrences_targetScore scenarioAOccurrences scenarioAGoals
  obtain ⟨c', hc', hsame, -⟩ := hins [] scenarioAGoals (sampleGoal (-3)) rfl
  have h25 : c.targetScore = 25 := by
    rw [hsum (by decide)]; decide
  have h := hsame (by decide)
  rw [List.nil_append] at hc'
  rw [hc, hc']
  simp [h, h25]

/-- Counterexample to claim C9 as stated.  For two occurrences of impact 2147483647 and 1 the
sum of the impacts is 2147483648, which no `int` holds: the code's `earnedScore` is
-2147483648. -/
theorem calculateFromOccurrences_earnedScore_counterexample :
    ∃ c, calculateFromOccurrences
        [sampleOccurrence "completed" 2147483647, sampleOccurrence "completed" 1] [] = some c ∧
      c.earnedScore = -2147483648 ∧
      ([sampleOccurrence "completed" 2147483647, sampleOccurrence "completed" 1].map
        Occurrence.scoreImpact).sum = 2147483648 := by
  have h := calculateFromOccurrences_eq
    [sampleOccurrence "completed" 2147483647, sampleOccurrence "completed" 1] []
  have he : wrapInt32 (sumScoreImpact
      [sampleOccurrence "completed" 2147483647, sampleOccurrence "completed" 1]) =
      -2147483648 := by decide
  rw [he] at h
  exact ⟨_, h, rfl, by decide⟩

/-- Claim C9, amended.  `earnedScore` is the sum of `scoreImpact` over all occurrences of the
list, of whatever status string and whatever sign, in 32-bit arithmetic: the sum itself
whenever that is a value of `int`. -/
theorem calculateFromOccurrences_earnedScore (occurrences : List Occurrence)
    (goals : List Goal) :
    ∃ c, calculateFromOccurrences occurrences goals = some c ∧
      c.earnedScore = wrapInt32 (occurrences.map Occurrence.scoreImpact).sum ∧
      (IsInt32 (occurrences.map Occurrence.scoreImpact).sum →
        c.earnedScore = (occurrences.map Occurrence.scoreImpact).sum) :=
  ⟨_, calculateFromOccurrences_eq occurrences goals, rfl,
    fun h => wrapInt32_of_isInt32 _ h⟩

/-- Witness for claim C9, amended: the impacts +10, +10 and -5 of Scenario A, of a completed,
a completed and a not completed occurrence, sum to 15. -/
theorem calculateFromOccurrences_earnedScore_witness :
    IsInt32 (scenarioAOccurrences.map Occurrence.scoreImpact).sum ∧
    Option.map ScoreCalculation.earnedScore
      (calculateFromOccurrences scenarioAOccurrences scenarioAGoals) = some 15 := by
  obtain ⟨c, hc, -, hsum⟩ :=
    calculateFromOccurrences_earnedScore scenarioAOccurrences scenarioAGoals
  have hint : IsInt32 (scenarioAOccurrences.map Occurrence.scoreImpact).sum := by decide
  refine ⟨hint, ?_⟩
  rw [hc]
  simp only [Option.map_some', hsum hint]
  decide

/-- Claim C10.  `hasNegativeOutcome` is true exactly when some occurrence has status
`not_completed` and a negative `scoreImpact`. -/
theorem calculateFromOccurrences_hasNegativeOutcome (occurrences : List Occurrence)
    (goals : List Goal) :
    ∃ c, calculateFromOccurrences occurrences goals = some c ∧
      (c.hasNegativeOutcome = true ↔
        ∃ occurrence ∈ occurrences,
          occurrence.status = "not_completed" ∧ occurrence.scoreImpact < 0) := by
  refine ⟨_, calculateFromOccurrences_eq occurrences goals, ?_⟩
  simp [anyNegativeOutcome]




/-! ## Streak transition -/

/-- The break branch of `applyDailyScore` in closed form. -/
theorem applyDailyScore_break (streak : Streak) (date : QDate) (dailyScore : DailyScore)
    (hbreak : dailyScore.completionPercentage < 80 ∨ dailyScore.hasNegativeOutcome = true) :
    applyDailyScore streak date dailyScore = some
      ({ streak with
          currentStreak := 0
          lastBreakDate := some date
          totalFailures := streak.totalFailures + 1
          successRate :=
            if streak.totalSuccesses + (streak.totalFailures + 1) > 0 then
              percentDouble streak.totalSuccesses
                (streak.totalSuccesses + (streak.totalFailures + 1))
            else streak.successRate },
        [Event.streakBroken "daily" date]) := by
  have hcond : (shouldBreakStreak dailyScore.completionPercentage ||
      dailyScore.hasNegativeOutcome) = true := by
    simpa [shouldBreakStreak] using hbreak
  unfold applyDailyScore
  simp only [hcond, if_true]
  by_cases htotal : streak.totalSuccesses + (streak.totalFailures + 1) > 0
  · have hne : ((streak.totalSuccesses + (streak.totalFailures + 1) : Int) : ℚ) ≠ 0 := by
      exact_mod_cast ne_of_gt htotal
    simp only [htotal, if_true, divDouble, hne, if_false, Option.map_some', percentDouble]
  · simp only [htotal, if_false]

/-- The continue branch of `applyDailyScore` in closed form. -/
theorem applyDailyScore_continue (streak : Streak) (date : QDate) (dailyScore : DailyScore)
    (hpct : 80 ≤ dailyScore.completionPercentage)
    (hneg : dailyScore.hasNegativeOutcome = false) :
    applyDailyScore streak date dailyScore = some
      ({ streak with
          currentStreak := streak.currentStreak + 1
          longestStreak := max streak.longestStreak (streak.currentStreak + 1)
          lastSuccessDate := some date
          totalSuccesses := streak.totalSuccesses + 1
          successRate :=
            if streak.totalSuccesses + 1 + streak.totalFailures > 0 then
              percentDouble (streak.totalSuccesses + 1)
                (streak.totalSuccesses + 1 + streak.totalFailures)
            else streak.successRate },
        []) := by
  have hcond : (shouldBreakStreak dailyScore.completionPercentage ||
      dailyScore.hasNegativeOutcome) = false := by
    simp [shouldBreakStreak, hneg, hpct]
  unfold applyDailyScore
  simp only [hcond]
  by_cases hlong : streak.currentStreak + 1 > streak.longestStreak
  · have hm : max streak.longestStreak (streak.currentStreak + 1) = streak.currentStreak + 1 :=
      max_eq_right (le_of_lt hlong)
    by_cases htotal : streak.totalSuccesses + 1 + streak.totalFailures > 0
    · have hne : (streak.totalSuccesses : ℚ) + 1 + (streak.totalFailures : ℚ) ≠ 0 := by
        exact_mod_cast ne_of_gt htotal
      simp [hlong, htotal, divDouble, hne, hm, percentDouble]
    · simp [hlong, htotal, hm]
  · have hm : max streak.longestStreak (streak.currentStreak + 1) = streak.longestStreak :=
      max_eq_left (not_lt.mp hlong)
    by_cases htotal : streak.totalSuccesses + 1 + streak.totalFailures > 0
    · have hne : (streak.totalSuccesses : ℚ) + 1 + (streak.totalFailures : ℚ) ≠ 0 := by
        exact_mod_cast ne_of_gt htotal
      simp [hlong, htotal, divDouble, hne, hm, percentDouble]
    · simp [hlong, htotal, hm]

/-- What `updateStreaksForDate` does once the daily score, the streak record and the
outcome of the transition are known. -/
theorem updateStreaksForDate_eq (w : World) (date : QDate) (db : DbOutcome)
    (dailyScore : DailyScore) (table : List StreakRow) (streak updated : Streak)
    (emitted : List Event)
    (hscore : getDailyScore w.dailyScores date db.getDailyScoreExec = some dailyScore)
    (hstreak : getOrCreateOverall w.streaks "daily" db.uuid db.findOverallExec db.insertExec
      db.findByIdExec = (table, some streak))
    (happly : applyDailyScore streak date dailyScore = some (updated, emitted)) :
    updateStreaksForDate w date db = some
      { w with
        streaks := (update table updated db.updateExec).1
        events := w.events ++ emitted ++
          (if db.updateExec then [Event.streakUpdated updated.id] else [])
        errors := if db.updateExec then w.errors else w.errors ++ ["UPDATE_FAILED"]
        calls := w.calls ++ [RepoCall.getDailyScore date, RepoCall.getOrCreateOverall "daily",
          RepoCall.update updated] } := by
  unfold updateStreaksForDate
  simp only [hscore, hstreak, happly, Option.map_some']
  unfold update
  cases db.updateExec
  · simp
  · simp



/-- With no daily score to read, `updateStreaksForDate` logs `NOT_FOUND` and returns at once. -/
theorem updateStreaksForDate_eq_of_noScore (w : World) (date : QDate) (db : DbOutcome)
    (hscore : getDailyScore w.dailyScores date db.getDailyScoreExec = none) :
    updateStreaksForDate w date db = some
      { w with
        errors := w.errors ++ ["NOT_FOUND"]
        calls := w.calls ++ [RepoCall.getDailyScore date] } := by
  unfold updateStreaksForDate
  simp only [hscore]

/-- With no streak record obtained, `updateStreaksForDate` logs `STREAK_ERROR` and returns. -/
theorem updateStreaksForDate_eq_of_noStreak (w : World) (date : QDate) (db : DbOutcome)
    (dailyScore : DailyScore) (table : List StreakRow)
    (hscore : getDailyScore w.dailyScores date db.getDailyScoreExec = some dailyScore)
    (hstreak : getOrCreateOverall w.streaks "daily" db.uuid db.findOverallExec db.insertExec
      db.findByIdExec = (table, none)) :
    updateStreaksForDate w date db = some
      { w with
        streaks := table
        errors := w.errors ++ ["STREAK_ERROR"]
        calls := w.calls ++ [RepoCall.getDailyScore date,
          RepoCall.getOrCreateOverall "daily"] } := by
  unfold updateStreaksForDate
  simp only [hscore, hstreak]
  simp

/-- A store without a row for `date` answers `getDailyScore` with the null pointer. -/
theorem getDailyScore_eq_none (table : List DailyScore) (date : QDate) (exec : Bool)
    (hnone : ∀ row ∈ table, row.date ≠ date) : getDailyScore table date exec = none := by
  unfold getDailyScore
  cases exec
  · simp
  · simp only [if_true, List.find?_eq_none]
    intro row hrow
    simpa using hnone row hrow

/-- The table returned by `getOrCreateOverall` is the old one, possibly with one row
appended. -/
theorem getOrCreateOverall_table (table : List StreakRow) (scope uuid : String)
    (findOverallExec insertExec findExec : Bool) :
    (getOrCreateOverall table scope uuid findOverallExec insertExec findExec).1 = table ∨
      ∃ row, (getOrCreateOverall table scope uuid findOverallExec insertExec findExec).1 =
        table ++ [row] := by
  unfold getOrCreateOverall
  cases hfind : findOverallByScope table scope findOverallExec with
  | some existing => simp
  | none =>
    unfold create
    cases insertExec
    · simp
    · right
      simp

/-- Claim C7.  If the score store holds no daily aggregate for the date, then whatever the
database answers `updateStreaksForDate` logs `NOT_FOUND` and changes nothing else: its only
repository call is `getDailyScore` (get-or-create is not invoked), every table and the
emitted events are as before.  If the aggregate is found but get-or-create returns no
record, it logs `STREAK_ERROR`, emits nothing, makes no `update` call, and the streak
table is the old one, at most extended by a row that the failed get-or-create inserted. -/
theorem updateStreaksForDate_failure (w : World) (date : QDate) (db : DbOutcome) :
    ((∀ row ∈ w.dailyScores, row.date ≠ date) →
      updateStreaksForDate w date db = some
        { w with
          errors := w.errors ++ ["NOT_FOUND"]
          calls := w.calls ++ [RepoCall.getDailyScore date] }) ∧
    (∀ dailyScore,
      getDailyScore w.dailyScores date db.getDailyScoreExec = some dailyScore →
      (getOrCreateOverall w.streaks "daily" db.uuid db.findOverallExec db.insertExec
        db.findByIdExec).2 = none →
      ∃ table, (table = w.streaks ∨ ∃ row, table = w.streaks ++ [row]) ∧
        updateStreaksForDate w date db = some
          { w with
            streaks := table
            errors := w.errors ++ ["STREAK_ERROR"]
            calls := w.calls ++ [RepoCall.getDailyScore date,
              RepoCall.getOrCreateOverall "daily"] }) := by
  constructor
  · intro hnone
    exact updateStreaksForDate_eq_of_noScore w date db
      (getDailyScore_eq_none w.dailyScores date db.getDailyScoreExec hnone)
  · intro dailyScore hscore hstreak
    refine ⟨(getOrCreateOverall w.streaks "daily" db.uuid db.findOverallExec db.insertExec
      db.findByIdExec).1, getOrCreateOverall_table _ _ _ _ _ _, ?_⟩
    exact updateStreaksForDate_eq_of_noStreak w date db dailyScore _ hscore
      (Prod.ext rfl hstreak)


/-- Witness for claim C7: day 11 has no aggregate in the sample world, and on day 10 a
database that rejects the INSERT leaves get-or-create without a record. -/
theorem updateStreaksForDate_failure_witness :
    (∀ row ∈ (sampleWorld 60 false).dailyScores, row.date ≠ 11) ∧
      updateStreaksForDate (sampleWorld 60 false) 11 sampleDb = some
        { sampleWorld 60 false with
          errors := (sampleWorld 60 false).errors ++ ["NOT_FOUND"]
          calls := (sampleWorld 60 false).calls ++ [RepoCall.getDailyScore 11] } ∧
      getDailyScore sampleWorldNoStreak.dailyScores 10 sampleDbNoInsert.getDailyScoreExec =
        some (sampleDailyScore 10 90 false) ∧
      (getOrCreateOverall sampleWorldNoStreak.streaks "daily" sampleDbNoInsert.uuid
        sampleDbNoInsert.findOverallExec sampleDbNoInsert.insertExec
        sampleDbNoInsert.findByIdExec).2 = none ∧
      ∃ table, (table = sampleWorldNoStreak.streaks ∨
          ∃ row, table = sampleWorldNoStreak.streaks ++ [row]) ∧
        updateStreaksForDate sampleWorldNoStreak 10 sampleDbNoInsert = some
          { sampleWorldNoStreak with
            streaks := table
            errors := sampleWorldNoStreak.errors ++ ["STREAK_ERROR"]
            calls := sampleWorldNoStreak.calls ++ [RepoCall.getDailyScore 10,
              RepoCall.getOrCreateOverall "daily"] } :=
  have h1 : ∀ row ∈ (sampleWorld 60 false).dailyScores, row.date ≠ 11 := by
    simp [sampleWorld, sampleDailyScore]
  have h2 : getDailyScore sampleWorldNoStreak.dailyScores 10
      sampleDbNoInsert.getDailyScoreExec = some (sampleDailyScore 10 90 false) := by
    simp [getDailyScore, sampleWorldNoStreak, sampleDbNoInsert, sampleDailyScore]
  have h3 : (getOrCreateOverall sampleWorldNoStreak.streaks "daily" sampleDbNoInsert.uuid
      sampleDbNoInsert.findOverallExec sampleDbNoInsert.insertExec
      sampleDbNoInsert.findByIdExec).2 = none := by
    simp [getOrCreateOverall, findOverallByScope, create, sampleWorldNoStreak,
      sampleDbNoInsert]
  ⟨h1, (updateStreaksForDate_failure (sampleWorld 60 false) 11 sampleDb).1 h1, h2, h3,
    (updateStreaksForDate_failure sampleWorldNoStreak 10 sampleDbNoInsert).2 _ h2 h3⟩

/-! ## Idempotence of the daily recalculation -/

/-- Upserting the same daily score a second time leaves the table as the first upsert
left it. -/
theorem upsertDailyScore_idem (table : List DailyScore) (score : DailyScore) (exec : Bool) :
    (upsertDailyScore (upsertDailyScore table score true).1 score exec).1 =
      (upsertDailyScore table score true).1 := by
  cases exec
  · simp [upsertDailyScore]
  · by_cases hany : (table.any fun row => decide (row.date = score.date)) = true
    · have hany' : ((table.map fun row =>
          if row.date = score.date then score else row).any
            fun row => decide (row.date = score.date)) = true := by
        simp only [List.any_eq_true, decide_eq_true_eq, List.mem_map] at hany ⊢
        obtain ⟨row, hrow, hdate⟩ := hany
        exact ⟨score, ⟨row, hrow, by simp [hdate]⟩, rfl⟩
      simp only [upsertDailyScore, if_true, hany, hany', List.map_map]
      apply List.map_congr_left
      intro row _
      by_cases hdate : row.date = score.date
      · simp [hdate]
      · simp [hdate]
    · have hall : ∀ row ∈ table, row.date ≠ score.date := by
        intro row hrow hdate
        exact hany (List.any_eq_true.mpr ⟨row, hrow, by simpa using hdate⟩)
      have hany' : ((table ++ [score]).any fun row => decide (row.date = score.date)) = true := by
        simp
      simp only [upsertDailyScore, if_true, hany, hany', Bool.false_eq_true, if_false,
        List.map_append, List.map_cons, List.map_nil]
      congr 1
      rw [List.map_congr_left (g := id)]
      · simp
      · intro row hrow
        simp [hall row hrow]

/-- Claim C1.  Two runs of `recalculateDaily` for the same date on the same occurrences and
goals both return, compute the same calculation and hand the same aggregate, field for
field, to the upsert; and the score tables after the second run are those after the first,
provided the first upsert was accepted or the second was rejected. -/
theorem recalculateDaily_idempotent (w : World) (date : QDate)
    (occurrences : List Occurrence) (goals : List Goal) (exec1 exec2 : Bool) :
    ∃ c w1 w2, calculateFromOccurrences occurrences goals = some c ∧
      recalculateDaily w date occurrences goals exec1 = some w1 ∧
      recalculateDaily w1 date occurrences goals exec2 = some w2 ∧
      w1.calls = w.calls ++ [RepoCall.findByDate date, RepoCall.findByScope "daily",
        RepoCall.upsertDailyScore (dailyScoreOf date c)] ∧
      w2.calls = w1.calls ++ [RepoCall.findByDate date, RepoCall.findByScope "daily",
        RepoCall.upsertDailyScore (dailyScoreOf date c)] ∧
      (exec1 = true ∨ exec2 = false →
        w2.dailyScores = w1.dailyScores ∧ w2.weeklyScores = w1.weeklyScores ∧
        w2.monthlyScores = w1.monthlyScores ∧ w2.yearlyScores = w1.yearlyScores) := by
  have hc := calculateFromOccurrences_eq occurrences goals
  have h1 := recalculateDaily_eq w date occurrences goals exec1 _ hc
  refine ⟨_, _, _, hc, h1, recalculateDaily_eq _ date occurrences goals exec2 _ hc,
    rfl, rfl, ?_⟩
  intro hexec
  refine ⟨?_, rfl, rfl, rfl⟩
  rcases hexec with h | h
  · subst h
    exact upsertDailyScore_idem w.dailyScores _ exec2
  · subst h
    simp [upsertDailyScore]

/-- Witness for claim C1: Scenario A recalculated twice for day 10 on an empty world, both
upserts accepted. -/
theorem recalculateDaily_idempotent_witness :
    ∃ w1 w2, recalculateDaily {} 10 scenarioAOccurrences scenarioAGoals true = some w1 ∧
      recalculateDaily w1 10 scenarioAOccurrences scenarioAGoals true = some w2 ∧
      w2.dailyScores = w1.dailyScores ∧ w1.dailyScores.length = 1 := by
  obtain ⟨c, w1, w2, -, h1, h2, -, -, hsame⟩ :=
    recalculateDaily_idempotent {} 10 scenarioAOccurrences scenarioAGoals true true
  refine ⟨w1, w2, h1, h2, (hsame (Or.inl rfl)).1, ?_⟩
  have h1' := recalculateDaily_eq {} 10 scenarioAOccurrences scenarioAGoals true _
    (calculateFromOccurrences_eq scenarioAOccurrences scenarioAGoals)
  rw [h1] at h1'
  rw [Option.some.inj h1']
  simp [upsertDailyScore]



/-! ## Consistency of the streak counters in every reachable world -/

/-- The transition always returns: its division is guarded. -/
theorem applyDailyScore_total (streak : Streak) (date : QDate) (dailyScore : DailyScore) :
    ∃ result, applyDailyScore streak date dailyScore = some result := by
  by_cases hbreak : dailyScore.completionPercentage < 80 ∨
      dailyScore.hasNegativeOutcome = true
  · exact ⟨_, applyDailyScore_break streak date dailyScore hbreak⟩
  · rw [not_or] at hbreak
    exact ⟨_, applyDailyScore_continue streak date dailyScore (not_lt.mp hbreak.1)
      (by simpa using hbreak.2)⟩

/-- The transition keeps the counters consistent. -/
theorem applyDailyScore_ok (streak updated : Streak) (date : QDate) (dailyScore : DailyScore)
    (emitted : List Event) (hok : streak.Ok)
    (happly : applyDailyScore streak date dailyScore = some (updated, emitted)) :
    updated.Ok := by
  obtain ⟨hcur, hlong, hsucc, hfail, hrate⟩ := hok
  by_cases hbreak : dailyScore.completionPercentage < 80 ∨
      dailyScore.hasNegativeOutcome = true
  · rw [applyDailyScore_break streak date dailyScore hbreak] at happly
    have hupd := (Prod.mk.inj (Option.some.inj happly)).1
    subst hupd
    have hpos : streak.totalSuccesses + (streak.totalFailures + 1) > 0 := by omega
    have hne : streak.totalSuccesses + (streak.totalFailures + 1) ≠ 0 := ne_of_gt hpos
    refine ⟨le_refl 0, le_trans hcur hlong, hsucc, by simp only; omega, ?_⟩
    simp only [hpos, hne, if_true, if_false]
  · rw [not_or] at hbreak
    rw [applyDailyScore_continue streak date dailyScore (not_lt.mp hbreak.1)
      (by simpa using hbreak.2)] at happly
    have hupd := (Prod.mk.inj (Option.some.inj happly)).1
    subst hupd
    have hpos : streak.totalSuccesses + 1 + streak.totalFailures > 0 := by omega
    have hne : streak.totalSuccesses + 1 + streak.totalFailures ≠ 0 := ne_of_gt hpos
    refine ⟨by simp only; omega, le_max_right _ _, by simp only; omega, hfail, ?_⟩
    simp only [hpos, hne, if_true, if_false]


/-- A record read from a consistent row is consistent. -/
theorem mapFromRecord_ok (row : StreakRow) (hok : row.Ok) : (mapFromRecord row).Ok := hok

/-- The record found by `findById` in a consistent table is consistent. -/
theorem findById_ok (table : List StreakRow) (id : String) (exec : Bool) (streak : Streak)
    (hok : ∀ row ∈ table, row.Ok) (hfind : findById table id exec = some streak) :
    streak.Ok := by
  unfold findById at hfind
  cases exec
  · simp at hfind
  · simp only [if_true, Option.map_eq_some'] at hfind
    obtain ⟨row, hrow, hmap⟩ := hfind
    rw [← hmap]
    exact mapFromRecord_ok row (hok row (List.mem_of_find?_eq_some hrow))

/-- The record found by `findOverallByScope` in a consistent table is consistent. -/
theorem findOverallByScope_ok (table : List StreakRow) (scope : String) (exec : Bool)
    (streak : Streak) (hok : ∀ row ∈ table, row.Ok)
    (hfind : findOverallByScope table scope exec = some streak) : streak.Ok := by
  unfold findOverallByScope at hfind
  cases exec
  · simp at hfind
  · simp only [if_true, Option.map_eq_some'] at hfind
    obtain ⟨row, hrow, hmap⟩ := hfind
    rw [← hmap]
    exact mapFromRecord_ok row (hok row (List.mem_of_find?_eq_some hrow))

/-- The record that get-or-create inserts has all counters zero, hence is consistent. -/
theorem newOverallStreak_ok (scope : String) : (newOverallStreak scope).Ok := by
  simp [Streak.Ok, CountersOk, newOverallStreak]

/-- Get-or-create keeps a consistent table consistent and returns a consistent record. -/
theorem getOrCreateOverall_ok (table table' : List StreakRow) (scope uuid : String)
    (findOverallExec insertExec findExec : Bool) (result : Option Streak)
    (hok : ∀ row ∈ table, row.Ok)
    (hget : getOrCreateOverall table scope uuid findOverallExec insertExec findExec =
      (table', result)) :
    (∀ row ∈ table', row.Ok) ∧ ∀ streak, result = some streak → streak.Ok := by
  unfold getOrCreateOverall at hget
  cases hfind : findOverallByScope table scope findOverallExec with
  | some existing =>
    simp only [hfind, Prod.mk.injEq] at hget
    obtain ⟨rfl, rfl⟩ := hget
    refine ⟨hok, ?_⟩
    intro streak hstreak
    rw [← Option.some.inj hstreak]
    exact findOverallByScope_ok table scope findOverallExec existing hok hfind
  | none =>
    simp only [hfind] at hget
    unfold create at hget
    cases insertExec
    · simp only [Bool.false_eq_true, if_false, Prod.mk.injEq] at hget
      obtain ⟨rfl, rfl⟩ := hget
      exact ⟨hok, by intro streak h; cases h⟩
    · simp only [if_true, Prod.mk.injEq] at hget
      obtain ⟨rfl, rfl⟩ := hget
      have hok' : ∀ row ∈ table ++ [({
          id := if (newOverallStreak scope).id.isEmpty then uuid else (newOverallStreak scope).id
          goalId := if (newOverallStreak scope).goalId.isEmpty then none
            else some (newOverallStreak scope).goalId
          scope := (newOverallStreak scope).scope
          currentStreak := (newOverallStreak scope).currentStreak
          longestStreak := (newOverallStreak scope).longestStreak
          lastSuccessDate := (newOverallStreak scope).lastSuccessDate
          lastBreakDate := (newOverallStreak scope).lastBreakDate
          totalSuccesses := (newOverallStreak scope).totalSuccesses
          totalFailures := (newOverallStreak scope).totalFailures
          successRate := (newOverallStreak scope).successRate } : StreakRow)], row.Ok := by
        intro row hrow
        rw [List.mem_append, List.mem_singleton] at hrow
        rcases hrow with h | h
        · exact hok row h
        · rw [h]
          exact newOverallStreak_ok scope
      refine ⟨hok', ?_⟩
      intro streak hstreak
      exact findById_ok _ _ findExec streak hok' hstreak

/-- Writing a consistent record keeps a consistent table consistent. -/
theorem update_ok (table : List StreakRow) (streak : Streak) (exec : Bool)
    (hok : ∀ row ∈ table, row.Ok) (hstreak : streak.Ok) :
    ∀ row ∈ (update table streak exec).1, row.Ok := by
  unfold update
  cases exec
  · simpa using hok
  · simp only [if_true, List.mem_map]
    rintro row ⟨old, hold, rfl⟩
    by_cases hid : old.id = streak.id
    · simp only [hid, if_true]
      exact hstreak
    · simp only [hid, if_false]
      exact hok old hold

/-- The streak update always returns and keeps the streak table consistent. -/
theorem updateStreaksForDate_ok (w : World) (date : QDate) (db : DbOutcome)
    (hok : ∀ row ∈ w.streaks, row.Ok) :
    ∃ w', updateStreaksForDate w date db = some w' ∧ ∀ row ∈ w'.streaks, row.Ok := by
  cases hscore : getDailyScore w.dailyScores date db.getDailyScoreExec with
  | none =>
    exact ⟨_, updateStreaksForDate_eq_of_noScore w date db hscore, hok⟩
  | some dailyScore =>
    cases hget : getOrCreateOverall w.streaks "daily" db.uuid db.findOverallExec
        db.insertExec db.findByIdExec with
    | mk table result =>
      obtain ⟨htable, hresult⟩ := getOrCreateOverall_ok w.streaks table "daily" db.uuid
        db.findOverallExec db.insertExec db.findByIdExec result hok hget
      cases result with
      | none =>
        exact ⟨_, updateStreaksForDate_eq_of_noStreak w date db dailyScore table hscore hget,
          htable⟩
      | some streak =>
        obtain ⟨⟨updated, emitted⟩, happly⟩ := applyDailyScore_total streak date dailyScore
        refine ⟨_, updateStreaksForDate_eq w date db dailyScore table streak updated emitted
          hscore hget happly, ?_⟩
        exact update_ok table updated db.updateExec htable
          (applyDailyScore_ok streak updated date dailyScore emitted (hresult streak rfl)
            happly)

/-- Every sequence of engine calls returns and keeps the streak table consistent. -/
theorem runCalls_ok (calls : List EngineCall) (w : World)
    (hok : ∀ row ∈ w.streaks, row.Ok) :
    ∃ w', runCalls w calls = some w' ∧ ∀ row ∈ w'.streaks, row.Ok := by
  induction calls generalizing w with
  | nil => exact ⟨w, rfl, hok⟩
  | cons call rest ih =>
    have hstep : ∃ w1, call.run w = some w1 ∧ ∀ row ∈ w1.streaks, row.Ok := by
      cases call with
      | recalculateDaily date occurrences goals upsertExec =>
        exact ⟨_, recalculateDaily_eq w date occurrences goals upsertExec _
          (calculateFromOccurrences_eq occurrences goals), hok⟩
      | updateStreaksForDate date db => exact updateStreaksForDate_ok w date db hok
    obtain ⟨w1, hrun, hok1⟩ := hstep
    obtain ⟨w', hrest, hok'⟩ := ih w1 hok1
    exact ⟨w', by simp [runCalls, hrun, hrest], hok'⟩


/-- On a table with no overall row for the scope and no row carrying the fresh UUID,
get-or-create appends one row with all counters zero and returns it. -/
theorem getOrCreateOverall_fresh (table : List StreakRow) (scope uuid : String)
    (findOverallExec : Bool)
    (hnone : ∀ row ∈ table, ¬(row.goalId = none ∧ row.scope = scope))
    (hfresh : ∀ row ∈ table, row.id ≠ uuid) :
    ∃ row, getOrCreateOverall table scope uuid findOverallExec true true =
        (table ++ [row], some (mapFromRecord row)) ∧
      row.id = uuid ∧ row.goalId = none ∧ row.scope = scope ∧
      row.currentStreak = 0 ∧ row.longestStreak = 0 ∧
      row.totalSuccesses = 0 ∧ row.totalFailures = 0 ∧ row.successRate = 0 := by
  have hfind : findOverallByScope table scope findOverallExec = none := by
    unfold findOverallByScope
    cases findOverallExec
    · simp
    · simp only [if_true, Option.map_eq_none', List.find?_eq_none]
      intro row hrow
      simpa using hnone row hrow
  have hfindOld : table.find? (fun row => decide (row.id = uuid)) = none := by
    rw [List.find?_eq_none]
    intro row hrow
    simpa using hfresh row hrow
  refine ⟨StreakRow.mk uuid none scope 0 0 none none 0 0 0, ?_,
    rfl, rfl, rfl, rfl, rfl, rfl, rfl, rfl⟩
  unfold getOrCreateOverall
  simp only [hfind]
  have hempty : ("" : String).isEmpty = true := by decide
  simp [create, newOverallStreak, findById, List.find?_append, hfindOld, hempty]

/-- Claim C5.  `longestStreak ≥ currentStreak` is an invariant of the streak state.  The
record produced by get-or-create has all counters zero; one transition of
`updateStreaksForDate` turns a record with `0 ≤ longestStreak` and
`currentStreak ≤ longestStreak` into a record with the same two properties; and in the world
reached from an empty streak table by any sequence of daily recalculations and streak
updates, whatever the database answers, every stored streak has
`currentStreak ≤ longestStreak`. -/
theorem longestStreak_ge_currentStreak :
    (∀ (table : List StreakRow) (scope uuid : String) (findOverallExec : Bool),
      (∀ row ∈ table, ¬(row.goalId = none ∧ row.scope = scope)) →
      (∀ row ∈ table, row.id ≠ uuid) →
      ∃ row, getOrCreateOverall table scope uuid findOverallExec true true =
          (table ++ [row], some (mapFromRecord row)) ∧
        row.currentStreak = 0 ∧ row.longestStreak = 0 ∧
        row.totalSuccesses = 0 ∧ row.totalFailures = 0) ∧
    (∀ (streak : Streak) (date : QDate) (dailyScore : DailyScore),
      0 ≤ streak.longestStreak → streak.currentStreak ≤ streak.longestStreak →
      ∃ updated emitted, applyDailyScore streak date dailyScore = some (updated, emitted) ∧
        0 ≤ updated.longestStreak ∧ updated.currentStreak ≤ updated.longestStreak) ∧
    (∀ (w : World) (calls : List EngineCall), w.streaks = [] →
      ∃ w', runCalls w calls = some w' ∧
        ∀ row ∈ w'.streaks, row.currentStreak ≤ row.longestStreak) := by
  refine ⟨?_, ?_, ?_⟩
  · intro table scope uuid findOverallExec hnone hfresh
    obtain ⟨row, hget, -, -, -, h1, h2, h3, h4, -⟩ :=
      getOrCreateOverall_fresh table scope uuid findOverallExec hnone hfresh
    exact ⟨row, hget, h1, h2, h3, h4⟩
  · intro streak date dailyScore hlong hle
    by_cases hbreak : dailyScore.completionPercentage < 80 ∨
        dailyScore.hasNegativeOutcome = true
    · exact ⟨_, _, applyDailyScore_break streak date dailyScore hbreak, hlong, hlong⟩
    · rw [not_or] at hbreak
      exact ⟨_, _, applyDailyScore_continue streak date dailyScore (not_lt.mp hbreak.1)
        (by simpa using hbreak.2), le_trans hlong (le_max_left _ _), le_max_right _ _⟩
  · intro w calls hempty
    obtain ⟨w', hrun, hok⟩ := runCalls_ok calls w (by simp [hempty])
    exact ⟨w', hrun, fun row hrow => (hok row hrow).2.1⟩

/-- Witness for claim C5: get-or-create on an empty table, one break on the sample streak,
and a run of a recalculation followed by two streak updates on an empty world. -/
theorem longestStreak_ge_currentStreak_witness :
    (∃ row, getOrCreateOverall [] "daily" "u1" true true true =
          ([] ++ [row], some (mapFromRecord row)) ∧
        row.currentStreak = 0 ∧ row.longestStreak = 0 ∧
        row.totalSuccesses = 0 ∧ row.totalFailures = 0) ∧
    (∃ updated emitted,
        applyDailyScore (mapFromRecord sampleStreakRow) 10 (sampleDailyScore 10 60 false) =
          some (updated, emitted) ∧
        0 ≤ updated.longestStreak ∧ updated.currentStreak ≤ updated.longestStreak) ∧
    (∃ w', runCalls {} sampleCalls = some w' ∧
        ∀ row ∈ w'.streaks, row.currentStreak ≤ row.longestStreak) :=
  ⟨longestStreak_ge_currentStreak.1 [] "daily" "u1" true (by simp) (by simp),
    longestStreak_ge_currentStreak.2.1 (mapFromRecord sampleStreakRow) 10
      (sampleDailyScore 10 60 false) (by decide) (by decide),
    longestStreak_ge_currentStreak.2.2 {} sampleCalls rfl⟩

/-- The success rate written by `updateStreaksForDate`, for every record it may obtain: the
double `(totalSuccesses / total) * 100.0` on the updated totals when they sum to more than 0,
and the rate the record had otherwise. -/
theorem updateStreaksForDate_successRate (w : World) (date : QDate) (db : DbOutcome)
    (dailyScore : DailyScore) (table : List StreakRow) (streak : Streak)
    (hscore : getDailyScore w.dailyScores date db.getDailyScoreExec = some dailyScore)
    (hstreak : getOrCreateOverall w.streaks "daily" db.uuid db.findOverallExec db.insertExec
      db.findByIdExec = (table, some streak)) :
    ∃ w' updated, updateStreaksForDate w date db = some w' ∧
      w'.calls = w.calls ++ [RepoCall.getDailyScore date,
        RepoCall.getOrCreateOverall "daily", RepoCall.update updated] ∧
      w'.streaks = (update table updated db.updateExec).1 ∧
      updated.totalSuccesses + updated.totalFailures =
        streak.totalSuccesses + streak.totalFailures + 1 ∧
      updated.successRate =
        if updated.totalSuccesses + updated.totalFailures > 0 then
          percentDouble updated.totalSuccesses
            (updated.totalSuccesses + updated.totalFailures)
        else streak.successRate := by
  by_cases hbreak : dailyScore.completionPercentage < 80 ∨
      dailyScore.hasNegativeOutcome = true
  · have happly := applyDailyScore_break streak date dailyScore hbreak
    have h := updateStreaksForDate_eq w date db dailyScore table streak _ _ hscore hstreak
      happly
    exact ⟨_, _, h, rfl, rfl, by simp only; omega, rfl⟩
  · rw [not_or] at hbreak
    have happly := applyDailyScore_continue streak date dailyScore (not_lt.mp hbreak.1)
      (by simpa using hbreak.2)
    have h := updateStreaksForDate_eq w date db dailyScore table streak _ _ hscore hstreak
      happly
    exact ⟨_, _, h, rfl, rfl, by simp only; omega, rfl⟩

/-- Counterexample to claim C6 as stated.  On a record with 8 successes and 2 failures a
continuing update stores `(9.0 / 11) * 100.0`, a double (printed as 81.81818181818183) and
not the rational `900 / 11`.  On a record whose totals are -1 and 0, with rate 50, the
updated totals sum to 0 and the rate is left at 50, not set to 0. -/
theorem successRate_counterexample :
    (∃ w' updated,
      updateStreaksForDate (sampleRateWorld 8 2 0) 10 sampleDb = some w' ∧
      w'.calls = [RepoCall.getDailyScore 10, RepoCall.getOrCreateOverall "daily",
        RepoCall.update updated] ∧
      updated.totalSuccesses = 9 ∧ updated.totalFailures = 2 ∧
      updated.successRate = 5757442705445237 / 70368744177664 ∧
      updated.successRate ≠ 100 * (updated.totalSuccesses : ℚ) /
        ((updated.totalSuccesses : ℚ) + (updated.totalFailures : ℚ))) ∧
    (∃ w' updated,
      updateStreaksForDate (sampleRateWorld (-1) 0 50) 10 sampleDb = some w' ∧
      w'.calls = [RepoCall.getDailyScore 10, RepoCall.getOrCreateOverall "daily",
        RepoCall.update updated] ∧
      updated.totalSuccesses + updated.totalFailures = 0 ∧
      updated.successRate = 50) := by
  have hscore : ∀ s f r, getDailyScore (sampleRateWorld s f r).dailyScores 10
      sampleDb.getDailyScoreExec = some (sampleDailyScore 10 90 false) := by
    intro s f r
    simp [getDailyScore, sampleRateWorld, sampleDb, sampleDailyScore]
  have hstreak : ∀ s f r, getOrCreateOverall (sampleRateWorld s f r).streaks "daily"
      sampleDb.uuid sampleDb.findOverallExec sampleDb.insertExec sampleDb.findByIdExec =
      ([sampleRateRow s f r], some (mapFromRecord (sampleRateRow s f r))) := by
    intro s f r
    simp [getOrCreateOverall, findOverallByScope, sampleRateWorld, sampleDb, sampleRateRow]
  have hpct : (80 : ℚ) ≤ (sampleDailyScore 10 90 false).completionPercentage := by
    simp only [sampleDailyScore]
    norm_num
  constructor
  · have happly := applyDailyScore_continue (mapFromRecord (sampleRateRow 8 2 0)) 10
      (sampleDailyScore 10 90 false) hpct rfl
    have h := updateStreaksForDate_eq (sampleRateWorld 8 2 0) 10 sampleDb _ _ _ _ _
      (hscore 8 2 0) (hstreak 8 2 0) happly
    refine ⟨_, _, h, rfl, rfl, rfl, ?_, ?_⟩
    · simp only [mapFromRecord, sampleRateRow]
      norm_num [percentDouble_9_11]
    · simp only [mapFromRecord, sampleRateRow]
      norm_num [percentDouble_9_11]
  · have happly := applyDailyScore_continue (mapFromRecord (sampleRateRow (-1) 0 50)) 10
      (sampleDailyScore 10 90 false) hpct rfl
    have h := updateStreaksForDate_eq (sampleRateWorld (-1) 0 50) 10 sampleDb _ _ _ _ _
      (hscore (-1) 0 50) (hstreak (-1) 0 50) happly
    refine ⟨_, _, h, rfl, ?_, ?_⟩
    · simp [mapFromRecord, sampleRateRow]
    · simp [mapFromRecord, sampleRateRow]

/-- Claim C6, amended.  The record produced by get-or-create has both totals zero and
`successRate = 0`.  For every existing streak record whose counters stay within `int` when
one is added, and every daily aggregate: when `updateStreaksForDate` reaches the transition,
the record it hands to `StreakRepository::update` has totals summing to one more than
before; if that sum is positive its `successRate` is the double
`(totalSuccesses / (totalSuccesses + totalFailures)) * 100.0` on the updated totals, which
differs from the rational `100 * totalSuccesses / (totalSuccesses + totalFailures)` by at
most `2 ^ (-51)` of its size; if the sum is not positive the rate is left as it was.  In
every world reached from an empty streak table by daily recalculations and streak updates,
whatever the database answers, every stored streak has non-negative totals and a rate that
is this double, or `0` when its totals sum to zero. -/
theorem successRate_law :
    (∀ (table : List StreakRow) (scope uuid : String) (findOverallExec : Bool),
      (∀ row ∈ table, ¬(row.goalId = none ∧ row.scope = scope)) →
      (∀ row ∈ table, row.id ≠ uuid) →
      ∃ row, getOrCreateOverall table scope uuid findOverallExec true true =
          (table ++ [row], some (mapFromRecord row)) ∧
        row.totalSuccesses = 0 ∧ row.totalFailures = 0 ∧ row.successRate = 0) ∧
    (∀ (w : World) (date : QDate) (db : DbOutcome) (dailyScore : DailyScore)
      (table : List StreakRow) (streak : Streak),
      getDailyScore w.dailyScores date db.getDailyScoreExec = some dailyScore →
      getOrCreateOverall w.streaks "daily" db.uuid db.findOverallExec db.insertExec
        db.findByIdExec = (table, some streak) →
      IsInt32 (streak.totalSuccesses + 1) → IsInt32 (streak.totalFailures + 1) →
      IsInt32 (streak.totalSuccesses + streak.totalFailures + 1) →
      ∃ w' updated, updateStreaksForDate w date db = some w' ∧
        w'.calls = w.calls ++ [RepoCall.getDailyScore date,
          RepoCall.getOrCreateOverall "daily", RepoCall.update updated] ∧
        w'.streaks = (update table updated db.updateExec).1 ∧
        updated.totalSuccesses + updated.totalFailures =
          streak.totalSuccesses + streak.totalFailures + 1 ∧
        (0 < updated.totalSuccesses + updated.totalFailures →
          updated.successRate =
            roundDouble (roundDouble ((updated.totalSuccesses : ℚ) /
              ((updated.totalSuccesses + updated.totalFailures : Int) : ℚ)) * 100) ∧
          |updated.successRate - 100 * (updated.totalSuccesses : ℚ) /
              ((updated.totalSuccesses + updated.totalFailures : Int) : ℚ)| ≤
            |100 * (updated.totalSuccesses : ℚ) /
              ((updated.totalSuccesses + updated.totalFailures : Int) : ℚ)| *
              2 ^ (-51 : Int)) ∧
        (updated.totalSuccesses + updated.totalFailures ≤ 0 →
          updated.successRate = streak.successRate)) ∧
    (∀ (w : World) (calls : List EngineCall), w.streaks = [] →
      ∃ w', runCalls w calls = some w' ∧
        ∀ row ∈ w'.streaks, 0 ≤ row.totalSuccesses ∧ 0 ≤ row.totalFailures ∧
          row.successRate =
            if row.totalSuccesses + row.totalFailures = 0 then 0
            else roundDouble (roundDouble ((row.totalSuccesses : ℚ) /
              ((row.totalSuccesses + row.totalFailures : Int) : ℚ)) * 100)) := by
  refine ⟨?_, ?_, ?_⟩
  · intro table scope uuid findOverallExec hnone hfresh
    obtain ⟨row, hget, -, -, -, -, -, h3, h4, h5⟩ :=
      getOrCreateOverall_fresh table scope uuid findOverallExec hnone hfresh
    exact ⟨row, hget, h3, h4, h5⟩
  · intro w date db dailyScore table streak hscore hstreak _ _ htotal
    obtain ⟨w', updated, hupd, hcalls, hstreaks, hsum, hrate⟩ :=
      updateStreaksForDate_successRate w date db dailyScore table streak hscore hstreak
    refine ⟨w', updated, hupd, hcalls, hstreaks, hsum, ?_, ?_⟩
    · intro hpos
      rw [if_pos hpos] at hrate
      rw [hrate]
      exact ⟨rfl, percentDouble_sub_le _ _ hpos (by rw [hsum]; exact htotal.2)⟩
    · intro hle
      rw [if_neg (not_lt.mpr hle)] at hrate
      exact hrate
  · intro w calls hempty
    obtain ⟨w', hrun, hok⟩ := runCalls_ok calls w (by simp [hempty])
    refine ⟨w', hrun, fun row hrow => ?_⟩
    obtain ⟨-, -, hs, hf, hrate⟩ := hok row hrow
    exact ⟨hs, hf, hrate⟩

/-- Witness for claim C6, amended: get-or-create on an empty table; a continuing update on
the record with 8 successes and 2 failures, which stores `(9.0 / 11) * 100.0`; and a run on
the empty world. -/
theorem successRate_law_witness :
    (∃ row, getOrCreateOverall [] "daily" "u1" true true true =
          ([] ++ [row], some (mapFromRecord row)) ∧
        row.totalSuccesses = 0 ∧ row.totalFailures = 0 ∧ row.successRate = 0) ∧
    (∃ w' updated, updateStreaksForDate (sampleRateWorld 8 2 0) 10 sampleDb = some w' ∧
        w'.calls = (sampleRateWorld 8 2 0).calls ++ [RepoCall.getDailyScore 10,
          RepoCall.getOrCreateOverall "daily", RepoCall.update updated] ∧
        updated.totalSuccesses + updated.totalFailures = 11 ∧
        |updated.successRate - 100 * (updated.totalSuccesses : ℚ) /
            ((updated.totalSuccesses + updated.totalFailures : Int) : ℚ)| ≤
          |100 * (updated.totalSuccesses : ℚ) /
            ((updated.totalSuccesses + updated.totalFailures : Int) : ℚ)| *
            2 ^ (-51 : Int)) ∧
    (∃ w', runCalls {} sampleCalls = some w' ∧
        ∀ row ∈ w'.streaks, 0 ≤ row.totalSuccesses ∧ 0 ≤ row.totalFailures ∧
          row.successRate =
            if row.totalSuccesses + row.totalFailures = 0 then 0
            else roundDouble (roundDouble ((row.totalSuccesses : ℚ) /
              ((row.totalSuccesses + row.totalFailures : Int) : ℚ)) * 100)) := by
  have h1 : getDailyScore (sampleRateWorld 8 2 0).dailyScores 10 sampleDb.getDailyScoreExec =
      some (sampleDailyScore 10 90 false) := by
    simp [getDailyScore, sampleRateWorld, sampleDb, sampleDailyScore]
  have h2 : getOrCreateOverall (sampleRateWorld 8 2 0).streaks "daily" sampleDb.uuid
      sampleDb.findOverallExec sampleDb.insertExec sampleDb.findByIdExec =
      ([sampleRateRow 8 2 0], some (mapFromRecord (sampleRateRow 8 2 0))) := by
    simp [getOrCreateOverall, findOverallByScope, sampleRateWorld, sampleDb, sampleRateRow]
  obtain ⟨w', updated, hupd, hcalls, -, hsum, hpos, -⟩ :=
    successRate_law.2.1 (sampleRateWorld 8 2 0) 10 sampleDb _ _ _ h1 h2
      (by decide) (by decide) (by decide)
  have hsum' : updated.totalSuccesses + updated.totalFailures = 11 := by
    rw [hsum]
    rfl
  exact ⟨successRate_law.1 [] "daily" "u1" true (by simp) (by simp),
    ⟨w', updated, hupd, hcalls, hsum', (hpos (by rw [hsum']; decide)).2⟩,
    successRate_law.2.2 {} sampleCalls rfl⟩


/-! ## Perfect day, status counters and score events -/

/-- Claim C11.  `recalculateDaily` always returns, and the daily aggregate it builds and
hands to the upsert has `perfectDay = true` if and only if `completedCount = totalCount`
and `totalCount > 0`; that is, if and only if the occurrence list is not empty and every
occurrence in it has status `completed`.  For an empty occurrence list `perfectDay` is
false. -/
theorem recalculateDaily_perfectDay (w : World) (date : QDate)
    (occurrences : List Occurrence) (goals : List Goal) (exec : Bool) :
    ∃ w' score, recalculateDaily w date occurrences goals exec = some w' ∧
      w'.calls = w.calls ++ [RepoCall.findByDate date, RepoCall.findByScope "daily",
        RepoCall.upsertDailyScore score] ∧
      (score.perfectDay = true ↔
        score.completedCount = score.totalCount ∧ score.totalCount > 0) ∧
      (score.perfectDay = true ↔
        occurrences ≠ [] ∧ ∀ occurrence ∈ occurrences, occurrence.status = "completed") ∧
      (occurrences = [] → score.perfectDay = false) := by
  have hc := calculateFromOccurrences_eq occurrences goals
  have h := recalculateDaily_eq w date occurrences goals exec _ hc
  have hiff : (countStatus "completed" occurrences : Int) = (occurrences.length : Int) ∧
      (occurrences.length : Int) > 0 ↔
      occurrences ≠ [] ∧ ∀ occurrence ∈ occurrences, occurrence.status = "completed" := by
    constructor
    · rintro ⟨hcount, hlen⟩
      have hcount' : countStatus "completed" occurrences = occurrences.length := by
        exact_mod_cast hcount
      refine ⟨?_, ?_⟩
      · intro hnil
        rw [hnil] at hlen
        simp at hlen
      · intro occurrence hmem
        have hall := List.countP_eq_length.mp hcount'
        simpa using hall occurrence hmem
    · rintro ⟨hne, hall⟩
      refine ⟨?_, ?_⟩
      · have : countStatus "completed" occurrences = occurrences.length := by
          unfold countStatus
          rw [List.countP_eq_length]
          intro occurrence hmem
          simpa using hall occurrence hmem
        exact_mod_cast this
      · have : 0 < occurrences.length := List.length_pos.mpr hne
        exact_mod_cast this
  have hperfect : (dailyScoreOf date
      { earnedScore := wrapInt32 (sumScoreImpact occurrences)
        targetScore := wrapInt32 (sumPositivePoints goals)
        completionPercentage :=
          if wrapInt32 (sumPositivePoints goals) > 0 then
            percentDouble (wrapInt32 (sumScoreImpact occurrences))
              (wrapInt32 (sumPositivePoints goals))
          else 0
        completedCount := countStatus "completed" occurrences
        skippedCount := countStatus "skipped" occurrences
        notCompletedCount := countStatus "not_completed" occurrences
        pendingCount := countStatus "pending" occurrences
        totalCount := occurrences.length
        hasNegativeOutcome := anyNegativeOutcome occurrences }).perfectDay = true ↔
      (countStatus "completed" occurrences : Int) = (occurrences.length : Int) ∧
        (occurrences.length : Int) > 0 := by
    simp [dailyScoreOf]
  refine ⟨_, _, h, rfl, hperfect, hperfect.trans hiff, ?_⟩
  intro hnil
  rw [← Bool.not_eq_true]
  intro htrue
  exact ((hperfect.trans hiff).mp htrue).1 hnil

/-- Witness for claim C11: a day without occurrences is not a perfect day. -/
theorem recalculateDaily_perfectDay_witness :
    ∃ w' score, recalculateDaily {} 10 [] scenarioAGoals true = some w' ∧
      w'.calls = [RepoCall.findByDate 10, RepoCall.findByScope "daily",
        RepoCall.upsertDailyScore score] ∧
      score.perfectDay = false := by
  obtain ⟨w', score, hrun, hcalls, -, -, hempty⟩ :=
    recalculateDaily_perfectDay {} 10 [] scenarioAGoals true
  exact ⟨w', score, hrun, by simpa using hcalls, hempty rfl⟩

/-- Claim C12.  `calculateFromOccurrences` yields `totalCount` equal to the number of
occurrences, and `completedCount`, `skippedCount`, `notCompletedCount` and `pendingCount`
equal to the number of occurrences whose status is exactly `completed`, `skipped`,
`not_completed` and `pending`. -/
theorem calculateFromOccurrences_counts (occurrences : List Occurrence) (goals : List Goal) :
    ∃ c, calculateFromOccurrences occurrences goals = some c ∧
      c.totalCount = occurrences.length ∧
      c.completedCount =
        occurrences.countP (fun occurrence => occurrence.status = "completed") ∧
      c.skippedCount =
        occurrences.countP (fun occurrence => occurrence.status = "skipped") ∧
      c.notCompletedCount =
        occurrences.countP (fun occurrence => occurrence.status = "not_completed") ∧
      c.pendingCount =
        occurrences.countP (fun occurrence => occurrence.status = "pending") :=
  ⟨_, calculateFromOccurrences_eq occurrences goals, rfl, rfl, rfl, rfl, rfl⟩

/-- The flag returned by `upsertDailyScore` is the outcome of its query. -/
theorem upsertDailyScore_snd (table : List DailyScore) (score : DailyScore) (exec : Bool) :
    (upsertDailyScore table score exec).2 = exec := by
  unfold upsertDailyScore
  split_ifs <;> simp_all

/-- The flag returned by `upsertWeeklyScore` is the outcome of its query. -/
theorem upsertWeeklyScore_snd (table : List WeeklyScore) (score : WeeklyScore) (exec : Bool) :
    (upsertWeeklyScore table score exec).2 = exec := by
  unfold upsertWeeklyScore
  split_ifs <;> simp_all

/-- The flag returned by `upsertMonthlyScore` is the outcome of its query. -/
theorem upsertMonthlyScore_snd (table : List MonthlyScore) (score : MonthlyScore)
    (exec : Bool) : (upsertMonthlyScore table score exec).2 = exec := by
  unfold upsertMonthlyScore
  split_ifs <;> simp_all

/-- The flag returned by `upsertYearlyScore` is the outcome of its query. -/
theorem upsertYearlyScore_snd (table : List YearlyScore) (score : YearlyScore) (exec : Bool) :
    (upsertYearlyScore table score exec).2 = exec := by
  unfold upsertYearlyScore
  split_ifs <;> simp_all

/-- Claim C15.  Each of the four recalculations returns, and the events it has emitted when
it returns are the previous ones followed by its own `score updated` event, carrying the
window key, when the upsert succeeded, and the previous ones alone when the upsert
failed. -/
theorem recalculate_event_iff_upsert (cal : Calendar) (w : World) (date : QDate) (year : Int)
    (occurrences : List Occurrence) (goals : List Goal) (exec : Bool) :
    (∃ w' score, recalculateDaily w date occurrences goals exec = some w' ∧
      (upsertDailyScore w.dailyScores score exec).2 = exec ∧
      w'.calls = w.calls ++ [RepoCall.findByDate date, RepoCall.findByScope "daily",
        RepoCall.upsertDailyScore score] ∧
      w'.events = w.events ++ if exec then [Event.dailyScoreUpdated date] else []) ∧
    (∃ w' score, recalculateWeekly cal w date occurrences goals exec = some w' ∧
      (upsertWeeklyScore w.weeklyScores score exec).2 = exec ∧
      w'.calls = w.calls ++ [RepoCall.findByWeek (cal.calculateWeekStart date),
        RepoCall.findByScope "weekly", RepoCall.upsertWeeklyScore score] ∧
      w'.events = w.events ++
        if exec then [Event.weeklyScoreUpdated (cal.calculateWeekStart date)] else []) ∧
    (∃ w' score, recalculateMonthly cal w date occurrences goals exec = some w' ∧
      (upsertMonthlyScore w.monthlyScores score exec).2 = exec ∧
      w'.calls = w.calls ++ [RepoCall.findByMonth (cal.calculateMonthStart date),
        RepoCall.findByScope "monthly", RepoCall.upsertMonthlyScore score] ∧
      w'.events = w.events ++
        if exec then [Event.monthlyScoreUpdated (cal.calculateMonthStart date)] else []) ∧
    (∃ w' score, recalculateYearly cal w year occurrences goals exec = some w' ∧
      (upsertYearlyScore w.yearlyScores score exec).2 = exec ∧
      w'.calls = w.calls ++ [RepoCall.findByYear year, RepoCall.findByScope "yearly",
        RepoCall.upsertYearlyScore score] ∧
      w'.events = w.events ++ if exec then [Event.yearlyScoreUpdated year] else []) := by
  have hc := calculateFromOccurrences_eq occurrences goals
  have hd := recalculateDaily_eq w date occurrences goals exec _ hc
  have hw := recalculateWeekly_eq cal w date occurrences goals exec _ hc
  have hm := recalculateMonthly_eq cal w date occurrences goals exec _ hc
  have hy := recalculateYearly_eq cal w year occurrences goals exec _ hc
  refine ⟨⟨_, _, hd, upsertDailyScore_snd _ _ _, rfl, ?_⟩,
    ⟨_, _, hw, upsertWeeklyScore_snd _ _ _, rfl, ?_⟩,
    ⟨_, _, hm, upsertMonthlyScore_snd _ _ _, rfl, ?_⟩,
    ⟨_, _, hy, upsertYearlyScore_snd _ _ _, rfl, ?_⟩⟩ <;>
  cases exec <;> simp



/-! ## The stored daily row after a successful upsert -/

/-- After an accepted upsert every row carrying the date of the score is the score. -/
theorem upsertDailyScore_row (table : List DailyScore) (score : DailyScore) :
    ∀ row ∈ (upsertDailyScore table score true).1, row.date = score.date → row = score := by
  intro row hrow hdate
  unfold upsertDailyScore at hrow
  by_cases hany : (table.any fun row => decide (row.date = score.date)) = true
  · simp only [if_true, hany, List.mem_map] at hrow
    obtain ⟨old, -, hold⟩ := hrow
    by_cases hd : old.date = score.date
    · simp only [hd, if_true] at hold
      exact hold.symm
    · simp only [hd, if_false] at hold
      rw [← hold] at hdate
      exact absurd hdate hd
  · simp only [if_true, hany, Bool.false_eq_true, if_false, List.mem_append,
      List.mem_singleton] at hrow
    rcases hrow with hold | hnew
    · exact absurd (List.any_eq_true.mpr ⟨row, hold, by simpa using hdate⟩) hany
    · exact hnew

/-- After an accepted upsert the row read back for the date of the score is the score. -/
theorem getDailyScore_upsertDailyScore (table : List DailyScore) (score : DailyScore) :
    getDailyScore (upsertDailyScore table score true).1 score.date true = some score := by
  have hmem : ∃ row ∈ (upsertDailyScore table score true).1, row.date = score.date := by
    unfold upsertDailyScore
    by_cases hany : (table.any fun row => decide (row.date = score.date)) = true
    · simp only [if_true, hany]
      obtain ⟨old, hold, hdate⟩ := List.any_eq_true.mp hany
      refine ⟨score, List.mem_map.mpr ⟨old, hold, ?_⟩, rfl⟩
      simp only [decide_eq_true_eq] at hdate
      simp [hdate]
    · simp only [if_true, hany, Bool.false_eq_true, if_false]
      exact ⟨score, by simp, rfl⟩
  unfold getDailyScore
  simp only [if_true]
  cases hfind : (upsertDailyScore table score true).1.find?
      (fun row => decide (row.date = score.date)) with
  | none =>
    obtain ⟨row, hrow, hdate⟩ := hmem
    have := List.find?_eq_none.mp hfind row hrow
    simp [hdate] at this
  | some found =>
    have hfound := List.mem_of_find?_eq_some hfind
    have hdate : found.date = score.date := by
      simpa using List.find?_some hfind
    rw [upsertDailyScore_row table score found hfound hdate]

/-- An upsert leaves the rows of every other date as they were, in the same order. -/
theorem upsertDailyScore_other (table : List DailyScore) (score : DailyScore) (exec : Bool)
    (other : QDate) (hother : other ≠ score.date) :
    (upsertDailyScore table score exec).1.filter (fun row => row.date = other) =
      table.filter (fun row => row.date = other) := by
  have h1 : ¬ score.date = other := fun h => hother h.symm
  have hmap : ∀ rows : List DailyScore,
      List.filter (fun row => decide (row.date = other))
        (List.map (fun row => if row.date = score.date then score else row) rows) =
      List.filter (fun row => decide (row.date = other)) rows := by
    intro rows
    induction rows with
    | nil => rfl
    | cons head rest ih =>
      by_cases hd : head.date = score.date
      · have h2 : ¬ head.date = other := by rw [hd]; exact h1
        simp only [List.map_cons, hd, if_true, List.filter_cons, h1, h2, decide_False,
          Bool.false_eq_true, if_false]
        exact ih
      · simp only [List.map_cons, hd, if_false, List.filter_cons]
        rw [ih]
  unfold upsertDailyScore
  cases exec
  · simp
  · by_cases hany : (table.any fun row => decide (row.date = score.date)) = true
    · simp only [if_true, hany]
      exact hmap table
    · simp [hany, List.filter_append, List.filter_cons, h1]



/-- Claim C13.  After a `recalculateDaily` whose upsert succeeded, whatever the daily table
held before: a row is stored for the date, every row stored for the date is exactly the
freshly computed aggregate, `getDailyScore` returns that aggregate, and for every other
date the stored rows and the answer of `getDailyScore` are what they were. -/
theorem recalculateDaily_overwrites (w : World) (date : QDate)
    (occurrences : List Occurrence) (goals : List Goal) :
    ∃ c w', calculateFromOccurrences occurrences goals = some c ∧
      recalculateDaily w date occurrences goals true = some w' ∧
      (∃ row ∈ w'.dailyScores, row.date = date) ∧
      (∀ row ∈ w'.dailyScores, row.date = date → row = dailyScoreOf date c) ∧
      getDailyScore w'.dailyScores date true = some (dailyScoreOf date c) ∧
      (∀ other, other ≠ date →
        w'.dailyScores.filter (fun row => row.date = other) =
          w.dailyScores.filter (fun row => row.date = other) ∧
        getDailyScore w'.dailyScores other true = getDailyScore w.dailyScores other true) := by
  obtain ⟨c, hc⟩ : ∃ c, calculateFromOccurrences occurrences goals = some c :=
    ⟨_, calculateFromOccurrences_eq occurrences goals⟩
  have h := recalculateDaily_eq w date occurrences goals true c hc
  have hget := getDailyScore_upsertDailyScore w.dailyScores (dailyScoreOf date c)
  refine ⟨c, _, hc, h, ?_, ?_, hget, ?_⟩
  · unfold getDailyScore at hget
    simp only [if_true] at hget
    exact ⟨_, List.mem_of_find?_eq_some hget, rfl⟩
  · intro row hrow hdate
    exact upsertDailyScore_row w.dailyScores (dailyScoreOf date c) row hrow hdate
  · intro other hother
    have hfilter := upsertDailyScore_other w.dailyScores (dailyScoreOf date c) true other
      hother
    refine ⟨hfilter, ?_⟩
    unfold getDailyScore
    simp only [if_true]
    rw [← List.filter_head?, ← List.filter_head?]
    exact congrArg List.head? hfilter

/-- Witness for claim C13: Scenario A recalculated for day 10 in a world that already holds
an aggregate for day 10; day 11 is another date. -/
theorem recalculateDaily_overwrites_witness :
    ∃ w', recalculateDaily (sampleWorld 90 false) 10 scenarioAOccurrences scenarioAGoals true =
        some w' ∧
      w'.dailyScores.filter (fun row => row.date = 11) =
        (sampleWorld 90 false).dailyScores.filter (fun row => row.date = 11) ∧
      getDailyScore w'.dailyScores 11 true =
        getDailyScore (sampleWorld 90 false).dailyScores 11 true := by
  obtain ⟨c, w', -, hrun, -, -, -, hother⟩ :=
    recalculateDaily_overwrites (sampleWorld 90 false) 10 scenarioAOccurrences scenarioAGoals
  exact ⟨w', hrun, hother 11 (by decide)⟩



/-! ## The streak decision and the streak events -/

/-- The transition in one formula for its events: `streakBroken` exactly on a break. -/
theorem applyDailyScore_emitted (streak : Streak) (date : QDate) (dailyScore : DailyScore) :
    ∃ updated, applyDailyScore streak date dailyScore = some (updated,
        if dailyScore.completionPercentage < 80 ∨ dailyScore.hasNegativeOutcome = true then
          [Event.streakBroken "daily" date]
        else []) ∧
      updated.id = streak.id := by
  by_cases hbreak : dailyScore.completionPercentage < 80 ∨
      dailyScore.hasNegativeOutcome = true
  · have h := applyDailyScore_break streak date dailyScore hbreak
    rw [if_pos hbreak]
    exact ⟨_, h, rfl⟩
  · have hcont := hbreak
    rw [not_or] at hcont
    have h := applyDailyScore_continue streak date dailyScore (not_lt.mp hcont.1)
      (by simpa using hcont.2)
    rw [if_neg hbreak]
    exact ⟨_, h, rfl⟩

/-- Counterexample to claim C16 as stated.  With one completed occurrence of impact
2147483647 and two daily goals of 2147483647 points and 1 point, the quotient
`100 * 2147483647 / 2147483648` is not below 80 and no occurrence is `not_completed`, yet the
`int` target wraps to -2147483648, the persisted completion is 0 and the streak update that
follows breaks the streak. -/
theorem updateStreaksForDate_after_recalculateDaily_counterexample :
    ∃ c w1 w2 updated,
      calculateFromOccurrences [sampleOccurrence "completed" 2147483647]
        [sampleGoal 2147483647, sampleGoal 1] = some c ∧
      recalculateDaily {} 10 [sampleOccurrence "completed" 2147483647]
        [sampleGoal 2147483647, sampleGoal 1] true = some w1 ∧
      updateStreaksForDate w1 10 sampleDb = some w2 ∧
      w2.calls = w1.calls ++ [RepoCall.getDailyScore 10,
        RepoCall.getOrCreateOverall "daily", RepoCall.update updated] ∧
      c.targetScore = -2147483648 ∧ c.completionPercentage = 0 ∧
      ¬((100 : ℚ) *
          (([sampleOccurrence "completed" 2147483647].map Occurrence.scoreImpact).sum : Int) /
          ((([sampleGoal 2147483647, sampleGoal 1].filter fun goal => goal.points > 0).map
            Goal.points).sum : Int) < 80) ∧
      (¬∃ occurrence ∈ [sampleOccurrence "completed" 2147483647],
        occurrence.status = "not_completed" ∧ occurrence.scoreImpact < 0) ∧
      updated.currentStreak = 0 ∧
      updated.totalFailures = (mapFromRecord sampleFreshRow).totalFailures + 1 := by
  have hc := calculateFromOccurrences_eq [sampleOccurrence "completed" 2147483647]
    [sampleGoal 2147483647, sampleGoal 1]
  have he : wrapInt32 (sumScoreImpact [sampleOccurrence "completed" 2147483647]) =
      2147483647 := by decide
  have ht : wrapInt32 (sumPositivePoints [sampleGoal 2147483647, sampleGoal 1]) =
      -2147483648 := by decide
  rw [he, ht] at hc
  simp only [gt_iff_lt, Int.reduceLT, if_false] at hc
  obtain ⟨c, hc, htarget, hzero⟩ : ∃ c,
      calculateFromOccurrences [sampleOccurrence "completed" 2147483647]
        [sampleGoal 2147483647, sampleGoal 1] = some c ∧
      c.targetScore = -2147483648 ∧ c.completionPercentage = 0 := ⟨_, hc, rfl, rfl⟩
  obtain ⟨w1, h1, hscores, hstreaks⟩ : ∃ w1,
      recalculateDaily {} 10 [sampleOccurrence "completed" 2147483647]
        [sampleGoal 2147483647, sampleGoal 1] true = some w1 ∧
      w1.dailyScores = (upsertDailyScore [] (dailyScoreOf 10 c) true).1 ∧
      w1.streaks = [] := ⟨_, recalculateDaily_eq {} 10 _ _ true c hc, rfl, rfl⟩
  have hstreak : getOrCreateOverall ([] : List StreakRow) "daily" sampleDb.uuid
      sampleDb.findOverallExec sampleDb.insertExec sampleDb.findByIdExec =
      ([sampleFreshRow], some (mapFromRecord sampleFreshRow)) := by
    have hempty : ("" : String).isEmpty = true := by decide
    simp [getOrCreateOverall, findOverallByScope, create, newOverallStreak, findById,
      sampleDb, sampleFreshRow, hempty]
  have key : ∀ (c : ScoreCalculation) (w1 : World), c.completionPercentage = 0 →
      w1.dailyScores = (upsertDailyScore [] (dailyScoreOf 10 c) true).1 →
      w1.streaks = [] →
      ∃ w2 updated, updateStreaksForDate w1 10 sampleDb = some w2 ∧
        w2.calls = w1.calls ++ [RepoCall.getDailyScore 10,
          RepoCall.getOrCreateOverall "daily", RepoCall.update updated] ∧
        updated.currentStreak = 0 ∧
        updated.totalFailures = (mapFromRecord sampleFreshRow).totalFailures + 1 := by
    intro c w1 hpct hscores hstreaks
    have hget : getDailyScore w1.dailyScores 10 sampleDb.getDailyScoreExec =
        some (dailyScoreOf 10 c) := by
      rw [hscores]
      exact getDailyScore_upsertDailyScore [] (dailyScoreOf 10 c)
    have hstreak' : getOrCreateOverall w1.streaks "daily" sampleDb.uuid
        sampleDb.findOverallExec sampleDb.insertExec sampleDb.findByIdExec =
        ([sampleFreshRow], some (mapFromRecord sampleFreshRow)) := by
      rw [hstreaks]
      exact hstreak
    have happly := applyDailyScore_break (mapFromRecord sampleFreshRow) 10
      (dailyScoreOf 10 c) (Or.inl (by simp only [dailyScoreOf, hpct]; norm_num))
    have h2 := updateStreaksForDate_eq w1 10 sampleDb _ _ _ _ _ hget hstreak' happly
    exact ⟨_, _, h2, rfl, rfl, rfl⟩
  obtain ⟨w2, updated, h2, hcalls, hcur, hfail⟩ := key c w1 hzero hscores hstreaks
  refine ⟨c, w1, w2, updated, hc, h1, h2, hcalls, htarget, hzero, ?_, ?_, hcur, hfail⟩
  · have hs : (([sampleOccurrence "completed" 2147483647].map
        Occurrence.scoreImpact).sum : Int) = 2147483647 := by decide
    have hg : ((([sampleGoal 2147483647, sampleGoal 1].filter fun goal =>
        goal.points > 0).map Goal.points).sum : Int) = 2147483648 := by decide
    rw [hs, hg]
    norm_num
  · simp [sampleOccurrence]

/-- Claim C16, amended.  For every date, occurrence list and daily goal list whose sum of
`scoreImpact` is a value of `int` and whose sum of positive points is at most 2147483647:
when `recalculateDaily` has persisted its aggregate and `updateStreaksForDate` runs next for
the same date, the daily score it reads is that fresh aggregate, whose `earnedScore` and
`targetScore` are the two sums and whose `completionPercentage` is the double
`(earnedScore / targetScore) * 100.0`, or `0` when the target is `0`.  The streak breaks
(`currentStreak = 0` and `totalFailures` raised by 1) if and only if
`100 * (sum of scoreImpact) / (sum of positive points) < 80`, completion taken as `0` when
the target is `0`, or some `not_completed` occurrence has a negative `scoreImpact`;
otherwise `currentStreak` and `totalSuccesses` are raised by 1. -/
theorem updateStreaksForDate_after_recalculateDaily (w : World) (date : QDate)
    (occurrences : List Occurrence) (goals : List Goal) (db : DbOutcome)
    (hread : db.getDailyScoreExec = true)
    (hearned : IsInt32 (occurrences.map Occurrence.scoreImpact).sum)
    (htarget : ((goals.filter fun goal => goal.points > 0).map Goal.points).sum ≤
      2147483647) :
    ∃ c w1, calculateFromOccurrences occurrences goals = some c ∧
      recalculateDaily w date occurrences goals true = some w1 ∧
      c.earnedScore = (occurrences.map Occurrence.scoreImpact).sum ∧
      c.targetScore = ((goals.filter fun goal => goal.points > 0).map Goal.points).sum ∧
      c.completionPercentage =
        (if c.targetScore > 0 then
          roundDouble (roundDouble ((c.earnedScore : ℚ) / (c.targetScore : ℚ)) * 100)
        else 0) ∧
      getDailyScore w1.dailyScores date db.getDailyScoreExec = some (dailyScoreOf date c) ∧
      ∀ table streak,
        getOrCreateOverall w1.streaks "daily" db.uuid db.findOverallExec db.insertExec
          db.findByIdExec = (table, some streak) →
        ∃ w2 updated, updateStreaksForDate w1 date db = some w2 ∧
          w2.calls = w1.calls ++ [RepoCall.getDailyScore date,
            RepoCall.getOrCreateOverall "daily", RepoCall.update updated] ∧
          ((updated.currentStreak = 0 ∧ updated.totalFailures = streak.totalFailures + 1) ↔
            ((if c.targetScore > 0 then 100 * (c.earnedScore : ℚ) / (c.targetScore : ℚ)
                else 0) < 80 ∨
              ∃ occurrence ∈ occurrences,
                occurrence.status = "not_completed" ∧ occurrence.scoreImpact < 0)) ∧
          (¬((if c.targetScore > 0 then 100 * (c.earnedScore : ℚ) / (c.targetScore : ℚ)
                else 0) < 80 ∨
              ∃ occurrence ∈ occurrences,
                occurrence.status = "not_completed" ∧ occurrence.scoreImpact < 0) →
            updated.currentStreak = streak.currentStreak + 1 ∧
            updated.totalSuccesses = streak.totalSuccesses + 1 ∧
            updated.totalFailures = streak.totalFailures) := by
  have hc := calculateFromOccurrences_eq occurrences goals
  have hneg : anyNegativeOutcome occurrences = true ↔
      ∃ occurrence ∈ occurrences,
        occurrence.status = "not_completed" ∧ occurrence.scoreImpact < 0 := by
    simp [anyNegativeOutcome]
  have hewrap : wrapInt32 (sumScoreImpact occurrences) = sumScoreImpact occurrences :=
    wrapInt32_of_isInt32 _ hearned
  have htwrap : wrapInt32 (sumPositivePoints goals) = sumPositivePoints goals :=
    wrapInt32_of_isInt32 _ ⟨le_trans (by norm_num) (sumPositivePoints_nonneg goals), htarget⟩
  rw [hewrap, htwrap] at hc
  have hlt : (if sumPositivePoints goals > 0 then
        percentDouble (sumScoreImpact occurrences) (sumPositivePoints goals) else 0) < 80 ↔
      (if sumPositivePoints goals > 0 then
        100 * (sumScoreImpact occurrences : ℚ) / (sumPositivePoints goals : ℚ) else 0) <
        80 := by
    by_cases hpos : sumPositivePoints goals > 0
    · simp only [hpos, if_true]
      exact percentDouble_lt_80_iff _ _ hpos htarget
    · simp only [hpos, if_false]
  generalize hcdef : ({
      earnedScore := sumScoreImpact occurrences
      targetScore := sumPositivePoints goals
      completionPercentage :=
        if sumPositivePoints goals > 0 then
          percentDouble (sumScoreImpact occurrences) (sumPositivePoints goals)
        else 0
      completedCount := countStatus "completed" occurrences
      skippedCount := countStatus "skipped" occurrences
      notCompletedCount := countStatus "not_completed" occurrences
      pendingCount := countStatus "pending" occurrences
      totalCount := occurrences.length
      hasNegativeOutcome := anyNegativeOutcome occurrences } : ScoreCalculation) = c at hc
  have hcneg : c.hasNegativeOutcome = anyNegativeOutcome occurrences := by rw [← hcdef]
  have hcpct : c.completionPercentage =
      (if c.targetScore > 0 then
        roundDouble (roundDouble ((c.earnedScore : ℚ) / (c.targetScore : ℚ)) * 100)
      else 0) := by
    rw [← hcdef]
    rfl
  have hclt : c.completionPercentage < 80 ↔
      (if c.targetScore > 0 then 100 * (c.earnedScore : ℚ) / (c.targetScore : ℚ)
        else 0) < 80 := by
    rw [← hcdef]
    exact hlt
  have h1 := recalculateDaily_eq w date occurrences goals true c hc
  have hget : getDailyScore (upsertDailyScore w.dailyScores (dailyScoreOf date c) true).1 date
      db.getDailyScoreExec = some (dailyScoreOf date c) := by
    rw [hread]
    exact getDailyScore_upsertDailyScore w.dailyScores (dailyScoreOf date c)
  refine ⟨c, _, hc, h1, by rw [← hcdef]; rfl, by rw [← hcdef]; rfl, hcpct, hget, ?_⟩
  intro table streak hstreak
  have hcond : ((if c.targetScore > 0 then 100 * (c.earnedScore : ℚ) / (c.targetScore : ℚ)
        else 0) < 80 ∨
      ∃ occurrence ∈ occurrences,
        occurrence.status = "not_completed" ∧ occurrence.scoreImpact < 0) ↔
      ((dailyScoreOf date c).completionPercentage < 80 ∨
        (dailyScoreOf date c).hasNegativeOutcome = true) := by
    simp only [dailyScoreOf, hcneg, hneg, hclt]
  by_cases hbreak : (dailyScoreOf date c).completionPercentage < 80 ∨
      (dailyScoreOf date c).hasNegativeOutcome = true
  · have happly := applyDailyScore_break streak date (dailyScoreOf date c) hbreak
    have h2 := updateStreaksForDate_eq _ date db (dailyScoreOf date c) table streak _ _ hget
      hstreak happly
    refine ⟨_, _, h2, rfl, ?_, ?_⟩
    · exact ⟨fun _ => hcond.mpr hbreak, fun _ => ⟨rfl, rfl⟩⟩
    · intro hnot
      exact absurd (hcond.mpr hbreak) hnot
  · have hcont := hbreak
    rw [not_or] at hcont
    have happly := applyDailyScore_continue streak date (dailyScoreOf date c)
      (not_lt.mp hcont.1) (by simpa using hcont.2)
    have h2 := updateStreaksForDate_eq _ date db (dailyScoreOf date c) table streak _ _ hget
      hstreak happly
    refine ⟨_, _, h2, rfl, ?_, ?_⟩
    · constructor
      · rintro ⟨-, hfail⟩
        simp only at hfail
        omega
      · intro hc'
        exact absurd (hcond.mp hc') hbreak
    · intro _
      exact ⟨rfl, rfl, rfl⟩

/-- Witness for claim C16, amended, on Scenario A: earned 15 against a target of 25 gives the
double 60, and the streak update that follows the recalculation breaks the freshly created
streak: `currentStreak = 0` and `totalFailures = 0 + 1`. -/
theorem updateStreaksForDate_after_recalculateDaily_witness :
    sampleDb.getDailyScoreExec = true ∧
      IsInt32 (scenarioAOccurrences.map Occurrence.scoreImpact).sum ∧
      ((scenarioAGoals.filter fun goal => goal.points > 0).map Goal.points).sum ≤
        2147483647 ∧
      ∃ c w1 w2 updated,
        calculateFromOccurrences scenarioAOccurrences scenarioAGoals = some c ∧
        recalculateDaily {} 10 scenarioAOccurrences scenarioAGoals true = some w1 ∧
        updateStreaksForDate w1 10 sampleDb = some w2 ∧
        w2.calls = w1.calls ++ [RepoCall.getDailyScore 10,
          RepoCall.getOrCreateOverall "daily", RepoCall.update updated] ∧
        c.earnedScore = 15 ∧ c.targetScore = 25 ∧ c.completionPercentage = 60 ∧
        updated.currentStreak = 0 ∧
        updated.totalFailures = (mapFromRecord sampleFreshRow).totalFailures + 1 := by
  refine ⟨rfl, by decide, by decide, ?_⟩
  obtain ⟨c, w1, hc, h1, hearned, htarget, hpct, -, hall⟩ :=
    updateStreaksForDate_after_recalculateDaily {} 10 scenarioAOccurrences scenarioAGoals
      sampleDb rfl (by decide) (by decide)
  have hearned' : c.earnedScore = 15 := by
    rw [hearned]; decide
  have htarget' : c.targetScore = 25 := by
    rw [htarget]; decide
  have h60 := percentDouble_15_25
  unfold percentDouble mulDouble at h60
  have hpct' : c.completionPercentage = 60 := by
    rw [hpct, htarget', hearned']
    simp only [gt_iff_lt, Int.reduceLT, if_true]
    exact h60
  have hstreaks : w1.streaks = [] := by
    have h1' := recalculateDaily_eq {} 10 scenarioAOccurrences scenarioAGoals true c hc
    rw [h1] at h1'
    rw [Option.some.inj h1']
  have hstreak : getOrCreateOverall w1.streaks "daily" sampleDb.uuid sampleDb.findOverallExec
      sampleDb.insertExec sampleDb.findByIdExec =
      ([sampleFreshRow], some (mapFromRecord sampleFreshRow)) := by
    have hempty : ("" : String).isEmpty = true := by decide
    rw [hstreaks]
    simp [getOrCreateOverall, findOverallByScope, create, newOverallStreak, findById,
      sampleDb, sampleFreshRow, hempty]
  obtain ⟨w2, updated, h2, hcalls, hiff, -⟩ := hall _ _ hstreak
  have hbroken := hiff.mpr (Or.inl (by rw [htarget', hearned']; norm_num))
  exact ⟨c, w1, w2, updated, hc, h1, h2, hcalls, hearned', htarget', hpct', hbroken.1,
    hbroken.2⟩

/-- Counterexample to claim C18 as stated.  On a break whose update succeeds the call emits
two streak events, `streakBroken` and then `streakUpdated`; on a continuation whose update
fails it emits none. -/
theorem updateStreaksForDate_events_counterexample :
    (∃ w', updateStreaksForDate (sampleWorld 60 false) 10 sampleDb = some w' ∧
      w'.events = [Event.streakBroken "daily" 10, Event.streakUpdated "s1"]) ∧
    (∃ w', updateStreaksForDate (sampleWorld 90 false) 10 sampleDbNoUpdate = some w' ∧
      w'.events = []) := by
  have h1 : getDailyScore (sampleWorld 60 false).dailyScores 10 sampleDb.getDailyScoreExec =
      some (sampleDailyScore 10 60 false) := by
    simp [getDailyScore, sampleWorld, sampleDb, sampleDailyScore]
  have h2 : getOrCreateOverall (sampleWorld 60 false).streaks "daily" sampleDb.uuid
      sampleDb.findOverallExec sampleDb.insertExec sampleDb.findByIdExec =
      ([sampleStreakRow], some (mapFromRecord sampleStreakRow)) := by
    simp [getOrCreateOverall, findOverallByScope, sampleWorld, sampleDb, sampleStreakRow]
  have h3 : getDailyScore (sampleWorld 90 false).dailyScores 10
      sampleDbNoUpdate.getDailyScoreExec = some (sampleDailyScore 10 90 false) := by
    simp [getDailyScore, sampleWorld, sampleDbNoUpdate, sampleDailyScore]
  have h4 : getOrCreateOverall (sampleWorld 90 false).streaks "daily" sampleDbNoUpdate.uuid
      sampleDbNoUpdate.findOverallExec sampleDbNoUpdate.insertExec
      sampleDbNoUpdate.findByIdExec =
      ([sampleStreakRow], some (mapFromRecord sampleStreakRow)) := by
    simp [getOrCreateOverall, findOverallByScope, sampleWorld, sampleDbNoUpdate,
      sampleStreakRow]
  have hbreak := applyDailyScore_break (mapFromRecord sampleStreakRow) 10
    (sampleDailyScore 10 60 false) (Or.inl (by simp only [sampleDailyScore]; norm_num))
  have hcont := applyDailyScore_continue (mapFromRecord sampleStreakRow) 10
    (sampleDailyScore 10 90 false) (by simp only [sampleDailyScore]; norm_num) rfl
  constructor
  · refine ⟨_, updateStreaksForDate_eq _ 10 sampleDb _ _ _ _ _ h1 h2 hbreak, ?_⟩
    simp [sampleWorld, sampleDb, mapFromRecord, sampleStreakRow]
  · refine ⟨_, updateStreaksForDate_eq _ 10 sampleDbNoUpdate _ _ _ _ _ h3 h4 hcont, ?_⟩
    simp [sampleWorld, sampleDbNoUpdate]

/-- Claim C18, amended.  When `updateStreaksForDate` finds the daily aggregate and obtains
the overall daily streak, it returns, and the events it has emitted are the previous
ones, followed by `streakBroken("daily", date)` if and only if the break condition
(`completionPercentage < 80` or `hasNegativeOutcome`) holds, followed by
`streakUpdated(id)` if and only if the update of the streak row succeeded, whichever
branch was taken. -/
theorem updateStreaksForDate_events (w : World) (date : QDate) (db : DbOutcome)
    (dailyScore : DailyScore) (table : List StreakRow) (streak : Streak)
    (hscore : getDailyScore w.dailyScores date db.getDailyScoreExec = some dailyScore)
    (hstreak : getOrCreateOverall w.streaks "daily" db.uuid db.findOverallExec db.insertExec
      db.findByIdExec = (table, some streak)) :
    ∃ w', updateStreaksForDate w date db = some w' ∧
      w'.events = w.events ++
        (if dailyScore.completionPercentage < 80 ∨ dailyScore.hasNegativeOutcome = true then
          [Event.streakBroken "daily" date]
        else []) ++
        (if db.updateExec = true then [Event.streakUpdated streak.id] else []) := by
  obtain ⟨updated, happly, hid⟩ := applyDailyScore_emitted streak date dailyScore
  have h := updateStreaksForDate_eq w date db dailyScore table streak _ _ hscore hstreak
    happly
  refine ⟨_, h, ?_⟩
  simp only [hid]

/-- Witness for claim C18, amended: the break of the counterexample, with its two events. -/
theorem updateStreaksForDate_events_witness :
    getDailyScore (sampleWorld 60 false).dailyScores 10 sampleDb.getDailyScoreExec =
        some (sampleDailyScore 10 60 false) ∧
      getOrCreateOverall (sampleWorld 60 false).streaks "daily" sampleDb.uuid
        sampleDb.findOverallExec sampleDb.insertExec sampleDb.findByIdExec =
        ([sampleStreakRow], some (mapFromRecord sampleStreakRow)) ∧
      ∃ w', updateStreaksForDate (sampleWorld 60 false) 10 sampleDb = some w' ∧
        w'.events = (sampleWorld 60 false).events ++
          (if (sampleDailyScore 10 60 false).completionPercentage < 80 ∨
              (sampleDailyScore 10 60 false).hasNegativeOutcome = true then
            [Event.streakBroken "daily" 10]
          else []) ++
          (if sampleDb.updateExec = true then
            [Event.streakUpdated (mapFromRecord sampleStreakRow).id] else []) :=
  have h1 : getDailyScore (sampleWorld 60 false).dailyScores 10 sampleDb.getDailyScoreExec =
      some (sampleDailyScore 10 60 false) := by
    simp [getDailyScore, sampleWorld, sampleDb, sampleDailyScore]
  have h2 : getOrCreateOverall (sampleWorld 60 false).streaks "daily" sampleDb.uuid
      sampleDb.findOverallExec sampleDb.insertExec sampleDb.findByIdExec =
      ([sampleStreakRow], some (mapFromRecord sampleStreakRow)) := by
    simp [getOrCreateOverall, findOverallByScope, sampleWorld, sampleDb, sampleStreakRow]
  ⟨h1, h2, updateStreaksForDate_events _ 10 sampleDb _ _ _ h1 h2⟩



/-! ## A failed fetch does not abort a recalculation -/

/-- After an accepted upsert a row is stored for the week of the score, and every row stored
for that week carries the aggregate of the score. -/
theorem upsertWeeklyScore_row (table : List WeeklyScore) (score : WeeklyScore) :
    (∃ row ∈ (upsertWeeklyScore table score true).1, row.weekStart = score.weekStart) ∧
    ∀ row ∈ (upsertWeeklyScore table score true).1, row.weekStart = score.weekStart →
      row = { score with year := row.year, weekNumber := row.weekNumber } := by
  unfold upsertWeeklyScore
  by_cases hany : (table.any fun row => decide (row.weekStart = score.weekStart)) = true
  · simp only [if_true, hany]
    constructor
    · obtain ⟨old, hold, hkey⟩ := List.any_eq_true.mp hany
      simp only [decide_eq_true_eq] at hkey
      exact ⟨_, List.mem_map.mpr ⟨old, hold, rfl⟩, by simp [hkey]⟩
    · intro row hrow hkey
      obtain ⟨old, -, hold⟩ := List.mem_map.mp hrow
      by_cases hd : old.weekStart = score.weekStart
      · simp only [hd, if_true] at hold
        rw [← hold]
      · simp only [hd, if_false] at hold
        rw [← hold] at hkey
        exact absurd hkey hd
  · simp only [if_true, hany, Bool.false_eq_true, if_false]
    constructor
    · exact ⟨score, by simp, rfl⟩
    · intro row hrow hkey
      rcases List.mem_append.mp hrow with hold | hnew
      · exact absurd (List.any_eq_true.mpr ⟨row, hold, by simpa using hkey⟩) hany
      · rw [List.mem_singleton.mp hnew]

/-- After an accepted upsert a row is stored for the month of the score, and every row
stored for that month carries the aggregate of the score. -/
theorem upsertMonthlyScore_row (table : List MonthlyScore) (score : MonthlyScore) :
    (∃ row ∈ (upsertMonthlyScore table score true).1, row.monthStart = score.monthStart) ∧
    ∀ row ∈ (upsertMonthlyScore table score true).1, row.monthStart = score.monthStart →
      row = { score with year := row.year, month := row.month } := by
  unfold upsertMonthlyScore
  by_cases hany : (table.any fun row => decide (row.monthStart = score.monthStart)) = true
  · simp only [if_true, hany]
    constructor
    · obtain ⟨old, hold, hkey⟩ := List.any_eq_true.mp hany
      simp only [decide_eq_true_eq] at hkey
      exact ⟨_, List.mem_map.mpr ⟨old, hold, rfl⟩, by simp [hkey]⟩
    · intro row hrow hkey
      obtain ⟨old, -, hold⟩ := List.mem_map.mp hrow
      by_cases hd : old.monthStart = score.monthStart
      · simp only [hd, if_true] at hold
        rw [← hold]
      · simp only [hd, if_false] at hold
        rw [← hold] at hkey
        exact absurd hkey hd
  · simp only [if_true, hany, Bool.false_eq_true, if_false]
    constructor
    · exact ⟨score, by simp, rfl⟩
    · intro row hrow hkey
      rcases List.mem_append.mp hrow with hold | hnew
      · exact absurd (List.any_eq_true.mpr ⟨row, hold, by simpa using hkey⟩) hany
      · rw [List.mem_singleton.mp hnew]

/-- After an accepted upsert of a score whose `yearStart` is a valid date, a row is stored
for that date, and every row stored for it carries the aggregate of the score. -/
theorem upsertYearlyScore_row (table : List YearlyScore) (score : YearlyScore)
    (start : QDate) (hstart : score.yearStart = some start) :
    (∃ row ∈ (upsertYearlyScore table score true).1, row.yearStart = some start) ∧
    ∀ row ∈ (upsertYearlyScore table score true).1, row.yearStart = some start →
      row = { score with year := row.year } := by
  unfold upsertYearlyScore
  by_cases hany : (table.any fun row =>
      decide (score.yearStart.isSome ∧ row.yearStart = score.yearStart)) = true
  · simp only [if_true, hany]
    constructor
    · obtain ⟨old, hold, hkey⟩ := List.any_eq_true.mp hany
      simp only [decide_eq_true_eq] at hkey
      exact ⟨_, List.mem_map.mpr ⟨old, hold, rfl⟩, by simp [hkey, hstart]⟩
    · intro row hrow hkey
      obtain ⟨old, -, hold⟩ := List.mem_map.mp hrow
      by_cases hd : score.yearStart.isSome ∧ old.yearStart = score.yearStart
      · simp only [hd, and_self, if_true] at hold
        rw [← hold]
      · simp only [hd, if_false] at hold
        rw [← hold] at hkey
        exact absurd ⟨by simp [hstart], by rw [hkey, hstart]⟩ hd
  · simp only [if_true, hany, Bool.false_eq_true, if_false]
    constructor
    · exact ⟨score, by simp, hstart⟩
    · intro row hrow hkey
      rcases List.mem_append.mp hrow with hold | hnew
      · exact absurd (List.any_eq_true.mpr ⟨row, hold, by simp [hkey, hstart]⟩) hany
      · rw [List.mem_singleton.mp hnew]

/-- Counterexample to claim C14 as stated.  The goal table holds a daily goal of 25 points,
but the goal query fails, so `findByScope` logs `SQL_EXEC_FAILED` and returns the empty
list; `recalculateDaily` still issues its upsert, and the aggregate stored for day 10
(completion 90) is replaced by one computed without goals (target 0, completion 0). -/
theorem recalculateDaily_failed_fetch_counterexample :
    GoalRepository.findByScope sampleGoalTable "daily" true = ([sampleGoal 25], []) ∧
    GoalRepository.findByScope sampleGoalTable "daily" false = ([], ["SQL_EXEC_FAILED"]) ∧
    (sampleWorld 90 false).dailyScores = [sampleDailyScore 10 90 false] ∧
    ∃ w', recalculateDaily (sampleWorld 90 false) 10 scenarioAOccurrences
        (GoalRepository.findByScope sampleGoalTable "daily" false).1 true = some w' ∧
      w'.calls = [RepoCall.findByDate 10, RepoCall.findByScope "daily",
        RepoCall.upsertDailyScore (dailyScoreOf 10 ⟨15, 0, 0, 2, 0, 1, 0, 3, true⟩)] ∧
      w'.dailyScores = [dailyScoreOf 10 ⟨15, 0, 0, 2, 0, 1, 0, 3, true⟩] := by
  have hfail : GoalRepository.findByScope sampleGoalTable "daily" false =
      ([], ["SQL_EXEC_FAILED"]) := rfl
  have hval : calculateFromOccurrences scenarioAOccurrences [] =
      some ⟨15, 0, 0, 2, 0, 1, 0, 3, true⟩ := by
    rw [calculateFromOccurrences_eq]
    decide
  refine ⟨?_, hfail, rfl, ?_⟩
  · simp [GoalRepository.findByScope, sampleGoalTable, sampleGoal,
      GoalRepository.mapFromRecord]
  · rw [hfail]
    refine ⟨_, recalculateDaily_eq _ 10 scenarioAOccurrences [] true _ hval, ?_, ?_⟩
    · simp [sampleWorld]
    · simp [sampleWorld, upsertDailyScore, sampleDailyScore, dailyScoreOf]

/-- Claim C14, amended.  A recalculation has no abort path.  A failed goal query makes
`findByScope` log `SQL_EXEC_FAILED` and return the empty list, and a successful one logs no
error.  Whatever lists the two fetches return, each of the four recalculations returns and
issues its upsert with the aggregate computed from them.  On the empty list of a failed
goal query that aggregate has `targetScore = 0` and `completionPercentage = 0`, each of the
four recalculations upserts it, and if the upsert succeeds it replaces what was stored for
the window: `getDailyScore` returns it for the date, and every row stored for the date, the
week, the month or (when the first of January of the year is a valid date) the year
carries it, a row that existed before keeping only its columns `year`, `week_number` and
`month`. -/
theorem recalculate_never_aborts :
    (∀ (table : List GoalRow) (scope : String),
      GoalRepository.findByScope table scope false = ([], ["SQL_EXEC_FAILED"]) ∧
      (GoalRepository.findByScope table scope true).2 = []) ∧
    (∀ (cal : Calendar) (w : World) (date : QDate) (year : Int)
      (occurrences : List Occurrence) (goals : List Goal) (exec : Bool),
      ∃ c, calculateFromOccurrences occurrences goals = some c ∧
        (∃ w', recalculateDaily w date occurrences goals exec = some w' ∧
          w'.calls = w.calls ++ [RepoCall.findByDate date, RepoCall.findByScope "daily",
            RepoCall.upsertDailyScore (dailyScoreOf date c)]) ∧
        (∃ w', recalculateWeekly cal w date occurrences goals exec = some w' ∧
          w'.calls = w.calls ++ [RepoCall.findByWeek (cal.calculateWeekStart date),
            RepoCall.findByScope "weekly",
            RepoCall.upsertWeeklyScore (weeklyScoreOf cal (cal.calculateWeekStart date) c)]) ∧
        (∃ w', recalculateMonthly cal w date occurrences goals exec = some w' ∧
          w'.calls = w.calls ++ [RepoCall.findByMonth (cal.calculateMonthStart date),
            RepoCall.findByScope "monthly",
            RepoCall.upsertMonthlyScore
              (monthlyScoreOf cal (cal.calculateMonthStart date) c)]) ∧
        (∃ w', recalculateYearly cal w year occurrences goals exec = some w' ∧
          w'.calls = w.calls ++ [RepoCall.findByYear year, RepoCall.findByScope "yearly",
            RepoCall.upsertYearlyScore (yearlyScoreOf cal year c)])) ∧
    (∀ (cal : Calendar) (w : World) (date : QDate) (year : Int)
      (occurrences : List Occurrence) (table : List GoalRow) (exec : Bool),
      ∃ c, c.targetScore = 0 ∧ c.completionPercentage = 0 ∧
        (∀ scope, calculateFromOccurrences occurrences
          (GoalRepository.findByScope table scope false).1 = some c) ∧
        (∃ w', recalculateDaily w date occurrences
              (GoalRepository.findByScope table "daily" false).1 exec = some w' ∧
          w'.calls = w.calls ++ [RepoCall.findByDate date, RepoCall.findByScope "daily",
            RepoCall.upsertDailyScore (dailyScoreOf date c)] ∧
          (exec = true →
            getDailyScore w'.dailyScores date true = some (dailyScoreOf date c) ∧
            ∀ row ∈ w'.dailyScores, row.date = date → row = dailyScoreOf date c)) ∧
        (∃ w', recalculateWeekly cal w date occurrences
              (GoalRepository.findByScope table "weekly" false).1 exec = some w' ∧
          w'.calls = w.calls ++ [RepoCall.findByWeek (cal.calculateWeekStart date),
            RepoCall.findByScope "weekly",
            RepoCall.upsertWeeklyScore (weeklyScoreOf cal (cal.calculateWeekStart date) c)] ∧
          (exec = true →
            (∃ row ∈ w'.weeklyScores, row.weekStart = cal.calculateWeekStart date) ∧
            ∀ row ∈ w'.weeklyScores, row.weekStart = cal.calculateWeekStart date →
              row = { weeklyScoreOf cal (cal.calculateWeekStart date) c with
                year := row.year, weekNumber := row.weekNumber })) ∧
        (∃ w', recalculateMonthly cal w date occurrences
              (GoalRepository.findByScope table "monthly" false).1 exec = some w' ∧
          w'.calls = w.calls ++ [RepoCall.findByMonth (cal.calculateMonthStart date),
            RepoCall.findByScope "monthly",
            RepoCall.upsertMonthlyScore
              (monthlyScoreOf cal (cal.calculateMonthStart date) c)] ∧
          (exec = true →
            (∃ row ∈ w'.monthlyScores, row.monthStart = cal.calculateMonthStart date) ∧
            ∀ row ∈ w'.monthlyScores, row.monthStart = cal.calculateMonthStart date →
              row = { monthlyScoreOf cal (cal.calculateMonthStart date) c with
                year := row.year, month := row.month })) ∧
        (∃ w', recalculateYearly cal w year occurrences
              (GoalRepository.findByScope table "yearly" false).1 exec = some w' ∧
          w'.calls = w.calls ++ [RepoCall.findByYear year, RepoCall.findByScope "yearly",
            RepoCall.upsertYearlyScore (yearlyScoreOf cal year c)] ∧
          (exec = true → ∀ start, cal.firstOfJanuary year = some start →
            (∃ row ∈ w'.yearlyScores, row.yearStart = some start) ∧
            ∀ row ∈ w'.yearlyScores, row.yearStart = some start →
              row = { yearlyScoreOf cal year c with year := row.year }))) := by
  refine ⟨fun _ _ => ⟨rfl, rfl⟩, ?_, ?_⟩
  · intro cal w date year occurrences goals exec
    obtain ⟨c, hc⟩ : ∃ c, calculateFromOccurrences occurrences goals = some c :=
      ⟨_, calculateFromOccurrences_eq occurrences goals⟩
    exact ⟨c, hc, ⟨_, recalculateDaily_eq w date occurrences goals exec c hc, rfl⟩,
      ⟨_, recalculateWeekly_eq cal w date occurrences goals exec c hc, rfl⟩,
      ⟨_, recalculateMonthly_eq cal w date occurrences goals exec c hc, rfl⟩,
      ⟨_, recalculateYearly_eq cal w year occurrences goals exec c hc, rfl⟩⟩
  · intro cal w date year occurrences table exec
    have hfail : ∀ scope, (GoalRepository.findByScope table scope false).1 = [] :=
      fun _ => rfl
    simp only [hfail]
    have hc := calculateFromOccurrences_eq occurrences []
    have htarget : wrapInt32 (sumPositivePoints []) = 0 := by decide
    simp only [htarget, gt_iff_lt, lt_self_iff_false, if_false] at hc
    obtain ⟨c, hc, ht, hp⟩ : ∃ c, calculateFromOccurrences occurrences [] = some c ∧
        c.targetScore = 0 ∧ c.completionPercentage = 0 := ⟨_, hc, rfl, rfl⟩
    refine ⟨c, ht, hp, fun _ => hc,
      ⟨_, recalculateDaily_eq w date occurrences [] exec c hc, rfl, ?_⟩,
      ⟨_, recalculateWeekly_eq cal w date occurrences [] exec c hc, rfl, ?_⟩,
      ⟨_, recalculateMonthly_eq cal w date occurrences [] exec c hc, rfl, ?_⟩,
      ⟨_, recalculateYearly_eq cal w year occurrences [] exec c hc, rfl, ?_⟩⟩
    · intro hexec
      subst hexec
      exact ⟨getDailyScore_upsertDailyScore w.dailyScores _,
        upsertDailyScore_row w.dailyScores (dailyScoreOf date c)⟩
    · intro hexec
      subst hexec
      exact upsertWeeklyScore_row w.weeklyScores _
    · intro hexec
      subst hexec
      exact upsertMonthlyScore_row w.monthlyScores _
    · intro hexec start hstart
      subst hexec
      exact upsertYearlyScore_row w.yearlyScores _ start hstart

/-- Witness for claim C14, amended: the failed goal query of the counterexample, with the
upsert accepted. -/
theorem recalculate_never_aborts_witness :
    ∃ c w', calculateFromOccurrences scenarioAOccurrences
        (GoalRepository.findByScope sampleGoalTable "daily" false).1 = some c ∧
      recalculateDaily (sampleWorld 90 false) 10 scenarioAOccurrences
        (GoalRepository.findByScope sampleGoalTable "daily" false).1 true = some w' ∧
      c.targetScore = 0 ∧ c.completionPercentage = 0 ∧
      getDailyScore w'.dailyScores 10 true = some (dailyScoreOf 10 c) ∧
      ∀ row ∈ w'.dailyScores, row.date = 10 → row = dailyScoreOf 10 c := by
  obtain ⟨c, htarget, hpct, hc, ⟨w', hrun, -, hstored⟩, -⟩ :=
    recalculate_never_aborts.2.2 qtCalendar (sampleWorld 90 false) 10 2024
      scenarioAOccurrences sampleGoalTable true
  exact ⟨c, w', hc "daily", hrun, htarget, hpct, hstored rfl⟩

/-! ## What a status change sets off -/

/-- Counterexample to claim C17 as stated.  A status change of an occurrence dated day 10
emits `occurrenceUpdated` and `scoresNeedRecalculation(10)`, and with the slots that the
sources connect the world is left as it was: its call trace is still empty, so
`recalculateDaily(10)`, whose first repository call is `findByDate(10)`, has not been
invoked. -/
theorem occurrenceStatusChanged_counterexample :
    onOccurrenceStatusChanged (some sampleDatedOccurrence) =
        [OccurrenceSignal.occurrenceUpdated sampleDatedOccurrence,
          OccurrenceSignal.scoresNeedRecalculation 10] ∧
      ∃ w', occurrenceStatusChanged connectedSlots {} (some sampleDatedOccurrence) = some w' ∧
        w'.calls = [] ∧ RepoCall.findByDate 10 ∉ w'.calls := by
  refine ⟨rfl, {}, rfl, rfl, ?_⟩
  simp

/-- Claim C17, amended.  On a status change `OccurrenceService` looks the occurrence up; if
it is found it emits `occurrenceUpdated` and then, if the date of the occurrence is valid,
`scoresNeedRecalculation(date)`; if it is not found it emits nothing.  The sources connect
no slot to these signals, so the change leaves the world as it was: neither
`recalculateDaily` nor `updateStreaksForDate` is invoked by it. -/
theorem occurrenceStatusChanged_effect :
    onOccurrenceStatusChanged none = [] ∧
    (∀ (occurrence : Occurrence) (date : QDate), occurrence.date = some date →
      onOccurrenceStatusChanged (some occurrence) =
        [OccurrenceSignal.occurrenceUpdated occurrence,
          OccurrenceSignal.scoresNeedRecalculation date]) ∧
    (∀ (occurrence : Occurrence), occurrence.date = none →
      onOccurrenceStatusChanged (some occurrence) =
        [OccurrenceSignal.occurrenceUpdated occurrence]) ∧
    (∀ (w : World) (found : Option Occurrence),
      occurrenceStatusChanged connectedSlots w found = some w) := by
  refine ⟨rfl, ?_, ?_, ?_⟩
  · intro occurrence date hdate
    simp [onOccurrenceStatusChanged, hdate]
  · intro occurrence hdate
    simp [onOccurrenceStatusChanged, hdate]
  · intro w found
    unfold occurrenceStatusChanged
    generalize onOccurrenceStatusChanged found = signals
    induction signals with
    | nil => rfl
    | cons signal rest ih =>
      simp only [List.foldlM_cons]
      have hemit : emitSignal connectedSlots w signal = some w := rfl
      rw [hemit]
      exact ih

/-- Witness for claim C17, amended: the occurrence of day 10 and an occurrence with no
date. -/
theorem occurrenceStatusChanged_effect_witness :
    onOccurrenceStatusChanged (some sampleDatedOccurrence) =
        [OccurrenceSignal.occurrenceUpdated sampleDatedOccurrence,
          OccurrenceSignal.scoresNeedRecalculation 10] ∧
      onOccurrenceStatusChanged (some (sampleOccurrence "completed" 10)) =
        [OccurrenceSignal.occurrenceUpdated (sampleOccurrence "completed" 10)] :=
  ⟨occurrenceStatusChanged_effect.2.1 sampleDatedOccurrence 10 rfl,
    occurrenceStatusChanged_effect.2.2.1 (sampleOccurrence "completed" 10) rfl⟩



/-! ## Trend queries -/

/-- Sorting rows by a key in descending order: the result is a permutation of the rows,
and when the keys are pairwise distinct it is strictly descending. -/
theorem insertionSort_desc {α : Type} (key : α → Int) (rows : List α) :
    (rows.insertionSort fun a b => key a ≥ key b).Perm rows ∧
      ((rows.map key).Nodup →
        (rows.insertionSort fun a b => key a ≥ key b).Pairwise fun a b => key a > key b) := by
  haveI : IsTotal α (fun a b => key a ≥ key b) := ⟨fun a b => le_total (key b) (key a)⟩
  haveI : IsTrans α (fun a b => key a ≥ key b) := ⟨fun _ _ _ hab hbc => le_trans hbc hab⟩
  have hperm := List.perm_insertionSort (fun a b => key a ≥ key b) rows
  refine ⟨hperm, ?_⟩
  intro hnodup
  have hsorted : (rows.insertionSort fun a b => key a ≥ key b).Pairwise
      (fun a b => key a ≥ key b) := List.sorted_insertionSort (fun a b => key a ≥ key b) rows
  have hnodup' : ((rows.insertionSort fun a b => key a ≥ key b).map key).Nodup :=
    (hperm.map key).nodup_iff.mpr hnodup
  have hne : (rows.insertionSort fun a b => key a ≥ key b).Pairwise
      (fun a b => key a ≠ key b) := List.pairwise_map.mp hnodup'
  exact (hsorted.and hne).imp fun h => lt_of_le_of_ne h.1 (Ne.symm h.2)

/-- The first `n` rows of the descending sort: how many they are, that they are stored rows
in strictly descending key order, and that every stored row left out has a smaller key than
every row returned. -/
theorem take_insertionSort_desc {α : Type} (key : α → Int) (rows : List α) (n : Nat)
    (hnodup : (rows.map key).Nodup) :
    ((rows.insertionSort fun a b => key a ≥ key b).take n).length = min n rows.length ∧
      (((rows.insertionSort fun a b => key a ≥ key b).take n).map key).Sorted (· > ·) ∧
      (∀ row ∈ (rows.insertionSort fun a b => key a ≥ key b).take n, row ∈ rows) ∧
      (∀ row ∈ (rows.insertionSort fun a b => key a ≥ key b).take n, ∀ other ∈ rows,
        other ∉ (rows.insertionSort fun a b => key a ≥ key b).take n →
        key other < key row) := by
  obtain ⟨hperm, hstrict⟩ := insertionSort_desc key rows
  have hpair := hstrict hnodup
  refine ⟨?_, ?_, ?_, ?_⟩
  · rw [List.length_take, List.length_insertionSort]
  · exact List.pairwise_map.mpr (hpair.sublist (List.take_sublist n _))
  · intro row hrow
    exact hperm.subset (List.mem_of_mem_take hrow)
  · intro row hrow other hother hnot
    have hsplit := List.take_append_drop n (rows.insertionSort fun a b => key a ≥ key b)
    have hmem : other ∈ (rows.insertionSort fun a b => key a ≥ key b).take n ++
        (rows.insertionSort fun a b => key a ≥ key b).drop n := by
      rw [hsplit]
      exact hperm.symm.subset hother
    have hdrop : other ∈ (rows.insertionSort fun a b => key a ≥ key b).drop n := by
      rcases List.mem_append.mp hmem with h | h
      · exact absurd h hnot
      · exact h
    rw [← hsplit] at hpair
    exact (List.pairwise_append.mp hpair).2.2 row hrow other hdrop

/-- Claim C19.  When the query succeeds, for every `n ≥ 0` and every weekly table with one
row per `weekStart`, `getWeeklyTrend(n)` returns `min(n, number stored)` rows; they are
stored rows, strictly descending by `weekStart`, and every stored row that is left out has
an earlier `weekStart` than every row returned.  `getMonthlyTrend(n)` does the same by
`monthStart`. -/
theorem getTrend_latest (w : World) (n : Int) (hn : 0 ≤ n) :
    ((w.weeklyScores.map WeeklyScore.weekStart).Nodup →
      ((getWeeklyTrend w n true).length : Int) = min n w.weeklyScores.length ∧
      ((getWeeklyTrend w n true).map WeeklyScore.weekStart).Sorted (· > ·) ∧
      (∀ row ∈ getWeeklyTrend w n true, row ∈ w.weeklyScores) ∧
      (∀ row ∈ getWeeklyTrend w n true, ∀ other ∈ w.weeklyScores,
        other ∉ getWeeklyTrend w n true → other.weekStart < row.weekStart)) ∧
    ((w.monthlyScores.map MonthlyScore.monthStart).Nodup →
      ((getMonthlyTrend w n true).length : Int) = min n w.monthlyScores.length ∧
      ((getMonthlyTrend w n true).map MonthlyScore.monthStart).Sorted (· > ·) ∧
      (∀ row ∈ getMonthlyTrend w n true, row ∈ w.monthlyScores) ∧
      (∀ row ∈ getMonthlyTrend w n true, ∀ other ∈ w.monthlyScores,
        other ∉ getMonthlyTrend w n true → other.monthStart < row.monthStart)) := by
  have hcast : ∀ len : Nat, ((min n.toNat len : Nat) : Int) = min n (len : Int) := by
    intro len
    omega
  constructor
  · intro hnodup
    obtain ⟨hlen, hsorted, hmem, hlatest⟩ :=
      take_insertionSort_desc WeeklyScore.weekStart w.weeklyScores n.toNat hnodup
    refine ⟨?_, hsorted, hmem, hlatest⟩
    rw [← hcast]
    exact congrArg Nat.cast hlen
  · intro hnodup
    obtain ⟨hlen, hsorted, hmem, hlatest⟩ :=
      take_insertionSort_desc MonthlyScore.monthStart w.monthlyScores n.toNat hnodup
    refine ⟨?_, hsorted, hmem, hlatest⟩
    rw [← hcast]
    exact congrArg Nat.cast hlen



/-- Witness for claim C19 (Scenario C): `getWeeklyTrend(12)` over 20 stored weekly
aggregates returns exactly 12 rows, and `getMonthlyTrend(12)` over 3 stored monthly
aggregates returns 3. -/
theorem getTrend_latest_witness :
    sampleTrendWorld.weeklyScores.length = 20 ∧
      ((getWeeklyTrend sampleTrendWorld 12 true).length : Int) = 12 ∧
      ((getWeeklyTrend sampleTrendWorld 12 true).map WeeklyScore.weekStart).Sorted (· > ·) ∧
      ((getMonthlyTrend sampleTrendWorld 12 true).length : Int) = 3 := by
  have hweekly : (sampleTrendWorld.weeklyScores.map WeeklyScore.weekStart).Nodup := by
    decide
  have hmonthly : (sampleTrendWorld.monthlyScores.map MonthlyScore.monthStart).Nodup := by
    decide
  obtain ⟨hw, hm⟩ := getTrend_latest sampleTrendWorld 12 (by decide)
  obtain ⟨hwlen, hwsorted, -, -⟩ := hw hweekly
  obtain ⟨hmlen, -, -, -⟩ := hm hmonthly
  have h20 : sampleTrendWorld.weeklyScores.length = 20 := by decide
  have h3 : sampleTrendWorld.monthlyScores.length = 3 := by decide
  refine ⟨h20, ?_, hwsorted, ?_⟩
  · rw [hwlen, h20]; decide
  · rw [hmlen, h3]; decide

/-- Claim C20.  When the query succeeds, for every current date, every `days ≥ 1` and every
daily table with one row per date, `getDailyTrend(days)` returns exactly the stored rows
whose date lies in the closed range from `today - days + 1` to `today`, in strictly
descending date order, hence at most `days` rows.  For `days ≤ 0` it returns no row. -/
theorem getDailyTrend_range (w : World) (today : QDate) (days : Int) :
    (1 ≤ days → (w.dailyScores.map DailyScore.date).Nodup →
      (getDailyTrend w today days true).Perm
        (w.dailyScores.filter fun row => today - days + 1 ≤ row.date ∧ row.date ≤ today) ∧
      (∀ row, row ∈ getDailyTrend w today days true ↔
        row ∈ w.dailyScores ∧ today - days + 1 ≤ row.date ∧ row.date ≤ today) ∧
      ((getDailyTrend w today days true).map DailyScore.date).Sorted (· > ·) ∧
      ((getDailyTrend w today days true).length : Int) ≤ days) ∧
    (days ≤ 0 → ∀ exec, getDailyTrend w today days exec = []) := by
  have hstart : today + (-days + 1) = today - days + 1 := by ring
  constructor
  · intro hdays hnodup
    have hfilterNodup : ((w.dailyScores.filter fun row =>
        today - days + 1 ≤ row.date ∧ row.date ≤ today).map DailyScore.date).Nodup :=
      hnodup.sublist ((List.filter_sublist _).map DailyScore.date)
    obtain ⟨hperm, hstrict⟩ := insertionSort_desc DailyScore.date
      (w.dailyScores.filter fun row => today - days + 1 ≤ row.date ∧ row.date ≤ today)
    have hpair := hstrict hfilterNodup
    have htrend : getDailyTrend w today days true =
        (w.dailyScores.filter fun row =>
          today - days + 1 ≤ row.date ∧ row.date ≤ today).insertionSort
          fun a b => a.date ≥ b.date := by
      simp only [getDailyTrend, getDailyScoreRange, if_true, hstart]
    rw [htrend]
    have hmem : ∀ row, row ∈ (w.dailyScores.filter fun row =>
        today - days + 1 ≤ row.date ∧ row.date ≤ today).insertionSort
          (fun a b => a.date ≥ b.date) ↔
        row ∈ w.dailyScores ∧ today - days + 1 ≤ row.date ∧ row.date ≤ today := by
      intro row
      rw [hperm.mem_iff, List.mem_filter]
      simp
    have hsorted : (((w.dailyScores.filter fun row =>
        today - days + 1 ≤ row.date ∧ row.date ≤ today).insertionSort
          fun a b => a.date ≥ b.date).map DailyScore.date).Sorted (· > ·) :=
      List.pairwise_map.mpr hpair
    refine ⟨hperm, hmem, hsorted, ?_⟩
    have hnd : (((w.dailyScores.filter fun row =>
        today - days + 1 ≤ row.date ∧ row.date ≤ today).insertionSort
          fun a b => a.date ≥ b.date).map DailyScore.date).Nodup :=
      (hperm.map DailyScore.date).nodup_iff.mpr hfilterNodup
    have hsub : (((w.dailyScores.filter fun row =>
        today - days + 1 ≤ row.date ∧ row.date ≤ today).insertionSort
          fun a b => a.date ≥ b.date).map DailyScore.date).toFinset ⊆
        Finset.Icc (today - days + 1) today := by
      intro d hd
      rw [List.mem_toFinset, List.mem_map] at hd
      obtain ⟨row, hrow, rfl⟩ := hd
      rw [Finset.mem_Icc]
      exact ((hmem row).mp hrow).2
    have hcard := Finset.card_le_card hsub
    rw [List.toFinset_card_of_nodup hnd, List.length_map, Int.card_Icc] at hcard
    omega
  · intro hdays exec
    unfold getDailyTrend getDailyScoreRange
    cases exec
    · rfl
    · simp only [if_true, hstart]
      have hempty : (w.dailyScores.filter fun row =>
          today - days + 1 ≤ row.date ∧ row.date ≤ today) = [] := by
        rw [List.filter_eq_nil_iff]
        intro row _
        have hrow : ¬(today - days + 1 ≤ row.date ∧ row.date ≤ today) := by
          rintro ⟨h1, h2⟩
          have key : ∀ t d r : Int, d ≤ 0 → t - d + 1 ≤ r → r ≤ t → False := by
            intro t d r hd hlo hhi
            omega
          exact key today days row.date hdays h1 h2
        simpa using hrow
      rw [hempty]
      rfl

/-- Witness for claim C20: with day 10 as the current date and the single aggregate of the
sample world, `getDailyTrend(7)` returns at most 7 rows, and `getDailyTrend(0)` none. -/
theorem getDailyTrend_range_witness :
    ((getDailyTrend (sampleWorld 90 false) 10 7 true).length : Int) ≤ 7 ∧
      sampleDailyScore 10 90 false ∈ getDailyTrend (sampleWorld 90 false) 10 7 true ∧
      getDailyTrend (sampleWorld 90 false) 10 0 true = [] := by
  obtain ⟨hpos, -⟩ := getDailyTrend_range (sampleWorld 90 false) 10 7
  obtain ⟨-, hzero⟩ := getDailyTrend_range (sampleWorld 90 false) 10 0
  have hnodup : ((sampleWorld 90 false).dailyScores.map DailyScore.date).Nodup := by
    simp [sampleWorld]
  obtain ⟨-, hmem, -, hlen⟩ := hpos (by decide) hnodup
  refine ⟨hlen, (hmem _).mpr ⟨?_, ?_, ?_⟩, hzero (by decide) true⟩
  · simp [sampleWorld]
  · simp [sampleDailyScore]
  · simp [sampleDailyScore]

/-! ## The start of the week -/

/-- With enough fuel the week-start loop stops at the Julian day rounded down to a multiple
of seven. -/
theorem weekStartLoop_eq (fuel : Nat) (d : Int) (h : d % 7 ≤ fuel) :
    weekStartLoop fuel d = some (d - d % 7) := by
  induction fuel generalizing d with
  | zero =>
    have h0 : d % 7 = 0 := by omega
    simp [weekStartLoop, QDate.dayOfWeek, Monday, h0]
  | succ fuel ih =>
    unfold weekStartLoop
    by_cases hm : d % 7 = 0
    · simp [QDate.dayOfWeek, Monday, hm]
    · have hstep : (d + -1) % 7 ≤ fuel := by omega
      have hres : d + -1 - (d + -1) % 7 = d - d % 7 := by omega
      simp only [QDate.dayOfWeek, Monday, QDate.addDays, ne_eq, add_left_eq_self, hm,
        not_false_eq_true, if_true]
      rw [ih (d + -1) hstep, hres]

/-- With too little fuel the week-start loop has not stopped. -/
theorem weekStartLoop_eq_none (fuel : Nat) (d : Int) (h : (fuel : Int) < d % 7) :
    weekStartLoop fuel d = none := by
  induction fuel generalizing d with
  | zero =>
    have h0 : d % 7 ≠ 0 := by omega
    simp [weekStartLoop, QDate.dayOfWeek, Monday, h0]
  | succ fuel ih =>
    unfold weekStartLoop
    have hm : d % 7 ≠ 0 := by omega
    have hstep : (fuel : Int) < (d + -1) % 7 := by omega
    simp only [QDate.dayOfWeek, Monday, QDate.addDays, ne_eq, add_left_eq_self, hm,
      not_false_eq_true, if_true]
    exact ih (d + -1) hstep

/-- The week start that the occurrence repository is specified to compute is the date at which
the loop of `refreshDashboard` stops. -/
theorem weekStartLoop_calculateWeekStart (d : QDate) :
    weekStartLoop 6 d = some (calculateWeekStart d) := by
  have hfuel : ∀ e : Int, e % 7 ≤ ((6 : Nat) : Int) := fun e => by omega
  have hcalc : ∀ e : Int, e - e % 7 = e + -(e % 7 + 1 - 1) := fun e => by omega
  rw [weekStartLoop_eq 6 d (hfuel d)]
  exact congrArg some (hcalc d)

/-- Claim C21.  For every date `d` the week-start loop of `refreshDashboard` (step back one
day at a time until the day of week is Monday) leaves after at most 6 runs of its body: it
needs exactly `d - w` of them, fewer do not suffice and more change nothing.  Its result `w`
is a Monday with `w ≤ d` and `d - w ≤ 6`, and the only such date; it is `d` itself exactly
when `d` is a Monday; and the loop started from `w` returns `w` again. -/
theorem weekStartLoop_weekStart (d : QDate) :
    ∃ w, weekStartLoop 6 d = some w ∧
      (∀ fuel, 6 ≤ fuel → weekStartLoop fuel d = some w) ∧
      (∃ steps : Nat, steps ≤ 6 ∧ (steps : Int) = d - w ∧
        weekStartLoop steps d = some w ∧
        ∀ fuel, fuel < steps → weekStartLoop fuel d = none) ∧
      QDate.dayOfWeek w = Monday ∧ w ≤ d ∧ d - w ≤ 6 ∧
      (∀ v : QDate, QDate.dayOfWeek v = Monday → v ≤ d → d - v ≤ 6 → v = w) ∧
      (w = d ↔ QDate.dayOfWeek d = Monday) ∧
      (∃ w', weekStartLoop 6 w = some w' ∧ weekStartLoop 6 w' = some w') ∧
      weekStartLoop 6 w = some w := by
  have hfuel : ∀ (e : Int) (fuel : Nat), 6 ≤ fuel → e % 7 ≤ fuel := fun e fuel h => by omega
  have hsteps : ∀ e : Int, (e % 7).toNat ≤ 6 ∧ ((e % 7).toNat : Int) = e - (e - e % 7) ∧
      e % 7 ≤ ((e % 7).toNat : Int) ∧
      ∀ fuel : Nat, fuel < (e % 7).toNat → (fuel : Int) < e % 7 :=
    fun e => ⟨by omega, by omega, by omega, fun fuel h => by omega⟩
  have hmonday : ∀ e : Int, (e - e % 7) % 7 + 1 = 1 := fun e => by omega
  have hle : ∀ e : Int, e - e % 7 ≤ e ∧ e - (e - e % 7) ≤ 6 := fun e => by omega
  have huniq : ∀ e v : Int, v % 7 + 1 = 1 → v ≤ e → e - v ≤ 6 → v = e - e % 7 :=
    fun e v h1 h2 h3 => by omega
  have hself : ∀ e : Int, e - e % 7 = e ↔ e % 7 + 1 = 1 := fun e => by omega
  have hidem : ∀ e : Int, (e - e % 7) % 7 ≤ ((6 : Nat) : Int) ∧
      e - e % 7 - (e - e % 7) % 7 = e - e % 7 := fun e => by omega
  have hagain : weekStartLoop 6 (d - d % 7) = some (d - d % 7) := by
    have h := weekStartLoop_eq 6 (d - d % 7) (hidem d).1
    rw [(hidem d).2] at h
    exact h
  refine ⟨d - d % 7, weekStartLoop_eq 6 d (hfuel d 6 (le_refl 6)), ?_, ?_, hmonday d,
    (hle d).1, (hle d).2, ?_, hself d, ⟨_, hagain, hagain⟩, hagain⟩
  · intro fuel h
    exact weekStartLoop_eq fuel d (hfuel d fuel h)
  · refine ⟨(d % 7).toNat, (hsteps d).1, (hsteps d).2.1, ?_, ?_⟩
    · exact weekStartLoop_eq _ d (hsteps d).2.2.1
    · intro fuel h
      exact weekStartLoop_eq_none fuel d ((hsteps d).2.2.2 fuel h)
  · intro v hv h1 h2
    exact huniq d v hv h1 h2

/-! ## One streak row per key -/

/-- The table after `getOrCreate`: the old one, or, when the lookup found no row, possibly the
old one with one zero row for the key appended, whose `goal_id` is NULL for the empty
string. -/
theorem getOrCreate_step (table : List StreakRow) (goalId scope uuid : String)
    (findExec insertExec findByIdExec : Bool) :
    (getOrCreate table goalId scope uuid findExec insertExec findByIdExec).1 = table ∨
      (findByGoalAndScope table goalId scope findExec = none ∧
        (getOrCreate table goalId scope uuid findExec insertExec findByIdExec).1 =
          table ++ [StreakRow.mk uuid (if goalId.isEmpty then none else some goalId) scope
            0 0 none none 0 0 0]) := by
  have hempty : ("" : String).isEmpty = true := by decide
  unfold getOrCreate
  cases hfind : findByGoalAndScope table goalId scope findExec with
  | some existing => simp
  | none =>
    cases insertExec
    · simp [create]
    · right
      simp [create, newGoalStreak, hempty]

/-- The table after `getOrCreateOverall`: the old one, or, when the lookup found no row,
possibly the old one with one zero overall row appended. -/
theorem getOrCreateOverall_step (table : List StreakRow) (scope uuid : String)
    (findOverallExec insertExec findByIdExec : Bool) :
    (getOrCreateOverall table scope uuid findOverallExec insertExec findByIdExec).1 = table ∨
      (findOverallByScope table scope findOverallExec = none ∧
        (getOrCreateOverall table scope uuid findOverallExec insertExec findByIdExec).1 =
          table ++ [StreakRow.mk uuid none scope 0 0 none none 0 0 0]) := by
  have hempty : ("" : String).isEmpty = true := by decide
  unfold getOrCreateOverall
  cases hfind : findOverallByScope table scope findOverallExec with
  | some existing => simp
  | none =>
    cases insertExec
    · simp [create]
    · right
      simp [create, newOverallStreak, hempty]

/-- A lookup by goal and scope whose query executes finds no row only if the table holds no
row of that key. -/
theorem findByGoalAndScope_eq_none (table : List StreakRow) (goalId scope : String)
    (h : findByGoalAndScope table goalId scope true = none) :
    (scope, some goalId) ∉ table.map StreakRow.key := by
  unfold findByGoalAndScope at h
  simp only [if_true, Option.map_eq_none', List.find?_eq_none] at h
  intro hmem
  obtain ⟨row, hrow, hkey⟩ := List.mem_map.mp hmem
  have := h row hrow
  simp only [StreakRow.key, Prod.mk.injEq] at hkey
  simp [hkey.1, hkey.2] at this

/-- A lookup of the overall row whose query executes finds no row only if the table holds no
overall row of that scope. -/
theorem findOverallByScope_eq_none (table : List StreakRow) (scope : String)
    (h : findOverallByScope table scope true = none) :
    (scope, none) ∉ table.map StreakRow.key := by
  unfold findOverallByScope at h
  simp only [if_true, Option.map_eq_none', List.find?_eq_none] at h
  intro hmem
  obtain ⟨row, hrow, hkey⟩ := List.mem_map.mp hmem
  have := h row hrow
  simp only [StreakRow.key, Prod.mk.injEq] at hkey
  simp [hkey.1, hkey.2] at this

/-- One repository call whose lookup executes and whose goal id is not the empty string
keeps the keys distinct and the old rows in place. -/
theorem run_keys_nodup (table : List StreakRow) (call : StreakRepoCall)
    (hkeys : (table.map StreakRow.key).Nodup)
    (hlookup : call.lookupExec = true) (hgoal : call.emptyGoalId = false) :
    ((call.run table).1.map StreakRow.key).Nodup ∧ table <+: (call.run table).1 := by
  cases call with
  | getOrCreate goalId scope uuid findExec insertExec findByIdExec =>
    simp only [StreakRepoCall.lookupExec] at hlookup
    simp only [StreakRepoCall.emptyGoalId] at hgoal
    subst hlookup
    simp only [StreakRepoCall.run]
    rcases getOrCreate_step table goalId scope uuid true insertExec findByIdExec with
      h | ⟨hnone, h⟩
    · rw [h]
      exact ⟨hkeys, List.prefix_refl _⟩
    · rw [h]
      refine ⟨?_, List.prefix_append _ _⟩
      have hnot := findByGoalAndScope_eq_none table goalId scope hnone
      rw [List.map_append, List.nodup_append]
      refine ⟨hkeys, by simp, ?_⟩
      intro key hkey hnew
      simp only [List.map_cons, List.map_nil, List.mem_singleton, StreakRow.key, hgoal,
        Bool.false_eq_true, if_false] at hnew
      rw [hnew] at hkey
      exact hnot hkey
  | getOrCreateOverall scope uuid findOverallExec insertExec findByIdExec =>
    simp only [StreakRepoCall.lookupExec] at hlookup
    subst hlookup
    simp only [StreakRepoCall.run]
    rcases getOrCreateOverall_step table scope uuid true insertExec findByIdExec with
      h | ⟨hnone, h⟩
    · rw [h]
      exact ⟨hkeys, List.prefix_refl _⟩
    · rw [h]
      refine ⟨?_, List.prefix_append _ _⟩
      have hnot := findOverallByScope_eq_none table scope hnone
      rw [List.map_append, List.nodup_append]
      refine ⟨hkeys, by simp, ?_⟩
      intro key hkey hnew
      simp only [List.map_cons, List.map_nil, List.mem_singleton, StreakRow.key] at hnew
      rw [hnew] at hkey
      exact hnot hkey

/-- A sequence of repository calls whose lookups execute and whose goal ids are not the empty
string keeps the keys distinct and the old rows in place. -/
theorem runRepoCalls_keys_nodup (calls : List StreakRepoCall) (table : List StreakRow)
    (hkeys : (table.map StreakRow.key).Nodup)
    (hcalls : ∀ call ∈ calls, call.lookupExec = true ∧ call.emptyGoalId = false) :
    ((runRepoCalls table calls).map StreakRow.key).Nodup ∧
      table <+: runRepoCalls table calls := by
  induction calls generalizing table with
  | nil => exact ⟨hkeys, List.prefix_refl _⟩
  | cons call rest ih =>
    have hcall := hcalls call (List.mem_cons_self _ _)
    obtain ⟨h1, hp1⟩ := run_keys_nodup table call hkeys hcall.1 hcall.2
    obtain ⟨h2, hp2⟩ := ih (call.run table).1 h1
      (fun c hc => hcalls c (List.mem_cons_of_mem _ hc))
    exact ⟨h2, hp1.trans hp2⟩

/-- A per-goal get-or-create whose goal id is not the empty string leaves the overall rows,
those with NULL `goal_id`, as they were. -/
theorem getOrCreate_overall_rows (table : List StreakRow) (goalId scope uuid : String)
    (findExec insertExec findByIdExec : Bool) (hgoal : goalId ≠ "") :
    (getOrCreate table goalId scope uuid findExec insertExec findByIdExec).1.filter
        (fun row => row.goalId = none) =
      table.filter (fun row => row.goalId = none) := by
  have hempty : goalId.isEmpty = false := by
    rw [Bool.eq_false_iff]
    exact fun h => hgoal ((String.isEmpty_iff goalId).mp h)
  rcases getOrCreate_step table goalId scope uuid findExec insertExec findByIdExec with
    h | ⟨-, h⟩
  · rw [h]
  · rw [h, hempty]
    simp

/-- The record that a per-goal get-or-create returns carries the goal id it was asked for,
when that id is not the empty string and the generated id is carried by no stored row. -/
theorem getOrCreate_goalId (table : List StreakRow) (goalId scope uuid : String)
    (findExec insertExec findByIdExec : Bool) (hgoal : goalId ≠ "")
    (hfresh : ∀ row ∈ table, row.id ≠ uuid) (streak : Streak)
    (h : (getOrCreate table goalId scope uuid findExec insertExec findByIdExec).2 =
      some streak) :
    streak.goalId = goalId := by
  have hempty : goalId.isEmpty = false := by
    rw [Bool.eq_false_iff]
    exact fun h => hgoal ((String.isEmpty_iff goalId).mp h)
  have hblank : ("" : String).isEmpty = true := by decide
  unfold getOrCreate at h
  cases hfind : findByGoalAndScope table goalId scope findExec with
  | some existing =>
    simp only [hfind, Option.some.injEq] at h
    subst h
    unfold findByGoalAndScope at hfind
    cases findExec
    · simp at hfind
    · simp only [if_true, Option.map_eq_some'] at hfind
      obtain ⟨row, hrow, rfl⟩ := hfind
      have := List.find?_some hrow
      simp only [decide_eq_true_eq] at this
      simp [mapFromRecord, this.1]
  | none =>
    have hold : table.find? (fun row => decide (row.id = uuid)) = none := by
      rw [List.find?_eq_none]
      intro row hrow
      simpa using hfresh row hrow
    simp only [hfind] at h
    cases insertExec
    · simp [create] at h
    · cases findByIdExec
      · simp [create, findById] at h
      · simp [create, newGoalStreak, findById, List.find?_append, hold, hblank, hempty,
          mapFromRecord] at h
        rw [← h]

/-- In a table with at most one row per key, a key that occurs has exactly one row. -/
theorem filter_key_length (table : List StreakRow) (key : String × Option String)
    (hkeys : (table.map StreakRow.key).Nodup) (hkey : key ∈ table.map StreakRow.key) :
    (table.filter fun row => decide (row.key = key)).length = 1 := by
  induction table with
  | nil => simp at hkey
  | cons row rest ih =>
    rw [List.map_cons, List.nodup_cons] at hkeys
    by_cases hrow : row.key = key
    · have hrest : rest.filter (fun r => decide (r.key = key)) = [] := by
        rw [List.filter_eq_nil_iff]
        intro r hr
        simp only [decide_eq_true_eq]
        intro hk
        exact hkeys.1 (List.mem_map.mpr ⟨r, hr, by rw [hk, hrow]⟩)
      simp [List.filter_cons, hrow, hrest]
    · have hmem : key ∈ rest.map StreakRow.key := by
        rw [List.map_cons, List.mem_cons] at hkey
        rcases hkey with h | h
        · exact absurd h.symm hrow
        · exact h
      simp [List.filter_cons, hrow, ih hkeys.2 hmem]

/-- Counterexample to claim C22 as stated.  On the empty table `getOrCreate("", "daily")`
inserts a row whose `goal_id` is NULL, an overall row, and returns it; and after
`getOrCreateOverall("daily")` the call `getOrCreate("", "daily")` inserts a second overall
row of the scope, so that two rows carry the same key. -/
theorem getOrCreate_empty_goalId_counterexample :
    getOrCreate [] "" "daily" "u1" true true true =
      ([sampleFreshRow], some (mapFromRecord sampleFreshRow)) ∧
    sampleFreshRow.goalId = none ∧ (mapFromRecord sampleFreshRow).goalId = "" ∧
    runRepoCalls []
        [StreakRepoCall.getOrCreateOverall "daily" "u1" true true true,
          StreakRepoCall.getOrCreate "" "daily" "u2" true true true] =
      [sampleFreshRow, { sampleFreshRow with id := "u2" }] ∧
    ¬(List.map StreakRow.key [sampleFreshRow, { sampleFreshRow with id := "u2" }]).Nodup := by
  have hblank : ("" : String).isEmpty = true := by decide
  refine ⟨?_, rfl, rfl, ?_, by decide⟩
  · simp [getOrCreate, findByGoalAndScope, create, newGoalStreak, findById, sampleFreshRow,
      hblank]
  · simp [runRepoCalls, StreakRepoCall.run, getOrCreateOverall, findOverallByScope,
      getOrCreate, findByGoalAndScope, create, newGoalStreak, newOverallStreak, findById,
      sampleFreshRow, hblank]

/-- Claim C22, amended.  Start from a streak table with at most one row per key
`(scope, goalId)`, the overall row of a scope being the one whose `goal_id` is NULL.  Every
sequence of `getOrCreate(goalId, scope)` calls with a goal id other than the empty string and
of `getOrCreateOverall(scope)` calls, each with a lookup query that executes, keeps at most
one row per key and leaves the rows already stored in place, so a key that has a row, the
overall row of a scope included, has exactly one row ever after.  A per-goal get-or-create
for a goal id other than the empty string never creates an overall row, and the record it
returns carries that goal id when the generated id is new to the table. -/
theorem getOrCreate_keys_unique (table : List StreakRow) (calls : List StreakRepoCall)
    (hkeys : (table.map StreakRow.key).Nodup)
    (hcalls : ∀ call ∈ calls, call.lookupExec = true ∧ call.emptyGoalId = false) :
    ((runRepoCalls table calls).map StreakRow.key).Nodup ∧
      table <+: runRepoCalls table calls ∧
      (∀ key ∈ table.map StreakRow.key,
        ((runRepoCalls table calls).filter fun row => row.key = key).length = 1) ∧
      (∀ scope, (scope, none) ∈ table.map StreakRow.key →
        ((runRepoCalls table calls).filter
          fun row => row.goalId = none ∧ row.scope = scope).length = 1) ∧
      ∀ (goalId scope uuid : String) (findExec insertExec findByIdExec : Bool),
        goalId ≠ "" →
        (getOrCreate table goalId scope uuid findExec insertExec findByIdExec).1.filter
            (fun row => row.goalId = none) =
          table.filter (fun row => row.goalId = none) ∧
        ((∀ row ∈ table, row.id ≠ uuid) → ∀ streak,
          (getOrCreate table goalId scope uuid findExec insertExec findByIdExec).2 =
            some streak →
          streak.goalId = goalId ∧ streak.goalId ≠ "") := by
  obtain ⟨hnodup, hprefix⟩ := runRepoCalls_keys_nodup calls table hkeys hcalls
  have hcount : ∀ key ∈ table.map StreakRow.key,
      ((runRepoCalls table calls).filter fun row => decide (row.key = key)).length = 1 := by
    intro key hkey
    obtain ⟨extra, hextra⟩ := hprefix
    apply filter_key_length _ key hnodup
    rw [← hextra, List.map_append]
    exact List.mem_append_left _ hkey
  refine ⟨hnodup, hprefix, hcount, ?_, ?_⟩
  · intro scope hscope
    rw [← hcount _ hscope]
    congr 1
    apply List.filter_congr
    intro row _
    simp [StreakRow.key, Prod.ext_iff, and_comm]
  · intro goalId scope uuid findExec insertExec findByIdExec hgoal
    refine ⟨getOrCreate_overall_rows table goalId scope uuid findExec insertExec findByIdExec
      hgoal, ?_⟩
    intro hfresh streak hstreak
    have h := getOrCreate_goalId table goalId scope uuid findExec insertExec findByIdExec
      hgoal hfresh streak hstreak
    exact ⟨h, by rw [h]; exact hgoal⟩

/-- Witness for claim C22, amended: from the table holding the overall daily row, a per-goal
get-or-create for `g1`, the overall get-or-create and the per-goal one again leave two rows,
the overall one and one for `g1`. -/
theorem getOrCreate_keys_unique_witness :
    (List.map StreakRow.key [sampleStreakRow]).Nodup ∧
    (∀ call ∈ sampleRepoCalls, call.lookupExec = true ∧ call.emptyGoalId = false) ∧
    runRepoCalls [sampleStreakRow] sampleRepoCalls = [sampleStreakRow, sampleGoalStreakRow] ∧
    ((runRepoCalls [sampleStreakRow] sampleRepoCalls).map StreakRow.key).Nodup ∧
    ((runRepoCalls [sampleStreakRow] sampleRepoCalls).filter
      fun row => row.goalId = none ∧ row.scope = "daily").length = 1 := by
  have hkeys : (List.map StreakRow.key [sampleStreakRow]).Nodup := by decide
  have hcalls : ∀ call ∈ sampleRepoCalls,
      call.lookupExec = true ∧ call.emptyGoalId = false := by decide
  have h := getOrCreate_keys_unique [sampleStreakRow] sampleRepoCalls hkeys hcalls
  have hblank : ("" : String).isEmpty = true := by decide
  have hg1 : ("g1" : String).isEmpty = false := by decide
  refine ⟨hkeys, hcalls, ?_, h.1, h.2.2.2.1 "daily" (by decide)⟩
  simp [runRepoCalls, sampleRepoCalls, StreakRepoCall.run, getOrCreateOverall,
    findOverallByScope, getOrCreate, findByGoalAndScope, create, newGoalStreak,
    newOverallStreak, findById, sampleStreakRow, sampleGoalStreakRow, hblank, hg1]

/-! ## The year and week number of a weekly aggregate -/

/-- Claim C23, evaluated at the turn of the year.  Monday 1 January 2024 (Julian day 2460311)
and Monday 30 December 2024 (Julian day 2460675) start two different ISO weeks, week 1 of
2024 and week 1 of 2025.  `recalculateWeekly` stores the ISO week number next to the calendar
year of the Monday, `weekStart.year()`, so after one recalculation for each date the table
holds two rows of different `weekStart` that both carry `(year, weekNumber) = (2024, 1)`. -/
theorem recalculateWeekly_year_boundary :
    julianFromParts 2024 1 1 = 2460311 ∧ julianFromParts 2024 12 30 = 2460675 ∧
    QDate.dayOfWeek 2460311 = Monday ∧ QDate.dayOfWeek 2460675 = Monday ∧
    QDate.weekYear 2460311 = 2024 ∧ QDate.weekYear 2460675 = 2025 ∧
    ∃ w1 w2, recalculateWeekly qtCalendar {} 2460311 [] [] true = some w1 ∧
      recalculateWeekly qtCalendar w1 2460675 [] [] true = some w2 ∧
      (w2.weeklyScores.map fun score => (score.weekStart, score.year, score.weekNumber)) =
        [(2460311, 2024, 1), (2460675, 2024, 1)] := by
  obtain ⟨c, hc⟩ : ∃ c, calculateFromOccurrences [] [] = some c :=
    ⟨_, calculateFromOccurrences_eq [] []⟩
  have hstart1 : calculateWeekStart 2460311 = 2460311 := by decide
  have hstart2 : calculateWeekStart 2460675 = 2460675 := by decide
  have hyear1 : QDate.year 2460311 = 2024 := by decide
  have hyear2 : QDate.year 2460675 = 2024 := by decide
  have hweek1 : QDate.weekNumber 2460311 = 1 := by decide
  have hweek2 : QDate.weekNumber 2460675 = 1 := by decide
  refine ⟨by decide, by decide, by decide, by decide, by decide, by decide, _, _,
    recalculateWeekly_eq qtCalendar _ 2460311 [] [] true c hc,
    recalculateWeekly_eq qtCalendar _ 2460675 [] [] true c hc, ?_⟩
  simp [upsertWeeklyScore, weeklyScoreOf, qtCalendar, hstart1, hstart2, hyear1, hyear2,
    hweek1, hweek2]

/-! ## The streak queries -/

/-- What `getOrCreateOverall` does, by the outcome of its lookup: a record that is found is
returned and the table is left alone; otherwise one zero overall row is inserted, if the
INSERT is accepted. -/
theorem getOrCreateOverall_cases (table : List StreakRow) (scope uuid : String)
    (findOverallExec insertExec findByIdExec : Bool) :
    (∀ existing, findOverallByScope table scope findOverallExec = some existing →
      getOrCreateOverall table scope uuid findOverallExec insertExec findByIdExec =
        (table, some existing)) ∧
    (findOverallByScope table scope findOverallExec = none →
      (getOrCreateOverall table scope uuid findOverallExec insertExec findByIdExec).1 =
        if insertExec then table ++ [StreakRow.mk uuid none scope 0 0 none none 0 0 0]
        else table) := by
  have hblank : ("" : String).isEmpty = true := by decide
  constructor
  · intro existing h
    simp [getOrCreateOverall, h]
  · intro h
    cases insertExec <;> simp [getOrCreateOverall, h, create, newOverallStreak, hblank]

/-- What `getOrCreate` does, by the outcome of its lookup: a record that is found is returned
and the table is left alone; otherwise one zero row is inserted, if the INSERT is
accepted. -/
theorem getOrCreate_cases (table : List StreakRow) (goalId scope uuid : String)
    (findExec insertExec findByIdExec : Bool) :
    (∀ existing, findByGoalAndScope table goalId scope findExec = some existing →
      getOrCreate table goalId scope uuid findExec insertExec findByIdExec =
        (table, some existing)) ∧
    (findByGoalAndScope table goalId scope findExec = none →
      (getOrCreate table goalId scope uuid findExec insertExec findByIdExec).1 =
        if insertExec then
          table ++ [StreakRow.mk uuid (if goalId.isEmpty then none else some goalId) scope
            0 0 none none 0 0 0]
        else table) := by
  have hblank : ("" : String).isEmpty = true := by decide
  constructor
  · intro existing h
    simp [getOrCreate, h]
  · intro h
    cases insertExec <;> simp [getOrCreate, h, create, newGoalStreak, hblank]

/-- Counterexample to claim C24 as stated.  On the empty streak table the query
`getDailyStreak` inserts the overall daily row and `getGoalStreak("g1", "daily")` inserts a
row for the goal: both leave a table that is not the one they found. -/
theorem getDailyStreak_counterexample :
    getDailyStreak [] "u1" true true true =
      ([sampleFreshRow], some (mapFromRecord sampleFreshRow)) ∧
    (getDailyStreak [] "u1" true true true).1 ≠ [] ∧
    getGoalStreak [] "g1" "daily" "u1" true true true =
      ([sampleGoalStreakRow], some (mapFromRecord sampleGoalStreakRow)) ∧
    (getGoalStreak [] "g1" "daily" "u1" true true true).1 ≠ [] := by
  have hblank : ("" : String).isEmpty = true := by decide
  have hg1 : ("g1" : String).isEmpty = false := by decide
  have h1 : getDailyStreak [] "u1" true true true =
      ([sampleFreshRow], some (mapFromRecord sampleFreshRow)) := by
    simp [getDailyStreak, getOrCreateOverall, findOverallByScope, create, newOverallStreak,
      findById, sampleFreshRow, hblank]
  have h2 : getGoalStreak [] "g1" "daily" "u1" true true true =
      ([sampleGoalStreakRow], some (mapFromRecord sampleGoalStreakRow)) := by
    simp [getGoalStreak, getOrCreate, findByGoalAndScope, create, newGoalStreak, findById,
      sampleGoalStreakRow, hblank, hg1]
  refine ⟨h1, ?_, h2, ?_⟩
  · rw [h1]
    simp
  · rw [h2]
    simp

/-- Claim C24, amended.  A streak row comes into existence through get-or-create, which the
streak queries perform as the streak update does.  Each of `getDailyStreak`,
`getWeeklyStreak`, `getMonthlyStreak` and `getYearlyStreak` leaves the streak table unchanged
and returns the stored record when its lookup finds the overall row of its scope; when the
lookup finds none it inserts one overall row of that scope with all counters zero, provided
the INSERT is accepted.  `getGoalStreak(goalId, scope)` does the same for the row of the
goal.  In every case the rows already stored stay as they are, in place. -/
theorem streak_queries_get_or_create (table : List StreakRow) (uuid : String)
    (findExec insertExec findByIdExec : Bool) :
    (∀ query ∈ [(getDailyStreak, "daily"), (getWeeklyStreak, "weekly"),
        (getMonthlyStreak, "monthly"), (getYearlyStreak, "yearly")],
      (∀ existing, findOverallByScope table query.2 findExec = some existing →
        query.1 table uuid findExec insertExec findByIdExec = (table, some existing)) ∧
      (findOverallByScope table query.2 findExec = none →
        (query.1 table uuid findExec insertExec findByIdExec).1 =
          if insertExec then table ++ [StreakRow.mk uuid none query.2 0 0 none none 0 0 0]
          else table) ∧
      table <+: (query.1 table uuid findExec insertExec findByIdExec).1) ∧
    ∀ goalId scope : String,
      (∀ existing, findByGoalAndScope table goalId scope findExec = some existing →
        getGoalStreak table goalId scope uuid findExec insertExec findByIdExec =
          (table, some existing)) ∧
      (findByGoalAndScope table goalId scope findExec = none →
        (getGoalStreak table goalId scope uuid findExec insertExec findByIdExec).1 =
          if insertExec then
            table ++ [StreakRow.mk uuid (if goalId.isEmpty then none else some goalId) scope
              0 0 none none 0 0 0]
          else table) ∧
      table <+: (getGoalStreak table goalId scope uuid findExec insertExec findByIdExec).1 := by
  have hoverall : ∀ scope : String,
      table <+: (getOrCreateOverall table scope uuid findExec insertExec findByIdExec).1 := by
    intro scope
    rcases getOrCreateOverall_step table scope uuid findExec insertExec findByIdExec with
      h | ⟨-, h⟩
    · rw [h]
    · rw [h]
      exact List.prefix_append _ _
  constructor
  · intro query hquery
    simp only [List.mem_cons, List.mem_singleton, List.not_mem_nil, or_false] at hquery
    rcases hquery with rfl | rfl | rfl | rfl
    · exact ⟨(getOrCreateOverall_cases table "daily" uuid findExec insertExec findByIdExec).1,
        (getOrCreateOverall_cases table "daily" uuid findExec insertExec findByIdExec).2,
        hoverall "daily"⟩
    · exact ⟨(getOrCreateOverall_cases table "weekly" uuid findExec insertExec findByIdExec).1,
        (getOrCreateOverall_cases table "weekly" uuid findExec insertExec findByIdExec).2,
        hoverall "weekly"⟩
    · exact ⟨(getOrCreateOverall_cases table "monthly" uuid findExec insertExec
          findByIdExec).1,
        (getOrCreateOverall_cases table "monthly" uuid findExec insertExec findByIdExec).2,
        hoverall "monthly"⟩
    · exact ⟨(getOrCreateOverall_cases table "yearly" uuid findExec insertExec findByIdExec).1,
        (getOrCreateOverall_cases table "yearly" uuid findExec insertExec findByIdExec).2,
        hoverall "yearly"⟩
  · intro goalId scope
    refine ⟨(getOrCreate_cases table goalId scope uuid findExec insertExec findByIdExec).1,
      (getOrCreate_cases table goalId scope uuid findExec insertExec findByIdExec).2, ?_⟩
    rcases getOrCreate_step table goalId scope uuid findExec insertExec findByIdExec with
      h | ⟨-, h⟩
    · unfold getGoalStreak
      rw [h]
    · unfold getGoalStreak
      rw [h]
      exact List.prefix_append _ _

/-- Witness for claim C24, amended: on the table that holds the overall daily row,
`getDailyStreak` returns that row and leaves the table as it is. -/
theorem streak_queries_get_or_create_witness :
    findOverallByScope [sampleStreakRow] "daily" true = some (mapFromRecord sampleStreakRow) ∧
    getDailyStreak [sampleStreakRow] "u1" true true true =
      ([sampleStreakRow], some (mapFromRecord sampleStreakRow)) := by
  have hfind : findOverallByScope [sampleStreakRow] "daily" true =
      some (mapFromRecord sampleStreakRow) := by
    simp [findOverallByScope, sampleStreakRow]
  exact ⟨hfind, ((streak_queries_get_or_create [sampleStreakRow] "u1" true true true).1
    (getDailyStreak, "daily") (by simp)).1 _ hfind⟩

/-! ## Setting the status of an occurrence -/

/-- Claim C25.  For every store, occurrence id and status string, `setStatus` returns true if
and only if the status is one of `pending`, `completed`, `skipped`, `not_completed` and the
store's `updateStatus` succeeds.  For any other status it returns false, logs
`VALIDATION_FAILED` and neither calls nor changes the store.  For a valid status it calls
`updateStatus` exactly once, with the id and the status it was given, and logs
`UPDATE_FAILED` when that fails.  Nothing else enters the decision, the occurrence's current
status least of all: on a store whose `updateStatus` succeeds, any valid status can be set
after any other.  `markCompleted`, `markSkipped` and `markNotCompleted` are `setStatus` with
the corresponding constant. -/
theorem setStatus_accepts {σ : Type} (updateStatus : σ → String → String → σ × Bool)
    (w : OccurrenceServiceState σ) (occurrenceId status : String) :
    ((setStatus updateStatus w occurrenceId status).2 = true ↔
      status ∈ ["pending", "completed", "skipped", "not_completed"] ∧
        (updateStatus w.store occurrenceId status).2 = true) ∧
    (status ∉ ["pending", "completed", "skipped", "not_completed"] →
      setStatus updateStatus w occurrenceId status =
        ({ w with errors := w.errors ++ ["VALIDATION_FAILED"] }, false)) ∧
    (status ∈ ["pending", "completed", "skipped", "not_completed"] →
      (setStatus updateStatus w occurrenceId status).1.store =
        (updateStatus w.store occurrenceId status).1 ∧
      (setStatus updateStatus w occurrenceId status).1.updateStatusCalls =
        w.updateStatusCalls ++ [(occurrenceId, status)] ∧
      (setStatus updateStatus w occurrenceId status).1.errors =
        (if (updateStatus w.store occurrenceId status).2 then w.errors
          else w.errors ++ ["UPDATE_FAILED"])) ∧
    ((∀ store id next, (updateStatus store id next).2 = true) →
      ∀ first ∈ ["pending", "completed", "skipped", "not_completed"],
      ∀ second ∈ ["pending", "completed", "skipped", "not_completed"],
        (setStatus updateStatus w occurrenceId first).2 = true ∧
        (setStatus updateStatus (setStatus updateStatus w occurrenceId first).1 occurrenceId
          second).2 = true) ∧
    markCompleted updateStatus w occurrenceId =
      setStatus updateStatus w occurrenceId "completed" ∧
    markSkipped updateStatus w occurrenceId = setStatus updateStatus w occurrenceId "skipped" ∧
    markNotCompleted updateStatus w occurrenceId =
      setStatus updateStatus w occurrenceId "not_completed" := by
  have hiff : ∀ (v : OccurrenceServiceState σ) (next : String),
      ((setStatus updateStatus v occurrenceId next).2 = true ↔
        next ∈ ["pending", "completed", "skipped", "not_completed"] ∧
          (updateStatus v.store occurrenceId next).2 = true) := by
    intro v next
    unfold setStatus
    by_cases hvalid : next ∈ ["pending", "completed", "skipped", "not_completed"]
    · have hc : ["pending", "completed", "skipped", "not_completed"].contains next = true := by
        simpa using hvalid
      simp only [hc, Bool.not_true, Bool.false_eq_true, if_false]
      cases hs : (updateStatus v.store occurrenceId next).2 <;> simp [hvalid]
    · have hc : ["pending", "completed", "skipped", "not_completed"].contains next = false := by
        simpa using hvalid
      simp only [hc, Bool.not_false, if_true]
      simp [hvalid]
  refine ⟨hiff w status, ?_, ?_, ?_, rfl, rfl, rfl⟩
  · intro hvalid
    have hc : ["pending", "completed", "skipped", "not_completed"].contains status = false := by
      simpa using hvalid
    unfold setStatus
    simp only [hc, Bool.not_false, if_true]
  · intro hvalid
    have hc : ["pending", "completed", "skipped", "not_completed"].contains status = true := by
      simpa using hvalid
    unfold setStatus
    simp only [hc, Bool.not_true, Bool.false_eq_true, if_false]
    cases hs : (updateStatus w.store occurrenceId status).2 <;> simp
  · intro hstore first hfirst second hsecond
    exact ⟨(hiff w first).mpr ⟨hfirst, hstore _ _ _⟩,
      (hiff _ second).mpr ⟨hsecond, hstore _ _ _⟩⟩

/-- Witness for claim C25 on the sample store, where occurrence `o1` is already completed:
setting it to `pending` is accepted and reaches the store, setting it to `done` is rejected
without a call to the store. -/
theorem setStatus_accepts_witness :
    (setStatus sampleUpdateStatus sampleOccurrenceState "o1" "pending").2 = true ∧
    (setStatus sampleUpdateStatus sampleOccurrenceState "o1" "pending").1.store =
      [("o1", "pending")] ∧
    setStatus sampleUpdateStatus sampleOccurrenceState "o1" "done" =
      ({ sampleOccurrenceState with errors := ["VALIDATION_FAILED"] }, false) := by
  have h1 := setStatus_accepts sampleUpdateStatus sampleOccurrenceState "o1" "pending"
  have h2 := setStatus_accepts sampleUpdateStatus sampleOccurrenceState "o1" "done"
  refine ⟨h1.1.mpr ⟨by decide, by decide⟩, ?_, ?_⟩
  · rw [(h1.2.2.1 (by decide)).1]
    decide
  · rw [h2.2.1 (by decide)]
    rfl

/-! ## A day without a positive target -/

/-- Without a goal of positive points the target is zero. -/
theorem sumPositivePoints_eq_zero (goals : List Goal)
    (hgoals : ∀ goal ∈ goals, goal.points ≤ 0) :
    sumPositivePoints goals = 0 := by
  have hfilter : (goals.filter fun goal => decide (goal.points > 0)) = [] := by
    rw [List.filter_eq_nil_iff]
    intro goal hgoal
    have := hgoals goal hgoal
    simp only [gt_iff_lt, decide_eq_true_eq, not_lt]
    exact this
  unfold sumPositivePoints
  rw [hfilter]
  rfl

/-- Claim C26.  When the daily goal list holds no goal of positive points (the empty list
included), the aggregate has `targetScore = 0` and `completionPercentage = 0` whatever the
occurrences are; `recalculateDaily` persists it, and the `updateStreaksForDate` that follows
and obtains a streak record breaks the streak: `currentStreak = 0`, `lastBreakDate = date`,
`totalFailures` raised by 1, and `streakBroken` emitted.  This also holds when every
occurrence is completed, where the persisted aggregate has `perfectDay = true`. -/
theorem updateStreaksForDate_no_positive_goal (w : World) (date : QDate)
    (occurrences : List Occurrence) (goals : List Goal) (db : DbOutcome)
    (hgoals : ∀ goal ∈ goals, goal.points ≤ 0)
    (hread : db.getDailyScoreExec = true) :
    ∃ c w1, calculateFromOccurrences occurrences goals = some c ∧
      c.targetScore = 0 ∧ c.completionPercentage = 0 ∧
      recalculateDaily w date occurrences goals true = some w1 ∧
      getDailyScore w1.dailyScores date db.getDailyScoreExec = some (dailyScoreOf date c) ∧
      ((occurrences ≠ [] ∧ ∀ occurrence ∈ occurrences, occurrence.status = "completed") →
        (dailyScoreOf date c).perfectDay = true) ∧
      ∀ table streak,
        getOrCreateOverall w1.streaks "daily" db.uuid db.findOverallExec db.insertExec
          db.findByIdExec = (table, some streak) →
        ∃ w2 updated, updateStreaksForDate w1 date db = some w2 ∧
          w2.calls = w1.calls ++ [RepoCall.getDailyScore date,
            RepoCall.getOrCreateOverall "daily", RepoCall.update updated] ∧
          w2.streaks = (update table updated db.updateExec).1 ∧
          w2.events = w1.events ++ [Event.streakBroken "daily" date] ++
            (if db.updateExec then [Event.streakUpdated updated.id] else []) ∧
          updated.currentStreak = 0 ∧ updated.lastBreakDate = some date ∧
          updated.totalFailures = streak.totalFailures + 1 ∧
          updated.totalSuccesses = streak.totalSuccesses ∧
          updated.longestStreak = streak.longestStreak := by
  have hzero := sumPositivePoints_eq_zero goals hgoals
  obtain ⟨c, hc⟩ : ∃ c, calculateFromOccurrences occurrences goals = some c :=
    ⟨_, calculateFromOccurrences_eq occurrences goals⟩
  have hfields : c.targetScore = 0 ∧ c.completionPercentage = 0 ∧
      c.completedCount = countStatus "completed" occurrences ∧
      c.totalCount = occurrences.length := by
    have h := calculateFromOccurrences_eq occurrences goals
    have hwrap : wrapInt32 0 = 0 := by decide
    rw [hc, Option.some.injEq] at h
    rw [h]
    simp [hzero, hwrap]
  have h1 := recalculateDaily_eq w date occurrences goals true c hc
  have hget : getDailyScore (upsertDailyScore w.dailyScores (dailyScoreOf date c) true).1 date
      db.getDailyScoreExec = some (dailyScoreOf date c) := by
    rw [hread]
    exact getDailyScore_upsertDailyScore w.dailyScores (dailyScoreOf date c)
  refine ⟨c, _, hc, hfields.1, hfields.2.1, h1, hget, ?_, ?_⟩
  · rintro ⟨hne, hall⟩
    have hcount : countStatus "completed" occurrences = occurrences.length := by
      unfold countStatus
      rw [List.countP_eq_length]
      intro occurrence hmem
      simpa using hall occurrence hmem
    have hpos : 0 < occurrences.length := List.length_pos.mpr hne
    simp only [dailyScoreOf, hfields.2.2.1, hfields.2.2.2, hcount, beq_self_eq_true,
      Bool.true_and, decide_eq_true_eq, gt_iff_lt]
    exact_mod_cast hpos
  · intro table streak hstreak
    have hbreak : (dailyScoreOf date c).completionPercentage < 80 ∨
        (dailyScoreOf date c).hasNegativeOutcome = true := by
      left
      simp only [dailyScoreOf, hfields.2.1]
      norm_num
    have happly := applyDailyScore_break streak date (dailyScoreOf date c) hbreak
    have h2 := updateStreaksForDate_eq _ date db (dailyScoreOf date c) table streak _ _ hget
      hstreak happly
    exact ⟨_, _, h2, rfl, rfl, by simp, rfl, rfl, rfl, rfl, rfl⟩

/-- Witness for claim C26: with no goal at all and one completed occurrence, the persisted
aggregate is a perfect day of completion 0, and the streak update that follows breaks the
freshly created streak. -/
theorem updateStreaksForDate_no_positive_goal_witness :
    (∀ goal ∈ ([] : List Goal), goal.points ≤ 0) ∧ sampleDb.getDailyScoreExec = true ∧
      ∃ c w1 w2 updated,
        calculateFromOccurrences [sampleOccurrence "completed" 10] [] = some c ∧
        recalculateDaily {} 10 [sampleOccurrence "completed" 10] [] true = some w1 ∧
        updateStreaksForDate w1 10 sampleDb = some w2 ∧
        w2.calls = w1.calls ++ [RepoCall.getDailyScore 10,
          RepoCall.getOrCreateOverall "daily", RepoCall.update updated] ∧
        c.completionPercentage = 0 ∧ (dailyScoreOf 10 c).perfectDay = true ∧
        updated.currentStreak = 0 ∧
        updated.totalFailures = (mapFromRecord sampleFreshRow).totalFailures + 1 := by
  have hgoals : ∀ goal ∈ ([] : List Goal), goal.points ≤ 0 := by simp
  refine ⟨hgoals, rfl, ?_⟩
  obtain ⟨c, w1, hc, -, hpct, h1, -, hperfect, hall⟩ :=
    updateStreaksForDate_no_positive_goal {} 10 [sampleOccurrence "completed" 10] [] sampleDb
      hgoals rfl
  have hstreaks : w1.streaks = [] := by
    have h1' := recalculateDaily_eq {} 10 [sampleOccurrence "completed" 10] [] true c hc
    rw [h1] at h1'
    rw [Option.some.inj h1']
  have hstreak : getOrCreateOverall w1.streaks "daily" sampleDb.uuid sampleDb.findOverallExec
      sampleDb.insertExec sampleDb.findByIdExec =
      ([sampleFreshRow], some (mapFromRecord sampleFreshRow)) := by
    have hempty : ("" : String).isEmpty = true := by decide
    rw [hstreaks]
    simp [getOrCreateOverall, findOverallByScope, create, newOverallStreak, findById,
      sampleDb, sampleFreshRow, hempty]
  obtain ⟨w2, updated, h2, hcalls, -, -, hcur, -, hfail, -, -⟩ := hall _ _ hstreak
  exact ⟨c, w1, w2, updated, hc, h1, h2, hcalls, hpct,
    hperfect ⟨by simp, by simp [sampleOccurrence]⟩, hcur, hfail⟩

/-! ## One count per streak update -/

/-- Claim C28.  `calculateFromOccurrences` does not depend on the order of its inputs: for
every permutation of the occurrence list and every permutation of the goal list it returns
the same result, field by field (`earnedScore`, `targetScore`, `completionPercentage`, the
four status counters, `totalCount` and `hasNegativeOutcome`). -/
theorem calculateFromOccurrences_perm (occurrences occurrences' : List Occurrence)
    (goals goals' : List Goal) (hoccurrences : occurrences.Perm occurrences')
    (hgoals : goals.Perm goals') :
    calculateFromOccurrences occurrences goals =
      calculateFromOccurrences occurrences' goals' ∧
    ∃ c, calculateFromOccurrences occurrences' goals' = some c := by
  have hearned : sumScoreImpact occurrences = sumScoreImpact occurrences' := by
    unfold sumScoreImpact
    exact (hoccurrences.map _).sum_eq
  have htarget : sumPositivePoints goals = sumPositivePoints goals' := by
    unfold sumPositivePoints
    exact ((hgoals.filter _).map _).sum_eq
  have hcount : ∀ status, countStatus status occurrences = countStatus status occurrences' := by
    intro status
    unfold countStatus
    exact hoccurrences.countP_eq _
  have hneg : anyNegativeOutcome occurrences = anyNegativeOutcome occurrences' := by
    unfold anyNegativeOutcome
    rw [Bool.eq_iff_iff, List.any_eq_true, List.any_eq_true]
    constructor
    · rintro ⟨o, ho, h⟩
      exact ⟨o, hoccurrences.mem_iff.mp ho, h⟩
    · rintro ⟨o, ho, h⟩
      exact ⟨o, hoccurrences.mem_iff.mpr ho, h⟩
  refine ⟨?_, _, calculateFromOccurrences_eq occurrences' goals'⟩
  rw [calculateFromOccurrences_eq, calculateFromOccurrences_eq, hearned, htarget, hneg,
    hcount "completed", hcount "skipped", hcount "not_completed", hcount "pending",
    hoccurrences.length_eq]

/-- Witness for claim C28 on Scenario A: the three occurrences in reverse order give the same
aggregate. -/
theorem calculateFromOccurrences_perm_witness :
    scenarioAOccurrences.Perm scenarioAOccurrences.reverse ∧
    scenarioAOccurrences.reverse ≠ scenarioAOccurrences ∧
    calculateFromOccurrences scenarioAOccurrences scenarioAGoals =
      calculateFromOccurrences scenarioAOccurrences.reverse scenarioAGoals :=
  ⟨(List.reverse_perm _).symm, by decide,
    (calculateFromOccurrences_perm scenarioAOccurrences scenarioAOccurrences.reverse
      scenarioAGoals scenarioAGoals (List.reverse_perm _).symm (List.Perm.refl _)).1⟩

/-- Every occurrence is counted once: under one of the four statuses or under none. -/
theorem countStatus_add (occurrences : List Occurrence) :
    countStatus "completed" occurrences + countStatus "skipped" occurrences +
        countStatus "not_completed" occurrences + countStatus "pending" occurrences +
        occurrences.countP (fun occurrence =>
          decide (occurrence.status ∉ ["completed", "skipped", "not_completed", "pending"])) =
      occurrences.length := by
  induction occurrences with
  | nil => simp [countStatus]
  | cons o rest ih =>
    unfold countStatus at ih ⊢
    simp only [List.countP_cons, List.length_cons]
    simp only [List.mem_cons, List.mem_singleton, List.not_mem_nil, or_false, not_or,
      Bool.decide_and, decide_not] at ih ⊢
    by_cases h1 : o.status = "completed"
    · simp [h1]
      omega
    · by_cases h2 : o.status = "skipped"
      · simp [h2]
        omega
      · by_cases h3 : o.status = "not_completed"
        · simp [h3]
          omega
        · by_cases h4 : o.status = "pending"
          · simp [h4]
            omega
          · simp [h1, h2, h3, h4]
            omega

/-- Claim C29.  For every occurrence list the aggregate has
`completedCount + skippedCount + notCompletedCount + pendingCount ≤ totalCount`, with equality
if and only if the status of every occurrence is one of `completed`, `skipped`,
`not_completed`, `pending`.  An occurrence with any other status string adds 1 to
`totalCount` and its `scoreImpact` to `earnedScore` (an addition of `int`, which is the sum
itself whenever that is a value of `int`), and leaves the four status counters,
`targetScore` and `hasNegativeOutcome` as they are without it. -/
theorem calculateFromOccurrences_counter_sum (occurrences : List Occurrence)
    (goals : List Goal) :
    ∃ c, calculateFromOccurrences occurrences goals = some c ∧
      c.completedCount + c.skippedCount + c.notCompletedCount + c.pendingCount ≤
        c.totalCount ∧
      (c.completedCount + c.skippedCount + c.notCompletedCount + c.pendingCount =
          c.totalCount ↔
        ∀ occurrence ∈ occurrences,
          occurrence.status ∈ ["completed", "skipped", "not_completed", "pending"]) ∧
      ∀ (before after : List Occurrence) (other : Occurrence),
        occurrences = before ++ other :: after →
        other.status ∉ ["completed", "skipped", "not_completed", "pending"] →
        ∃ c', calculateFromOccurrences (before ++ after) goals = some c' ∧
          c.totalCount = c'.totalCount + 1 ∧
          c.earnedScore = wrapInt32 (c'.earnedScore + other.scoreImpact) ∧
          (IsInt32 (c'.earnedScore + other.scoreImpact) →
            c.earnedScore = c'.earnedScore + other.scoreImpact) ∧
          c.completedCount = c'.completedCount ∧ c.skippedCount = c'.skippedCount ∧
          c.notCompletedCount = c'.notCompletedCount ∧ c.pendingCount = c'.pendingCount ∧
          c.targetScore = c'.targetScore ∧ c.hasNegativeOutcome = c'.hasNegativeOutcome := by
  have hadd := countStatus_add occurrences
  refine ⟨_, calculateFromOccurrences_eq occurrences goals, ?_, ?_, ?_⟩
  · simp only
    omega
  · simp only
    constructor
    · intro hsum
      have hzero : occurrences.countP (fun occurrence =>
          decide (occurrence.status ∉ ["completed", "skipped", "not_completed", "pending"])) =
          0 := by omega
      rw [List.countP_eq_zero] at hzero
      intro occurrence hmem
      have := hzero occurrence hmem
      simp only [decide_eq_true_eq, not_not] at this
      exact this
    · intro hall
      have hzero : occurrences.countP (fun occurrence =>
          decide (occurrence.status ∉ ["completed", "skipped", "not_completed", "pending"])) =
          0 := by
        rw [List.countP_eq_zero]
        intro occurrence hmem
        simp only [decide_eq_true_eq, not_not]
        exact hall occurrence hmem
      omega
  · intro before after other hsplit hother
    refine ⟨_, calculateFromOccurrences_eq (before ++ after) goals, ?_⟩
    have hne : other.status ≠ "completed" ∧ other.status ≠ "skipped" ∧
        other.status ≠ "not_completed" ∧ other.status ≠ "pending" := by
      simpa using hother
    subst hsplit
    simp only [countStatus, sumScoreImpact, anyNegativeOutcome, List.countP_append,
      List.countP_cons, List.length_append, List.length_cons, List.map_append, List.map_cons,
      List.sum_append, List.sum_cons, List.any_append, List.any_cons, hne.1, hne.2.1,
      hne.2.2.1, hne.2.2.2, decide_False, Bool.false_eq_true, if_false, false_and,
      Bool.false_or, add_zero]
    have hsum : wrapInt32 ((before.map Occurrence.scoreImpact).sum + (other.scoreImpact +
        (after.map Occurrence.scoreImpact).sum)) =
        wrapInt32 (wrapInt32 ((before.map Occurrence.scoreImpact).sum +
          (after.map Occurrence.scoreImpact).sum) + other.scoreImpact) := by
      rw [wrapInt32_add]
      congr 1
      ring
    refine ⟨by push_cast; ring, hsum, ?_, trivial, trivial, trivial, trivial, trivial,
      trivial⟩
    intro hfit
    rw [hsum]
    exact wrapInt32_of_isInt32 _ hfit

/-- Witness for claim C29: of a completed occurrence (+10) and one whose status is `done`
(+5), both are in `totalCount = 2` and in `earnedScore = 15`, and only the first is in a
status counter. -/
theorem calculateFromOccurrences_counter_sum_witness :
    ∃ c, calculateFromOccurrences
        [sampleOccurrence "completed" 10, sampleOccurrence "done" 5] [] = some c ∧
      c.totalCount = 2 ∧ c.earnedScore = 15 ∧ c.completedCount = 1 ∧
      c.completedCount + c.skippedCount + c.notCompletedCount + c.pendingCount <
        c.totalCount := by
  obtain ⟨c, hc, hle, hiff, hother⟩ := calculateFromOccurrences_counter_sum
    [sampleOccurrence "completed" 10, sampleOccurrence "done" 5] []
  obtain ⟨c', hc', htotal, -, hearned, hcompleted, -⟩ :=
    hother [sampleOccurrence "completed" 10] [] (sampleOccurrence "done" 5) rfl (by decide)
  have h := calculateFromOccurrences_eq ([sampleOccurrence "completed" 10] ++ []) []
  rw [hc', Option.some.injEq] at h
  have htotal' : c'.totalCount = 1 := by rw [h]; rfl
  have hearned' : c'.earnedScore = 10 := by rw [h]; decide
  have hcompleted' : c'.completedCount = 1 := by rw [h]; decide
  have hne : ¬(c.completedCount + c.skippedCount + c.notCompletedCount + c.pendingCount =
      c.totalCount) := by
    rw [hiff]
    intro hall
    exact absurd (hall (sampleOccurrence "done" 5) (by simp)) (by decide)
  have hearned := hearned (by rw [hearned']; decide)
  refine ⟨c, hc, by rw [htotal, htotal']; rfl, by rw [hearned, hearned']; rfl,
    by rw [hcompleted, hcompleted'], lt_of_le_of_ne hle hne⟩

/-! ## Validation of a goal -/

/-- With the anchor `^` in front, a pattern can only match at offset 0. -/
theorem hasMatch_caret (items : List PatternItem) (subject : String) :
    hasMatch (PatternItem.caret :: items) subject = matchItems items 0 subject.toList := by
  unfold hasMatch
  rw [Bool.eq_iff_iff, List.any_eq_true]
  constructor
  · rintro ⟨offset, -, h⟩
    simp only [matchItems, Bool.and_eq_true, beq_iff_eq] at h
    obtain ⟨rfl, h⟩ := h
    simpa using h
  · intro h
    exact ⟨0, by simp, by simpa [matchItems] using h⟩

/-- The subjects in which the pattern of `validateGoal` has a match: `#` and six hexadecimal
digits, or that followed by one line feed. -/
theorem hasMatch_colorRegex (subject : String) :
    hasMatch colorRegex subject =
      (isHashAndSixHexDigits subject ||
        (subject.toList.getLast? == some '\n' &&
          hashAndSixHexDigits subject.toList.dropLast)) := by
  have hpattern : colorRegex = PatternItem.caret :: (PatternItem.literal '#' ::
      (List.replicate 6 (PatternItem.charClass [('0', '9'), ('A', 'F'), ('a', 'f')]) ++
        [PatternItem.dollar])) := rfl
  have hclass : ∀ x : Char,
      ([('0', '9'), ('A', 'F'), ('a', 'f')].any fun range : Char × Char =>
        decide (range.1.toNat ≤ x.toNat) && decide (x.toNat ≤ range.2.toNat)) =
      isHexDigit x := by
    intro x
    simp [isHexDigit, Bool.or_assoc]
  rw [hpattern, hasMatch_caret]
  unfold isHashAndSixHexDigits
  rcases subject.toList with _ | ⟨c, _ | ⟨d1, _ | ⟨d2, _ | ⟨d3, _ | ⟨d4, _ | ⟨d5, _ |
    ⟨d6, _ | ⟨e, _ | ⟨r, rest⟩⟩⟩⟩⟩⟩⟩⟩⟩
  all_goals simp only [matchItems, List.replicate, List.cons_append, List.nil_append, hclass]
  all_goals simp [hashAndSixHexDigits]
  cases (e == '\n') <;> simp

/-- The result of `validateGoal` is the conjunction of its checks. -/
theorem validateGoal_fst (goal : Goal) (errorMessage : String) :
    (validateGoal goal errorMessage).1 =
      (!(QString.trimmed goal.title).isEmpty && decide (QString.length goal.title ≤ 255) &&
        ["daily", "weekly", "monthly", "yearly"].contains goal.scope &&
        decide (-1000 ≤ goal.points) && decide (goal.points ≤ 1000) &&
        ["zero", "penalty"].contains goal.missingBehavior &&
        decide (0 ≤ goal.penaltyPoints) && decide (goal.penaltyPoints ≤ 1000) &&
        (goal.colorHex.isEmpty || hasMatch colorRegex goal.colorHex)) := by
  unfold validateGoal
  cases h1 : (QString.trimmed goal.title).isEmpty
  swap
  · simp
  by_cases h2 : QString.length goal.title > 255
  · simp [h2, not_le.mpr h2]
  cases h3 : ["daily", "weekly", "monthly", "yearly"].contains goal.scope
  · simp [h2]
  by_cases h4 : goal.points < -1000
  · simp [h2, h4, not_le.mpr h4]
  by_cases h4' : goal.points > 1000
  · simp [h2, h4, h4', not_le.mpr h4']
  cases h5 : ["zero", "penalty"].contains goal.missingBehavior
  · simp [h2, h4, h4']
  by_cases h6 : goal.penaltyPoints < 0
  · simp [h2, h4, h4', h6, not_le.mpr h6]
  by_cases h6' : goal.penaltyPoints > 1000
  · simp [h2, h4, h4', h6, h6', not_le.mpr h6']
  cases h7 : goal.colorHex.isEmpty
  · cases h8 : hasMatch colorRegex goal.colorHex <;>
      simp [h2, h4, h4', h6, h6', not_lt.mp h2, not_lt.mp h4, not_lt.mp h4', not_lt.mp h6,
        not_lt.mp h6']
  · simp [h2, h4, h4', h6, h6', not_lt.mp h2, not_lt.mp h4, not_lt.mp h4', not_lt.mp h6,
      not_lt.mp h6']

/-- What `validateGoal` accepts: every check of the claim, the one on the colour being passed
by the empty string, by `#` and six hexadecimal digits, and by `#`, six hexadecimal digits
and one line feed. -/
theorem validateGoal_accepts_iff (goal : Goal) (errorMessage : String) :
    (validateGoal goal errorMessage).1 = true ↔
      (QString.trimmed goal.title).isEmpty = false ∧ QString.length goal.title ≤ 255 ∧
      goal.scope ∈ ["daily", "weekly", "monthly", "yearly"] ∧
      -1000 ≤ goal.points ∧ goal.points ≤ 1000 ∧
      goal.missingBehavior ∈ ["zero", "penalty"] ∧
      0 ≤ goal.penaltyPoints ∧ goal.penaltyPoints ≤ 1000 ∧
      (goal.colorHex.isEmpty = true ∨ isHashAndSixHexDigits goal.colorHex = true ∨
        (goal.colorHex.toList.getLast? = some '\n' ∧
          hashAndSixHexDigits goal.colorHex.toList.dropLast = true)) := by
  have hscope : ["daily", "weekly", "monthly", "yearly"].contains goal.scope = true ↔
      goal.scope ∈ ["daily", "weekly", "monthly", "yearly"] := by simp
  have hbehavior : ["zero", "penalty"].contains goal.missingBehavior = true ↔
      goal.missingBehavior ∈ ["zero", "penalty"] := by simp
  rw [validateGoal_fst, hasMatch_colorRegex]
  simp only [Bool.and_eq_true, Bool.or_eq_true, Bool.not_eq_true', decide_eq_true_eq,
    beq_iff_eq, hscope, hbehavior, and_assoc]

/-- Claim C30, evaluated at a colour with a trailing line feed.  The goal whose `colorHex` is
`#FFFFFF` followed by a line feed, eight characters and not `#` followed by six hexadecimal
digits, passes `validateGoal`: the `$` of the pattern also matches just before a final line
feed.  The same goal with `#FFFFFF` passes as it should, and with a trailing blank instead
of the line feed it is rejected with the message on the colour format. -/
theorem validateGoal_trailing_newline :
    validateGoal (sampleValidGoal "#FFFFFF\n") "" = (true, "") ∧
    isHashAndSixHexDigits "#FFFFFF\n" = false ∧
    ("#FFFFFF\n" : String).isEmpty = false ∧
    hasMatch colorRegex "#FFFFFF\n" = true ∧
    validateGoal (sampleValidGoal "#FFFFFF") "" = (true, "") ∧
    isHashAndSixHexDigits "#FFFFFF" = true ∧
    validateGoal (sampleValidGoal "#FFFFFF ") "" =
      (false, "Invalid color format. Must be in format #RRGGBB") := by
  refine ⟨by decide, by decide, by decide, by decide, by decide, by decide, by decide⟩

end Nimo
